import Mathlib

/-!
Rubik's cube: slice registry, quarter turns and the animation controller

A shallow embedding of the puzzle-state code of `src/main.cpp`:
`initCube`, `updateCubePlane`, `rotateCubeByKey`, `rotate`, `shuffleCube`, `resetCube`,
`initData`, `changeMode`, `changeN`, `keyboardEvent` and `animateRotate`, with the global
variables of the program gathered in one record `State`.

Modelling conventions.

* `int` values are `Int`; indices into `Cubes` (the elements of a `std::set<int>`, always
  produced by a loop counter) are `Nat`.
* `glm::vec3` values that the puzzle logic computes are integer valued (products and sums of
  the `±1`/`0` tables and of `N-1`), so `Vec3` has `Int` components; `* glm::vec3(0.5f)`
  followed by the `(int)` cast is truncating division by two (`Int.tdiv`).
* `glm::mat4` is `Matrix (Fin 4) (Fin 4) α` over a commutative ring `α` of scalars.  The
  cosine and sine of the constant angles handed to `glm::rotate` are parameters (`Angle`);
  the exact quarter turn is `Angle.quarter` (cosine `0`, sine `1`).
* `std::set<int>` is `Finset Nat`, iterated in increasing order (`setToList`).
* A `CubePlane*` is a `PlaneRef`: the vector it points into and the index.
* An access `planes[k]` with `k` outside the vector is undefined behaviour in the source.
  `planeInsert` and `planeErase` leave the vector as it is there; this case does not arise
  for `N ≥ 1`, where every index is proved in range.  `initCubeChecked` is `initCube` with
  these accesses checked: it agrees with `initCube` for `N ≥ 1` on cleared data and returns
  `none` for `N < 1`.
-/

set_option autoImplicit false

namespace RubiksCube

/-! ## Vectors and matrices -/

/-- A `glm::vec3` (or a three element `std::vector<int>`) with integer components. -/
structure Vec3 where
  x : Int
  y : Int
  z : Int
deriving DecidableEq, Repr

namespace Vec3

/-- The constructor `glm::vec3(v)`: all three components equal. -/
def splat (v : Int) : Vec3 := ⟨v, v, v⟩

instance : Add Vec3 := ⟨fun a b => ⟨a.x + b.x, a.y + b.y, a.z + b.z⟩⟩
instance : Sub Vec3 := ⟨fun a b => ⟨a.x - b.x, a.y - b.y, a.z - b.z⟩⟩
instance : Mul Vec3 := ⟨fun a b => ⟨a.x * b.x, a.y * b.y, a.z * b.z⟩⟩

/-- Componentwise `* glm::vec3(0.5f)`; on the table differences it is applied to in `initCube`
every component is `0` or `±2`, so the halving is exact. -/
def half (a : Vec3) : Vec3 := ⟨a.x.tdiv 2, a.y.tdiv 2, a.z.tdiv 2⟩

end Vec3

/-- A `glm::mat4` with scalars in `α`. -/
abbrev Mat4 (α : Type) := Matrix (Fin 4) (Fin 4) α

/-- The cosine and the sine of an angle handed to `glm::rotate`. -/
structure Angle (α : Type) where
  cos : α
  sin : α

/-- The exact quarter turn: `cos 90° = 0`, `sin 90° = 1`. -/
def Angle.quarter {α : Type} [CommRing α] : Angle α := ⟨0, 1⟩

/-- The matrix `glm::rotate(angle, v)` for a unit vector `v` (normalising a signed unit vector
leaves it as it is): GLM's axis-angle formula, written in row/column form. -/
def glmRotate {α : Type} [CommRing α] (t : Angle α) (v : Vec3) : Mat4 α :=
  let c := t.cos
  let s := t.sin
  let a0 : α := (v.x : α)
  let a1 : α := (v.y : α)
  let a2 : α := (v.z : α)
  let t0 := (1 - c) * a0
  let t1 := (1 - c) * a1
  let t2 := (1 - c) * a2
  Matrix.of ![![c + t0 * a0, t1 * a0 - s * a2, t2 * a0 + s * a1, 0],
              ![t0 * a1 + s * a2, c + t1 * a1, t2 * a1 - s * a0, 0],
              ![t0 * a2 - s * a1, t1 * a2 + s * a0, c + t2 * a2, 0],
              ![0, 0, 0, 1]]

/-- The matrix `glm::translate(glm::mat4(1.0), p)`. -/
def glmTranslate {α : Type} [CommRing α] (p : Vec3) : Mat4 α :=
  Matrix.of ![![1, 0, 0, (p.x : α)],
              ![0, 1, 0, (p.y : α)],
              ![0, 0, 1, (p.z : α)],
              ![0, 0, 0, 1]]

/-! ## Data model -/

/-- The `struct Cube`; `pn` is `(0,0,0)` until `initCube` assigns it. -/
structure Cube (α : Type) where
  cubeType : Int
  position : Vec3
  rotMat : Mat4 α
  transMat : Mat4 α
  pn : Vec3

/-- The constructor `Cube(cubeType_, position_, rotMat_)`. -/
def Cube.new {α : Type} [CommRing α] (cubeType : Int) (position : Vec3) (rotMat : Mat4 α) :
    Cube α :=
  { cubeType := cubeType, position := position, rotMat := rotMat,
    transMat := glmTranslate position, pn := ⟨0, 0, 0⟩ }

/-- The `struct CubePlane`: a normal vector and the set of cube indices of the slice. -/
structure CubePlane where
  nv : Vec3
  cubeIds : Finset Nat

/-- The three global vectors of planes. -/
inductive Family where
  | X
  | Y
  | Z
deriving DecidableEq, Repr

/-- A `CubePlane*`: `&xCubePlanes[index]`, `&yCubePlanes[index]` or `&zCubePlanes[index]`. -/
structure PlaneRef where
  family : Family
  index : Int
deriving DecidableEq, Repr

/-- The global variables of the program that the puzzle logic reads or writes. -/
structure State (α : Type) where
  N : Int
  outColorMode : Int
  mode : Int
  Cubes : List (Cube α)
  xCubePlanes : List CubePlane
  yCubePlanes : List CubePlane
  zCubePlanes : List CubePlane
  cubeIds2vao : List Int
  pressKey : Int
  selectedCubePlane : Option PlaneRef
  rotating : Bool
  axis : Int
  rotateDir : Bool
  rotateCount : Int

/-- The globals as the program starts: `N = 3`, everything else zero or empty. -/
def State.initial {α : Type} : State α :=
  { N := 3, outColorMode := 0, mode := 0, Cubes := [], xCubePlanes := [], yCubePlanes := [],
    zCubePlanes := [], cubeIds2vao := [], pressKey := 0, selectedCubePlane := none,
    rotating := false, axis := 0, rotateDir := true, rotateCount := 0 }

/-! ## Plane vectors -/

/-- The id set of `planes[k]`; empty when `k` is not an index of the vector. -/
def planeIds (planes : List CubePlane) (k : Int) : Finset Nat :=
  if 0 ≤ k then
    match planes[k.toNat]? with
    | some p => p.cubeIds
    | none => ∅
  else ∅

/-- The statement `planes[k].cubeIds.insert(i)`. -/
def planeInsert (planes : List CubePlane) (k : Int) (i : Nat) : List CubePlane :=
  if 0 ≤ k then planes.modify (fun p => { p with cubeIds := insert i p.cubeIds }) k.toNat
  else planes

/-- The statement `planes[k].cubeIds.erase(i)`. -/
def planeErase (planes : List CubePlane) (k : Int) (i : Nat) : List CubePlane :=
  if 0 ≤ k then planes.modify (fun p => { p with cubeIds := p.cubeIds.erase i }) k.toNat
  else planes

/-- The plane a `CubePlane*` points to. -/
def State.plane {α : Type} (s : State α) (r : PlaneRef) : Option CubePlane :=
  if 0 ≤ r.index then
    match r.family with
    | Family.X => s.xCubePlanes[r.index.toNat]?
    | Family.Y => s.yCubePlanes[r.index.toNat]?
    | Family.Z => s.zCubePlanes[r.index.toNat]?
  else none

/-- The elements of a `std::set<int>` in the order in which a loop from `begin()` to `end()`
visits them: increasing. -/
def setToList (ids : Finset Nat) : List Nat :=
  (List.range (ids.sup id + 1)).filter (fun i => i ∈ ids)

/-- The indices `*itr` that a loop over `selectedCubePlane->cubeIds` visits, in order. -/
def State.planeCubeIds {α : Type} (s : State α) (r : PlaneRef) : List Nat :=
  match s.plane r with
  | some p => setToList p.cubeIds
  | none => []

/-- The vector `selectedCubePlane->nv`. -/
def State.planeNv {α : Type} (s : State α) (r : PlaneRef) : Vec3 :=
  match s.plane r with
  | some p => p.nv
  | none => ⟨0, 0, 0⟩

/-! ## The tables of `main.cpp` -/

/-- The table `cCubePositions`. -/
def cCubePositions : List Vec3 :=
  [⟨-1, 1, -1⟩, ⟨1, 1, -1⟩, ⟨1, 1, 1⟩, ⟨-1, 1, 1⟩,
   ⟨-1, -1, -1⟩, ⟨1, -1, -1⟩, ⟨1, -1, 1⟩, ⟨-1, -1, 1⟩]

/-- The table `cubeEdgeCorners`. -/
def cubeEdgeCorners : List (Nat × Nat) :=
  [(0, 4), (1, 5), (2, 6), (3, 7), (0, 1), (1, 2), (2, 3), (3, 0),
   (4, 5), (5, 6), (6, 7), (7, 4)]

/-- The table `eCubePositions`. -/
def eCubePositions : List Vec3 :=
  [⟨-1, 0, -1⟩, ⟨1, 0, -1⟩, ⟨1, 0, 1⟩, ⟨-1, 0, 1⟩,
   ⟨0, 1, -1⟩, ⟨1, 1, 0⟩, ⟨0, 1, 1⟩, ⟨-1, 1, 0⟩,
   ⟨0, -1, -1⟩, ⟨1, -1, 0⟩, ⟨0, -1, 1⟩, ⟨-1, -1, 0⟩]

/-- The table `cubeFaceEdges`. -/
def cubeFaceEdges : List (Nat × Nat × Nat × Nat) :=
  [(2, 10, 3, 6), (1, 9, 2, 5), (8, 9, 10, 11), (3, 11, 0, 7), (4, 5, 6, 7), (0, 8, 1, 4)]

/-- The table `fCubePositions`. -/
def fCubePositions : List Vec3 :=
  [⟨0, 0, 1⟩, ⟨1, 0, 0⟩, ⟨0, -1, 0⟩, ⟨-1, 0, 0⟩, ⟨0, 1, 0⟩, ⟨0, 0, -1⟩]

/-- Table lookup `table[i]` in a table of vectors. -/
def vecAt (table : List Vec3) (i : Nat) : Vec3 := table.getD i ⟨0, 0, 0⟩

/-! ## `initCube` -/

section Code

variable {α : Type} [CommRing α]

/-- The position `p` of corner `i` in the corner loop of `initCube`. -/
def cornerPos (n : Int) (i : Nat) : Vec3 :=
  vecAt cCubePositions i * Vec3.splat (n - 1)

/-- The corner loop of `initCube`. -/
def cornerCubes (n : Int) : List (Cube α) :=
  (List.range 8).map fun i => Cube.new 1 (cornerPos n i) 1

/-- The vector `dir` of the edge loop for edge `i`. -/
def edgeDir (i : Nat) : Vec3 :=
  (vecAt cCubePositions (cubeEdgeCorners.getD i (0, 0)).1
    - vecAt cCubePositions (cubeEdgeCorners.getD i (0, 0)).2).half

/-- The position `p` of the `j`-th cube of edge `i` in the edge loop of `initCube`. -/
def edgePos (n : Int) (i : Nat) (j : Int) : Vec3 :=
  vecAt eCubePositions i * Vec3.splat (n - 1) + edgeDir i * Vec3.splat (2 * j - (n - 3))

/-- The edge loop of `initCube`. -/
def edgeCubes (n : Int) : List (Cube α) :=
  (List.range 12).flatMap fun i =>
    (List.range (n - 2).toNat).map fun (j : Nat) => Cube.new 2 (edgePos n i (j : Int)) 1

/-- The vector `dir1` of the face loop for face `i`. -/
def faceDir1 (i : Nat) : Vec3 :=
  (vecAt eCubePositions (cubeFaceEdges.getD i (0, 0, 0, 0)).1
    - vecAt eCubePositions (cubeFaceEdges.getD i (0, 0, 0, 0)).2.2.1).half

/-- The vector `dir2` of the face loop for face `i`. -/
def faceDir2 (i : Nat) : Vec3 :=
  (vecAt eCubePositions (cubeFaceEdges.getD i (0, 0, 0, 0)).2.1
    - vecAt eCubePositions (cubeFaceEdges.getD i (0, 0, 0, 0)).2.2.2).half

/-- The position `p` of the cube `(j, k)` of face `i` in the face loop of `initCube`:
`pj + dir2 * (2k - (N-3))` with `pj = fCubePositions[i] * (N-1) + dir1 * (2j - (N-3))`. -/
def facePos (n : Int) (i : Nat) (j k : Int) : Vec3 :=
  vecAt fCubePositions i * Vec3.splat (n - 1) + faceDir1 i * Vec3.splat (2 * j - (n - 3))
    + faceDir2 i * Vec3.splat (2 * k - (n - 3))

/-- The face loop of `initCube`. -/
def faceCubes (n : Int) : List (Cube α) :=
  (List.range 6).flatMap fun i =>
    (List.range (n - 2).toNat).flatMap fun (j : Nat) =>
      (List.range (n - 2).toNat).map fun (k : Nat) =>
        Cube.new 3 (facePos n i (j : Int) (k : Int)) 1

/-- The cubes that `initCube(n)` pushes onto `Cubes` when the global `mode` is `mode`. -/
def newCubes (n mode : Int) : List (Cube α) :=
  if n = 1 then [Cube.new 1 (Vec3.splat (n - 1)) 1]
  else cornerCubes n ++ edgeCubes n ++ (if mode ≠ 2 then faceCubes n else [])

/-- The grid coordinate `{xn, yn, zn}` computed from a reference position:
`(int)` of each component of `(position + glm::vec3(n-1)) * glm::vec3(0.5f)`. -/
def gridCoord (n : Int) (position : Vec3) : Vec3 :=
  (position + Vec3.splat (n - 1)).half

/-- One round of the loop of `initCube` that registers cube `i` in its three planes. -/
def initCubeAssign (n : Int) (i : Nat) (s : State α) : State α :=
  match s.Cubes[i]? with
  | none => s
  | some c =>
    let pn := gridCoord n c.position
    { s with
      xCubePlanes := planeInsert s.xCubePlanes pn.x i
      yCubePlanes := planeInsert s.yCubePlanes pn.y i
      zCubePlanes := planeInsert s.zCubePlanes pn.z i
      Cubes := s.Cubes.modify (fun c => { c with pn := pn }) i }

/-- The value pushed onto `cubeIds2vao` for a cube at grid coordinate `pn`. -/
def vaoIndex (n : Int) (pn : Vec3) : Int :=
  let x := pn.x
  let y := pn.y
  let z := pn.z
  let x := if x < n - 1 ∧ x > 0 then 1 else x
  let y := if y < n - 1 ∧ y > 0 then 1 else y
  let z := if z < n - 1 ∧ z > 0 then 1 else z
  let x := if x = n - 1 then 2 else x
  let y := if y = n - 1 then 2 else y
  let z := if z = n - 1 then 2 else z
  if n > 1 then 9 * x + 3 * y + z else 0

/-- The function `initCube(int N)`; its parameter shadows the global `N`, the mode is the
global `mode`.  For `N < 1` the registration loop of the source indexes the plane vectors
outside their bounds and the call does not complete: `initCubeChecked` models that. -/
def initCube (n : Int) (s : State α) : State α :=
  let s1 : State α :=
    { s with
      xCubePlanes := s.xCubePlanes ++ List.replicate n.toNat ⟨⟨1, 0, 0⟩, ∅⟩
      yCubePlanes := s.yCubePlanes ++ List.replicate n.toNat ⟨⟨0, 1, 0⟩, ∅⟩
      zCubePlanes := s.zCubePlanes ++ List.replicate n.toNat ⟨⟨0, 0, 1⟩, ∅⟩ }
  let s2 : State α := { s1 with Cubes := s1.Cubes ++ newCubes n s1.mode }
  let s3 : State α :=
    (List.range s2.Cubes.length).foldl (fun st i => initCubeAssign n i st) s2
  { s3 with cubeIds2vao := s3.cubeIds2vao ++ s3.Cubes.map (fun c => vaoIndex n c.pn) }

/-! ## `updateCubePlane`, `rotate`, `shuffleCube`, `resetCube` -/

/-- The body of the loop of `updateCubePlane` for `*itr = i`. -/
def updateCubePlaneStep (axis : Int) (dir : Bool) (i : Nat) (s : State α) : State α :=
  match s.Cubes[i]? with
  | none => s
  | some c =>
    let xn := c.pn.x
    let yn := c.pn.y
    let zn := c.pn.z
    if dir then
      if axis = 0 then
        { s with
          yCubePlanes := planeInsert (planeErase s.yCubePlanes yn i) (s.N - 1 - zn) i
          zCubePlanes := planeInsert (planeErase s.zCubePlanes zn i) yn i
          Cubes := s.Cubes.modify (fun c => { c with pn := ⟨c.pn.x, s.N - 1 - zn, yn⟩ }) i }
      else if axis = 1 then
        { s with
          zCubePlanes := planeInsert (planeErase s.zCubePlanes zn i) (s.N - 1 - xn) i
          xCubePlanes := planeInsert (planeErase s.xCubePlanes xn i) zn i
          Cubes := s.Cubes.modify (fun c => { c with pn := ⟨zn, c.pn.y, s.N - 1 - xn⟩ }) i }
      else
        { s with
          xCubePlanes := planeInsert (planeErase s.xCubePlanes xn i) (s.N - 1 - yn) i
          yCubePlanes := planeInsert (planeErase s.yCubePlanes yn i) xn i
          Cubes := s.Cubes.modify (fun c => { c with pn := ⟨s.N - 1 - yn, xn, c.pn.z⟩ }) i }
    else
      if axis = 0 then
        { s with
          yCubePlanes := planeInsert (planeErase s.yCubePlanes yn i) zn i
          zCubePlanes := planeInsert (planeErase s.zCubePlanes zn i) (s.N - 1 - yn) i
          Cubes := s.Cubes.modify (fun c => { c with pn := ⟨c.pn.x, zn, s.N - 1 - yn⟩ }) i }
      else if axis = 1 then
        { s with
          zCubePlanes := planeInsert (planeErase s.zCubePlanes zn i) xn i
          xCubePlanes := planeInsert (planeErase s.xCubePlanes xn i) (s.N - 1 - zn) i
          Cubes := s.Cubes.modify (fun c => { c with pn := ⟨s.N - 1 - zn, c.pn.y, xn⟩ }) i }
      else
        { s with
          xCubePlanes := planeInsert (planeErase s.xCubePlanes xn i) yn i
          yCubePlanes := planeInsert (planeErase s.yCubePlanes yn i) (s.N - 1 - xn) i
          Cubes := s.Cubes.modify (fun c => { c with pn := ⟨yn, s.N - 1 - xn, c.pn.z⟩ }) i }

/-- The function `updateCubePlane(axis, dir, selectedCubePlane)`.  The loop runs over the ids
of the selected plane as they are on entry: the body leaves the planes of the family of
`axis` alone, which is the family of the selected plane at every call site. -/
def updateCubePlane (axis : Int) (dir : Bool) (sel : PlaneRef) (s : State α) : State α :=
  (s.planeCubeIds sel).foldl (fun st i => updateCubePlaneStep axis dir i st) s

/-- The loop shared by `rotate` and `animateRotate`: every cube of the selected plane gets
`glm::rotate(angle, selectedCubePlane->nv * dir) * rotMat` as its new `rotMat`. -/
def turnCubes (t : Angle α) (rotateDir : Bool) (sel : PlaneRef) (s : State α) : State α :=
  let dir := if rotateDir then Vec3.splat 1 else Vec3.splat (-1)
  (s.planeCubeIds sel).foldl
    (fun st i =>
      { st with
        Cubes := st.Cubes.modify
          (fun c => { c with rotMat := glmRotate t (st.planeNv sel * dir) * c.rotMat }) i })
    s

/-- The function `rotate(axis, rotateDir, selectedCubePlane)`; `q` is the angle
`90.0f * PI / 180.0f`. -/
def rotate (q : Angle α) (axis : Int) (rotateDir : Bool) (sel : PlaneRef) (s : State α) :
    State α :=
  updateCubePlane axis rotateDir sel (turnCubes q rotateDir sel s)

/-- One round of the loop of `shuffleCube`; `r0`, `r1`, `r2` are the values that the three
calls of `rand()` return. -/
def shuffleStep (q : Angle α) (r0 r1 r2 : Nat) (s : State α) : State α :=
  let axis : Int := Int.tmod r0 3
  let rotateDir : Bool := decide (Int.tmod r1 2 ≠ 0)
  let n : Int := Int.tmod r2 s.N
  let sel : PlaneRef :=
    if axis = 0 then ⟨Family.X, n⟩ else if axis = 1 then ⟨Family.Y, n⟩ else ⟨Family.Z, n⟩
  rotate q axis rotateDir sel s

/-- The function `shuffleCube()`; `rand k` is the value of the `k`-th call of `rand()`. -/
def shuffleCube (q : Angle α) (rand : Nat → Nat) (s : State α) : State α :=
  (List.range 10).foldl
    (fun st i => shuffleStep q (rand (3 * i)) (rand (3 * i + 1)) (rand (3 * i + 2)) st) s

/-- The statement `planes[i].cubeIds.clear()`. -/
def planeClear (planes : List CubePlane) (i : Nat) : List CubePlane :=
  planes.modify (fun p => { p with cubeIds := ∅ }) i

/-- One round of the second loop of `resetCube`. -/
def resetCubeAssign (i : Nat) (s : State α) : State α :=
  match s.Cubes[i]? with
  | none => s
  | some c =>
    let pn := gridCoord s.N c.position
    { s with
      xCubePlanes := planeInsert s.xCubePlanes pn.x i
      yCubePlanes := planeInsert s.yCubePlanes pn.y i
      zCubePlanes := planeInsert s.zCubePlanes pn.z i
      Cubes := s.Cubes.modify (fun c => { c with rotMat := 1, pn := pn }) i }

/-- The function `resetCube()`. -/
def resetCube (s : State α) : State α :=
  let s1 : State α :=
    (List.range s.N.toNat).foldl
      (fun st i =>
        { st with
          xCubePlanes := planeClear st.xCubePlanes i
          yCubePlanes := planeClear st.yCubePlanes i
          zCubePlanes := planeClear st.zCubePlanes i })
      s
  (List.range s1.Cubes.length).foldl (fun st i => resetCubeAssign i st) s1

/-! ## Keyboard and animation -/

/-- The low byte of a key code: `(char)pressKey == 'R'` holds exactly when `toChar pressKey`
is the ASCII code of `R`. -/
def toChar (key : Int) : Int := key % 256

/-- The assignments of one rotating `case` of `rotateCubeByKey`. -/
def selectPlane (sel : PlaneRef) (axis : Int) (rotateDir : Bool) (s : State α) : State α :=
  { s with selectedCubePlane := some sel, rotating := true, axis := axis,
           rotateDir := rotateDir }

/-- The function `rotateCubeByKey(pressKey)`; the ASCII codes are those of
`R L U D F B M E S`. -/
def rotateCubeByKey (pressKey : Int) (s : State α) : State α :=
  let ch := toChar pressKey
  if ch = 82 then selectPlane ⟨Family.X, s.N - 1⟩ 0 true s
  else if ch = 76 then selectPlane ⟨Family.X, 0⟩ 0 false s
  else if ch = 85 then selectPlane ⟨Family.Y, s.N - 1⟩ 1 true s
  else if ch = 68 then selectPlane ⟨Family.Y, 0⟩ 1 false s
  else if ch = 70 then selectPlane ⟨Family.Z, s.N - 1⟩ 2 true s
  else if ch = 66 then selectPlane ⟨Family.Z, 0⟩ 2 false s
  else if ch = 77 then
    if s.mode = 2 then s else selectPlane ⟨Family.X, Int.tdiv s.N 2⟩ 0 true s
  else if ch = 69 then
    if s.mode = 2 then s else selectPlane ⟨Family.Y, Int.tdiv s.N 2⟩ 1 true s
  else if ch = 83 then
    if s.mode = 2 then s else selectPlane ⟨Family.Z, Int.tdiv s.N 2⟩ 2 false s
  else s

/-- The function `changeColorMode()`. -/
def changeColorMode (s : State α) : State α :=
  let m := s.outColorMode + 1
  { s with outColorMode := if m > 2 then 0 else m }

/-- The function `initData()`. -/
def initData (s : State α) : State α :=
  { s with Cubes := [], xCubePlanes := [], yCubePlanes := [], zCubePlanes := [],
           cubeIds2vao := [] }

/-- The function `changeMode()`; `initVAO` touches no variable of `State`. -/
def changeMode (s : State α) : State α :=
  let m := s.mode + 1
  let s1 : State α := { s with mode := if m > 2 then 0 else m }
  initCube s1.N (initData s1)

/-- The function `changeN(pressKey)`; of `initializeGL` only the call `initCube(N)` touches
a variable of `State`. -/
def changeN (pressKey : Int) (s : State α) : State α :=
  let s1 : State α := { s with N := pressKey - 48 }
  initCube s1.N (initData s1)

/-- The function `keyboardEvent(window, key, scancode, action, mods)`.  `GLFW_PRESS` is `1`,
`GLFW_RELEASE` is `0`, `GLFW_MOD_SUPER` is the bit `8` of `mods`; the ASCII codes are those
of the space, `Q`, `C` and `P`; `rand` gives the values of the calls of `rand()`. -/
def keyboardEvent (q : Angle α) (rand : Nat → Nat) (key action : Int) (mods : Nat)
    (s : State α) : State α :=
  let s1 : State α :=
    if action = 1 then
      let s := { s with pressKey := key }
      let s := if ¬ s.rotating then rotateCubeByKey s.pressKey s else s
      let s := if toChar s.pressKey = 32 then shuffleCube q rand s else s
      let s := if toChar s.pressKey = 81 then resetCube s else s
      let s := if toChar s.pressKey = 67 then changeColorMode s else s
      let s := if toChar s.pressKey = 80 then changeMode s else s
      s
    else if action = 0 then { s with pressKey := 0 }
    else s
  if mods &&& 8 ≠ 0 ∧ s1.pressKey ≥ 49 ∧ s1.pressKey ≤ 57 then changeN s1.pressKey s1 else s1

/-- The function `animateRotate()`; `t` is the angle `10.0f * PI / 180.0f`. -/
def animateRotate (t : Angle α) (s : State α) : State α :=
  if s.rotating then
    match s.selectedCubePlane with
    | none => s
    | some sel =>
      if s.rotateCount < 9 then
        { turnCubes t s.rotateDir sel s with rotateCount := s.rotateCount + 1 }
      else
        { updateCubePlane s.axis s.rotateDir sel s with rotateCount := 0, rotating := false }
  else s

/-- The state right after `initCube(n)` ran on cleared data with the global `N` equal to `n`
and the global `mode` equal to `mode`, as at program start and in `changeN`/`changeMode`. -/
def build (n mode : Int) : State α :=
  initCube n (initData { (State.initial : State α) with N := n, mode := mode })

end Code

/-! ## Vocabulary of the statements -/

section Vocabulary

variable {α : Type} [CommRing α]

/-- The vector of planes of one family. -/
def State.planes (s : State α) (f : Family) : List CubePlane :=
  match f with
  | Family.X => s.xCubePlanes
  | Family.Y => s.yCubePlanes
  | Family.Z => s.zCubePlanes

/-- The family of planes that a turn about `axis` selects from, as in `shuffleCube`:
`xCubePlanes` for `0`, `yCubePlanes` for `1`, `zCubePlanes` otherwise. -/
def axisFamily (axis : Int) : Family :=
  if axis = 0 then Family.X else if axis = 1 then Family.Y else Family.Z

/-- The component of a vector along axis `0` (x), `1` (y) or `2` (z). -/
def Vec3.comp (v : Vec3) (axis : Int) : Int :=
  if axis = 0 then v.x else if axis = 1 then v.y else v.z

/-- The axis `B` of the pair `(B, C)` of the specification: `Y` for `X`, `Z` for `Y`,
`X` for `Z`. -/
def axisB (axis : Int) : Int := if axis = 0 then 1 else if axis = 1 then 2 else 0

/-- The axis `C` of the pair `(B, C)` of the specification: `Z` for `X`, `X` for `Y`,
`Y` for `Z`. -/
def axisC (axis : Int) : Int := if axis = 0 then 2 else if axis = 1 then 0 else 1

/-- The grid coordinate that the loop body of `updateCubePlane` assigns to a cube whose grid
coordinate is `p`. -/
def turnPn (n axis : Int) (dir : Bool) (p : Vec3) : Vec3 :=
  if dir then
    if axis = 0 then ⟨p.x, n - 1 - p.z, p.y⟩
    else if axis = 1 then ⟨p.z, p.y, n - 1 - p.x⟩
    else ⟨n - 1 - p.y, p.x, p.z⟩
  else
    if axis = 0 then ⟨p.x, p.z, n - 1 - p.y⟩
    else if axis = 1 then ⟨n - 1 - p.z, p.y, p.x⟩
    else ⟨p.y, n - 1 - p.x, p.z⟩

/-- All three components of a grid coordinate lie in `[0, n-1]`. -/
def InRange (n : Int) (p : Vec3) : Prop :=
  (0 ≤ p.x ∧ p.x < n) ∧ (0 ≤ p.y ∧ p.y < n) ∧ (0 ≤ p.z ∧ p.z < n)

instance (n : Int) (p : Vec3) : Decidable (InRange n p) := by
  unfold InRange; infer_instance

/-- Consistency of the slice registry with the grid coordinates: there are `N` planes per
family, with the normal of their family; every grid coordinate, also the one computed from
the reference position, is in range; and a plane holds exactly the cubes whose grid coordinate
has the plane's index on the plane's axis. -/
structure Inv (s : State α) : Prop where
  one_le : 1 ≤ s.N
  xlen : (s.xCubePlanes.length : Int) = s.N
  ylen : (s.yCubePlanes.length : Int) = s.N
  zlen : (s.zCubePlanes.length : Int) = s.N
  xnv : ∀ p, p ∈ s.xCubePlanes → p.nv = ⟨1, 0, 0⟩
  ynv : ∀ p, p ∈ s.yCubePlanes → p.nv = ⟨0, 1, 0⟩
  znv : ∀ p, p ∈ s.zCubePlanes → p.nv = ⟨0, 0, 1⟩
  pos : ∀ (i : Nat) (c : Cube α), s.Cubes[i]? = some c → InRange s.N (gridCoord s.N c.position)
  range : ∀ (i : Nat) (c : Cube α), s.Cubes[i]? = some c → InRange s.N c.pn
  xmem : ∀ (k : Int) (i : Nat),
    i ∈ planeIds s.xCubePlanes k ↔ ∃ c, s.Cubes[i]? = some c ∧ c.pn.x = k
  ymem : ∀ (k : Int) (i : Nat),
    i ∈ planeIds s.yCubePlanes k ↔ ∃ c, s.Cubes[i]? = some c ∧ c.pn.y = k
  zmem : ∀ (k : Int) (i : Nat),
    i ∈ planeIds s.zCubePlanes k ↔ ∃ c, s.Cubes[i]? = some c ∧ c.pn.z = k

/-- The states that `rotate` and `resetCube` calls lead to from the state that `initCube(n)`
builds: every `rotate` call is about an axis in `{0, 1, 2}`, on a plane of the family of
that axis, with a layer index in `[0, n-1]`. -/
inductive Reachable (q : Angle α) (n mode : Int) : State α → Prop
  | init : Reachable q n mode (build n mode)
  | rotate {s : State α} (axis : Int) (dir : Bool) (k : Int) :
      Reachable q n mode s → (axis = 0 ∨ axis = 1 ∨ axis = 2) → 0 ≤ k → k < n →
      Reachable q n mode (rotate q axis dir ⟨axisFamily axis, k⟩ s)
  | reset {s : State α} : Reachable q n mode s → Reachable q n mode (resetCube s)

end Vocabulary

section Vocabulary2

variable {α : Type} [CommRing α]

/-- The matrix that `rotate` and `animateRotate` multiply every cube of the selected plane
with, from the left: `glm::rotate(angle, selectedCubePlane->nv * dir)`. -/
def turnMat (t : Angle α) (rotateDir : Bool) (sel : PlaneRef) (s : State α) : Mat4 α :=
  glmRotate t (s.planeNv sel * (if rotateDir then Vec3.splat 1 else Vec3.splat (-1)))

/-- What `resetCube` (and the registration loop of `initCube`) makes of a cube. -/
def Cube.reset (n : Int) (c : Cube α) : Cube α :=
  { c with rotMat := 1, pn := gridCoord n c.position }

end Vocabulary2

/-- The component of a grid coordinate that indexes the planes of a family. -/
def Vec3.along (v : Vec3) (f : Family) : Int :=
  match f with
  | Family.X => v.x
  | Family.Y => v.y
  | Family.Z => v.z

/-- The normal vector that `initCube` gives to the planes of a family. -/
def Family.nv (f : Family) : Vec3 :=
  match f with
  | Family.X => ⟨1, 0, 0⟩
  | Family.Y => ⟨0, 1, 0⟩
  | Family.Z => ⟨0, 0, 1⟩

/-- The part of `Inv` that `resetCube` relies on: the shape of the three plane vectors and
the range of the grid coordinates computed from the reference positions. -/
structure Frame {α : Type} (s : State α) : Prop where
  one_le : 1 ≤ s.N
  len : ∀ fam : Family, ((s.planes fam).length : Int) = s.N
  nv : ∀ (fam : Family) (p : CubePlane), p ∈ s.planes fam → p.nv = fam.nv
  pos : ∀ (i : Nat) (c : Cube α), s.Cubes[i]? = some c → InRange s.N (gridCoord s.N c.position)

/-- The state between the two loops of `resetCube`. -/
def clearedState {α : Type} (s : State α) : State α :=
  { s with
    xCubePlanes := (List.range s.N.toNat).foldl (fun ps i => planeClear ps i) s.xCubePlanes
    yCubePlanes := (List.range s.N.toNat).foldl (fun ps i => planeClear ps i) s.yCubePlanes
    zCubePlanes := (List.range s.N.toNat).foldl (fun ps i => planeClear ps i) s.zCubePlanes }

/-- The grid coordinate of corner `i`, in closed form. -/
def cornerCell (n : Int) (i : Nat) : Vec3 :=
  match i with
  | 0 => ⟨0, n - 1, 0⟩
  | 1 => ⟨n - 1, n - 1, 0⟩
  | 2 => ⟨n - 1, n - 1, n - 1⟩
  | 3 => ⟨0, n - 1, n - 1⟩
  | 4 => ⟨0, 0, 0⟩
  | 5 => ⟨n - 1, 0, 0⟩
  | 6 => ⟨n - 1, 0, n - 1⟩
  | _ => ⟨0, 0, n - 1⟩

/-- The grid coordinate of the `j`-th cube of edge `i`, in closed form. -/
def edgeCell (n : Int) (i : Nat) (j : Int) : Vec3 :=
  match i with
  | 0 => ⟨0, j + 1, 0⟩
  | 1 => ⟨n - 1, j + 1, 0⟩
  | 2 => ⟨n - 1, j + 1, n - 1⟩
  | 3 => ⟨0, j + 1, n - 1⟩
  | 4 => ⟨n - 2 - j, n - 1, 0⟩
  | 5 => ⟨n - 1, n - 1, n - 2 - j⟩
  | 6 => ⟨j + 1, n - 1, n - 1⟩
  | 7 => ⟨0, n - 1, j + 1⟩
  | 8 => ⟨n - 2 - j, 0, 0⟩
  | 9 => ⟨n - 1, 0, n - 2 - j⟩
  | 10 => ⟨j + 1, 0, n - 1⟩
  | _ => ⟨0, 0, j + 1⟩

/-- The grid coordinate of the cube `(j, k)` of face `i`, in closed form. -/
def faceCell (n : Int) (i : Nat) (j k : Int) : Vec3 :=
  match i with
  | 0 => ⟨j + 1, n - 2 - k, n - 1⟩
  | 1 => ⟨n - 1, n - 2 - k, n - 2 - j⟩
  | 2 => ⟨k + 1, 0, n - 2 - j⟩
  | 3 => ⟨0, n - 2 - k, j + 1⟩
  | 4 => ⟨k + 1, n - 1, n - 2 - j⟩
  | _ => ⟨n - 2 - j, n - 2 - k, 0⟩


/-- The state of `initCube(n)` once the planes and the cubes are pushed, before the loop that
registers the cubes in the planes. -/
def pushed {α : Type} [CommRing α] (n : Int) (s : State α) : State α :=
  { s with
    xCubePlanes := s.xCubePlanes ++ List.replicate n.toNat ⟨⟨1, 0, 0⟩, ∅⟩
    yCubePlanes := s.yCubePlanes ++ List.replicate n.toNat ⟨⟨0, 1, 0⟩, ∅⟩
    zCubePlanes := s.zCubePlanes ++ List.replicate n.toNat ⟨⟨0, 0, 1⟩, ∅⟩
    Cubes := s.Cubes ++ newCubes n s.mode }

/-- The cleared globals on which `initCube(n)` runs at program start, in `changeN` and in
`changeMode`. -/
def blank {α : Type} (n mode : Int) : State α :=
  initData { (State.initial : State α) with N := n, mode := mode }

/-- The state of `initCube(n)` after the loop that registers the cubes in the planes, before
the loop that fills `cubeIds2vao`. -/
def registered {α : Type} [CommRing α] (n : Int) (s : State α) : State α :=
  (List.range (pushed n s).Cubes.length).foldl (fun st i => initCubeAssign n i st) (pushed n s)

section Vocabulary3

variable {α : Type} [CommRing α]

/-- What `rotate` makes of a cube of the selected plane. -/
def Cube.turned (R : Mat4 α) (n axis : Int) (dir : Bool) (c : Cube α) : Cube α :=
  { c with rotMat := R * c.rotMat, pn := turnPn n axis dir c.pn }


/-- The grid coordinate `Cubes[i].pn`, when `i` is an index of `Cubes`. -/
def State.pnOf {α : Type} (s : State α) (i : Nat) : Option Vec3 := (s.Cubes[i]?).map (fun c => c.pn)

/-- The orientation `Cubes[i].rotMat`, when `i` is an index of `Cubes`. -/
def State.rotOf (s : State α) (i : Nat) : Option (Mat4 α) := (s.Cubes[i]?).map (fun c => c.rotMat)

end Vocabulary3

section Vocabulary4

variable {α : Type} [CommRing α]

/-- The matrix `glm::rotate(angle, nv * dir)` for the normal vector of the planes of a
family. -/
def Family.turnMat (t : Angle α) (fam : Family) (d : Bool) : Mat4 α :=
  glmRotate t (fam.nv * (if d then Vec3.splat 1 else Vec3.splat (-1)))

/-- The sign of a direction: `1` for `true`, `-1` for `false`. -/
def dirSign (d : Bool) : α := if d then 1 else -1

end Vocabulary4

/-- The state `s'` agrees with `s` on every variable other than `Cubes` and the three vectors
of planes. -/
def SameRest {α : Type} (s s' : State α) : Prop :=
  s'.N = s.N ∧ s'.outColorMode = s.outColorMode ∧ s'.mode = s.mode ∧
  s'.cubeIds2vao = s.cubeIds2vao ∧ s'.pressKey = s.pressKey ∧
  s'.selectedCubePlane = s.selectedCubePlane ∧ s'.rotating = s.rotating ∧
  s'.axis = s.axis ∧ s'.rotateDir = s.rotateDir ∧ s'.rotateCount = s.rotateCount

/-- The vector `glm::vec3(M * glm::vec4(p, 1))`: the matrix `M` applied to the point `p`. -/
def applyMat (M : Mat4 ℤ) (p : Vec3) : Vec3 :=
  ⟨M 0 0 * p.x + M 0 1 * p.y + M 0 2 * p.z + M 0 3,
   M 1 0 * p.x + M 1 1 * p.y + M 1 2 * p.z + M 1 3,
   M 2 0 * p.x + M 2 1 * p.y + M 2 2 * p.z + M 2 3⟩

/-- Orientation and grid coordinate of a cube agree: twice the grid coordinate is the turned reference position
shifted by `n - 1`. -/
def Oriented (n : Int) (c : Cube ℤ) : Prop :=
  applyMat c.rotMat c.position + Vec3.splat (n - 1) = ⟨2 * c.pn.x, 2 * c.pn.y, 2 * c.pn.z⟩


/-- The number of cubes of a type in a list of cubes. -/
def typeCount {α : Type} (t : Int) (l : List (Cube α)) : Nat :=
  (l.filter (fun c => decide (c.cubeType = t))).length


/-- The ASCII codes of the keys `R L U D F B M E S` that request a rotation. -/
def rotationKeys : List Int := [82, 76, 85, 68, 70, 66, 77, 69, 83]

/-- The state `st` is `m` ticks into the animation that `selectPlane sel axis dir` started in
the state `s`, `R` being the matrix of one tick: the controller is animating with counter
`m`, the planes are those of `s`, and the cubes are those of `s` except that the cubes of the
selected plane have their orientation multiplied by `R ^ m` from the left. -/
structure Animating {α : Type} [CommRing α] (s : State α) (sel : PlaneRef) (axis : Int)
    (dir : Bool) (R : Mat4 α) (m : Nat) (st : State α) : Prop where
  rotating : st.rotating = true
  count : st.rotateCount = m
  selected : st.selectedCubePlane = some sel
  axis_eq : st.axis = axis
  dir_eq : st.rotateDir = dir
  N_eq : st.N = s.N
  planes : ∀ fam : Family, st.planes fam = s.planes fam
  cubes : ∀ j : Nat, st.Cubes[j]? =
    if j ∈ s.planeCubeIds sel then
      (s.Cubes[j]?).map (fun c => { c with rotMat := R ^ m * c.rotMat })
    else s.Cubes[j]?

/-! ### Cells of the grid -/

/-- A component of a grid coordinate lies on a face of the cube: it is `0` or `n - 1`. -/
def onFace (n v : Int) : Prop := v = 0 ∨ v = n - 1

/-- A cell of the grid with all three components on a face. -/
def IsCornerCell (n : Int) (p : Vec3) : Prop :=
  onFace n p.x ∧ onFace n p.y ∧ onFace n p.z

/-- A cell of the grid with exactly two components on a face. -/
def IsEdgeCell (n : Int) (p : Vec3) : Prop :=
  InRange n p ∧
    ((¬ onFace n p.x ∧ onFace n p.y ∧ onFace n p.z) ∨
     (onFace n p.x ∧ ¬ onFace n p.y ∧ onFace n p.z) ∨
     (onFace n p.x ∧ onFace n p.y ∧ ¬ onFace n p.z))

/-- A cell of the grid with exactly one component on a face. -/
def IsFaceCell (n : Int) (p : Vec3) : Prop :=
  InRange n p ∧
    ((onFace n p.x ∧ ¬ onFace n p.y ∧ ¬ onFace n p.z) ∨
     (¬ onFace n p.x ∧ onFace n p.y ∧ ¬ onFace n p.z) ∨
     (¬ onFace n p.x ∧ ¬ onFace n p.y ∧ onFace n p.z))

/-- A shell cell: a cell of the grid with some component on a face. -/
def ShellCell (n : Int) (p : Vec3) : Prop :=
  InRange n p ∧ (onFace n p.x ∨ onFace n p.y ∨ onFace n p.z)

/-- A shell cell with at least two components on a face. -/
def VoidCell (n : Int) (p : Vec3) : Prop :=
  InRange n p ∧
    ((onFace n p.x ∧ onFace n p.y) ∨ (onFace n p.x ∧ onFace n p.z) ∨
     (onFace n p.y ∧ onFace n p.z))

/-- A strictly interior cell: all three components strictly between `0` and `n - 1`. -/
def InteriorCell (n : Int) (p : Vec3) : Prop :=
  (0 < p.x ∧ p.x < n - 1) ∧ (0 < p.y ∧ p.y < n - 1) ∧ (0 < p.z ∧ p.z < n - 1)

/-- The cells that the cubes occupy: in void mode (`mode = 2`) the shell cells with at least
two components on a face, in the other modes every shell cell. -/
def OccupiedCell (n mode : Int) (p : Vec3) : Prop :=
  if mode = 2 then VoidCell n p else ShellCell n p

/-- The grid coordinates of the corner cubes, in the order of the corner loop. -/
def cornerCells (n : Int) : List Vec3 := (List.range 8).map (cornerCell n)

/-- The grid coordinates of the edge cubes, in the order of the edge loop. -/
def edgeCells (n : Int) : List Vec3 :=
  (List.range 12).flatMap fun i =>
    (List.range (n - 2).toNat).map fun (j : Nat) => edgeCell n i (j : Int)

/-- The grid coordinates of the face cubes, in the order of the face loop. -/
def faceCells (n : Int) : List Vec3 :=
  (List.range 6).flatMap fun i =>
    (List.range (n - 2).toNat).flatMap fun (j : Nat) =>
      (List.range (n - 2).toNat).map fun (k : Nat) => faceCell n i (j : Int) (k : Int)

/-- The grid coordinates of the cubes that `initCube(n)` builds, in the order of `Cubes`. -/
def cells (n mode : Int) : List Vec3 :=
  if n = 1 then [⟨0, 0, 0⟩]
  else cornerCells n ++ edgeCells n ++ (if mode ≠ 2 then faceCells n else [])

/-- What a turn about `axis` of the plane `k` makes of a cell: the cells of the plane follow
the rule of `updateCubePlane`, the other cells stay. -/
def sliceTurn (n axis : Int) (dir : Bool) (k : Int) (p : Vec3) : Vec3 :=
  if p.along (axisFamily axis) = k then turnPn n axis dir p else p

/-- No two cubes share a grid coordinate, and the occupied cells are those of `OccupiedCell`. -/
def CellsOK {α : Type} (n mode : Int) (s : State α) : Prop :=
  (∀ (i j : Nat) (p : Vec3), s.pnOf i = some p → s.pnOf j = some p → i = j) ∧
  (∀ p : Vec3, (∃ i : Nat, s.pnOf i = some p) ↔ OccupiedCell n mode p)

/-! ### Vocabulary of the later statements -/

/-- The class of a grid-coordinate component in the words of the specification: `0` for the
low face (index `0`), `2` for the high face (index `n - 1`), `1` for an interior index. -/
def faceClass (n v : Int) : Int := if v = 0 then 0 else if v = n - 1 then 2 else 1

/-- The table `cubeIds2vao` holds one visual-variant index per cube, and the index of a cube
is the one that the specification derives from its grid coordinate: `9 c(x) + 3 c(y) + c(z)`
for `n > 1`, the fixed value `0` for `n = 1`; it lies in `[0, 26]` and is not `13`. -/
def VisualOK {α : Type} (n : Int) (s : State α) : Prop :=
  s.cubeIds2vao.length = s.Cubes.length ∧
  ∀ (i : Nat) (c : Cube α), s.Cubes[i]? = some c →
    ∃ v : Int, s.cubeIds2vao[i]? = some v ∧
      (1 < n → v = 9 * faceClass n c.pn.x + 3 * faceClass n c.pn.y + faceClass n c.pn.z) ∧
      (n = 1 → v = 0) ∧ 0 ≤ v ∧ v ≤ 26 ∧ v ≠ 13

/-- The kind of cell that goes with a cube type: a corner cell (all three components on a
face) for type `1`, an edge cell (exactly two) for type `2`, a face cell (exactly one) for
type `3`. -/
def TypeCell (n t : Int) (p : Vec3) : Prop :=
  (t = 1 ∧ IsCornerCell n p) ∨ (t = 2 ∧ IsEdgeCell n p) ∨ (t = 3 ∧ IsFaceCell n p)

/-- A component `p` of a reference position lies in the symmetric range of the size `n`:
`-(n-1) ≤ p ≤ n-1` with `p + (n-1)` even. -/
def SymRange (n p : Int) : Prop := -(n - 1) ≤ p ∧ p ≤ n - 1 ∧ (p + (n - 1)) % 2 = 0

/-- What the registration loop of `initCube` leaves alone: the sizes of `Cubes` and of the
three plane vectors, `N` and `mode`. -/
def SameShape {α : Type} (s s' : State α) : Prop :=
  s'.Cubes.length = s.Cubes.length ∧
  (∀ fam : Family, (s'.planes fam).length = (s.planes fam).length) ∧
  s'.N = s.N ∧ s'.mode = s.mode

/-! ### The main loop -/

/-- What the main loop of `main` runs, one call after the other: `animateRotate` once per
frame, and `keyboardEvent` for every key event that `glfwPollEvents` delivers; `rand` gives the
values that the calls of `rand()` return during that call of `keyboardEvent`. -/
inductive Event where
  | tick
  | key (key action : Int) (mods : Nat) (rand : Nat → Nat)

/-- The number of frames in a list of events. -/
def ticks : List Event → Nat
  | [] => 0
  | Event.tick :: es => ticks es + 1
  | Event.key _ _ _ _ :: es => ticks es

/-- The value of `pressKey` after `keyboardEvent` with the given key and action, `pk` being
its value before: a press stores the key, a release stores `0`, a repeat leaves it. -/
def pressKeyAfter (pk key action : Int) : Int :=
  if action = 1 then key else if action = 0 then 0 else pk

/-- The key event calls none of `shuffleCube`, `resetCube`, `changeMode` and `changeN`: it is
not a press of the space bar, of `Q` or of `P`, and it does not come with the Super modifier
down while `pressKey`, as the event leaves it, is a digit `1`..`9`; `pk` is the value of
`pressKey` before the event. -/
def quietKey (pk key action : Int) (mods : Nat) : Prop :=
  (action = 1 → toChar key ≠ 32 ∧ toChar key ≠ 81 ∧ toChar key ≠ 80) ∧
  ¬ (mods &&& 8 ≠ 0 ∧ pressKeyAfter pk key action ≥ 49 ∧ pressKeyAfter pk key action ≤ 57)

/-- Every key event of the list is quiet, `pk` being the value of `pressKey` before the first
event of the list. -/
def quietFrom (pk : Int) : List Event → Prop
  | [] => True
  | Event.tick :: es => quietFrom pk es
  | Event.key k a m _ :: es => quietKey pk k a m ∧ quietFrom (pressKeyAfter pk k a) es

section MainLoop

variable {α : Type} [CommRing α]

/-- One call made by the main loop: `animateRotate()` for a frame, `keyboardEvent(...)` for a
key event; `q` and `t` are the angles of `rotate` and of `animateRotate`. -/
def mainLoopStep (q t : Angle α) (e : Event) (s : State α) : State α :=
  match e with
  | Event.tick => animateRotate t s
  | Event.key k a m r => keyboardEvent q r k a m s

/-- The main loop over a list of events, in order. -/
def mainLoop (q t : Angle α) (es : List Event) (s : State α) : State α :=
  es.foldl (fun st e => mainLoopStep q t e st) s

end MainLoop

/-! ### `initCube` with checked accesses -/

/-- The three accesses `xCubePlanes[xn]`, `yCubePlanes[yn]`, `zCubePlanes[zn]` that the
registration loop of `initCube(n)` makes for the cube `i` stay inside the vectors. -/
def accessOK {α : Type} (n : Int) (i : Nat) (s : State α) : Bool :=
  match s.Cubes[i]? with
  | none => true
  | some c =>
    decide ((0 ≤ (gridCoord n c.position).x ∧
        (gridCoord n c.position).x < (s.xCubePlanes.length : Int)) ∧
      (0 ≤ (gridCoord n c.position).y ∧
        (gridCoord n c.position).y < (s.yCubePlanes.length : Int)) ∧
      (0 ≤ (gridCoord n c.position).z ∧
        (gridCoord n c.position).z < (s.zCubePlanes.length : Int)))

section Checked

variable {α : Type} [CommRing α]

/-- One round of the registration loop of `initCube` with the accesses to the plane vectors
checked: `none` when an index is outside its vector, where the source has undefined
behaviour. -/
def initCubeAssignChecked (n : Int) (i : Nat) (s : State α) : Option (State α) :=
  if accessOK n i s then some (initCubeAssign n i s) else none

/-- The function `initCube(int N)` with the accesses to the plane vectors checked: the planes
and the cubes are pushed as in `initCube`, and the result is `none` when the registration loop
indexes a plane vector outside its bounds. -/
def initCubeChecked (n : Int) (s : State α) : Option (State α) :=
  ((List.range (pushed n s).Cubes.length).foldlM
      (fun st i => initCubeAssignChecked n i st) (pushed n s)).map
    (fun s3 => { s3 with
      cubeIds2vao := s3.cubeIds2vao ++ s3.Cubes.map (fun c => vaoIndex n c.pn) })

/-- The function `changeN(pressKey)` with the accesses of `initCube` checked. -/
def changeNChecked (pressKey : Int) (s : State α) : Option (State α) :=
  let s1 : State α := { s with N := pressKey - 48 }
  initCubeChecked s1.N (initData s1)

end Checked

/-! ## Plane vectors and the loop body of `updateCubePlane` -/

section Lemmas

variable {α : Type} [CommRing α]

theorem length_planeInsert (ps : List CubePlane) (k : Int) (i : Nat) :
    (planeInsert ps k i).length = ps.length := by
  unfold planeInsert; split <;> simp

theorem length_planeErase (ps : List CubePlane) (k : Int) (i : Nat) :
    (planeErase ps k i).length = ps.length := by
  unfold planeErase; split <;> simp

theorem mem_planeIds_planeInsert (ps : List CubePlane) (k k' : Int) (i j : Nat) :
    j ∈ planeIds (planeInsert ps k i) k' ↔
      j ∈ planeIds ps k' ∨ (j = i ∧ k' = k ∧ 0 ≤ k ∧ k < ps.length) := by
  unfold planeIds planeInsert
  by_cases hk : 0 ≤ k <;> by_cases hk' : 0 ≤ k' <;> simp only [hk, hk', if_true, if_false]
  · rw [List.getElem?_modify]
    by_cases hkk : k.toNat = k'.toNat
    · have : k' = k := by omega
      subst this
      cases h : ps[k'.toNat]? with
      | none =>
        have := List.getElem?_eq_none_iff.mp h
        simp
        omega
      | some p =>
        have h1 := (List.getElem?_eq_some_iff.mp h).1
        have h2 : k' < (ps.length : Int) := by omega
        simp [h2, hk]
        tauto
    · have : k' ≠ k := by omega
      cases h : ps[k'.toNat]? <;> simp [hkk, this]
  · simp; intro _ h; omega
  · cases h : ps[k'.toNat]? <;> simp
  · simp

theorem mem_planeIds_planeErase (ps : List CubePlane) (k k' : Int) (i j : Nat) :
    j ∈ planeIds (planeErase ps k i) k' ↔
      j ∈ planeIds ps k' ∧ ¬ (j = i ∧ k' = k) := by
  unfold planeIds planeErase
  by_cases hk : 0 ≤ k <;> by_cases hk' : 0 ≤ k' <;> simp only [hk, hk', if_true, if_false]
  · rw [List.getElem?_modify]
    by_cases hkk : k.toNat = k'.toNat
    · have : k' = k := by omega
      subst this
      cases h : ps[k'.toNat]? with
      | none => simp
      | some p => simp; tauto
    · have : k' ≠ k := by omega
      cases h : ps[k'.toNat]? <;> simp [hkk, this]
  · simp
  · cases h : ps[k'.toNat]? <;> simp
    all_goals (intro _ _; omega)
  · simp

theorem mem_planeIds_move (ps : List CubePlane) (a b k : Int) (i j : Nat) :
    j ∈ planeIds (planeInsert (planeErase ps a i) b i) k ↔
      (j ∈ planeIds ps k ∧ ¬ (j = i ∧ k = a)) ∨ (j = i ∧ k = b ∧ 0 ≤ b ∧ b < ps.length) := by
  rw [mem_planeIds_planeInsert, mem_planeIds_planeErase, length_planeErase]

theorem map_nv_modify (ps : List CubePlane) (f : CubePlane → CubePlane)
    (hf : ∀ p, (f p).nv = p.nv) (i : Nat) :
    (ps.modify f i).map (fun p => p.nv) = ps.map (fun p => p.nv) := by
  apply List.ext_getElem?
  intro m
  rw [List.getElem?_map, List.getElem?_map, List.getElem?_modify]
  cases ps[m]? with
  | none => rfl
  | some p => by_cases h : i = m <;> simp [h, hf]

theorem map_nv_planeInsert (ps : List CubePlane) (k : Int) (i : Nat) :
    (planeInsert ps k i).map (fun p => p.nv) = ps.map (fun p => p.nv) := by
  unfold planeInsert
  split
  · apply map_nv_modify; intro p; rfl
  · rfl

theorem map_nv_planeErase (ps : List CubePlane) (k : Int) (i : Nat) :
    (planeErase ps k i).map (fun p => p.nv) = ps.map (fun p => p.nv) := by
  unfold planeErase
  split
  · apply map_nv_modify; intro p; rfl
  · rfl

theorem nv_of_map_eq (ps ps' : List CubePlane)
    (h : ps'.map (fun p => p.nv) = ps.map (fun p => p.nv)) (v : Vec3)
    (hv : ∀ p, p ∈ ps → p.nv = v) : ∀ p, p ∈ ps' → p.nv = v := by
  intro p hp
  have h1 : p.nv ∈ ps'.map (fun p => p.nv) := List.mem_map_of_mem _ hp
  rw [h] at h1
  obtain ⟨p0, hp0, e⟩ := List.mem_map.mp h1
  rw [← e]; exact hv p0 hp0

theorem modify_of_getElem?_none {β : Type} (f : β → β) (l : List β) (i : Nat)
    (h : l[i]? = none) : l.modify f i = l := by
  apply List.ext_getElem?
  intro m
  rw [List.getElem?_modify]
  by_cases him : i = m
  · subst him; simp [h]
  · simp [him]

theorem modify_congr_at {β : Type} (f g : β → β) (l : List β) (i : Nat) (c : β)
    (h : l[i]? = some c) (hfg : f c = g c) : l.modify f i = l.modify g i := by
  apply List.ext_getElem?
  intro m
  rw [List.getElem?_modify, List.getElem?_modify]
  by_cases him : i = m
  · subst him; simp [h, hfg]
  · simp [him]

omit [CommRing α] in
theorem updateCubePlaneStep_Cubes (axis : Int) (dir : Bool) (i : Nat) (s : State α) :
    (updateCubePlaneStep axis dir i s).Cubes =
      s.Cubes.modify (fun c => { c with pn := turnPn s.N axis dir c.pn }) i := by
  unfold updateCubePlaneStep
  cases h : s.Cubes[i]? with
  | none => simp only []; rw [modify_of_getElem?_none _ _ _ h]
  | some c =>
    simp only []
    split_ifs with h1 h2 h3 <;>
      simp only [] <;> apply modify_congr_at _ _ _ _ c h <;> simp [turnPn, h1, *]

theorem turnPn_inRange (n axis : Int) (dir : Bool) (p : Vec3) (h : InRange n p) :
    InRange n (turnPn n axis dir p) := by
  unfold InRange turnPn at *
  split_ifs <;> simp only [] <;> omega

omit [CommRing α] in
theorem updateCubePlaneStep_N (axis : Int) (dir : Bool) (i : Nat) (s : State α) :
    (updateCubePlaneStep axis dir i s).N = s.N := by
  unfold updateCubePlaneStep
  cases h : s.Cubes[i]? with
  | none => rfl
  | some c => simp only []; split_ifs <;> rfl

omit [CommRing α] in
theorem mem_move_of_inv (ps : List CubePlane) (cs : List (Cube α)) (f : Cube α → Cube α)
    (comp : Vec3 → Int) (n : Int) (i : Nat) (c : Cube α) (b : Int)
    (hlen : (ps.length : Int) = n)
    (hc : cs[i]? = some c) (hb : 0 ≤ b ∧ b < n) (hf : comp (f c).pn = b)
    (hmem : ∀ (k : Int) (j : Nat), j ∈ planeIds ps k ↔ ∃ c, cs[j]? = some c ∧ comp c.pn = k) :
    ∀ (k : Int) (j : Nat), j ∈ planeIds (planeInsert (planeErase ps (comp c.pn) i) b i) k ↔
      ∃ c', (cs.modify f i)[j]? = some c' ∧ comp c'.pn = k := by
  intro k j
  rw [mem_planeIds_move, hmem, List.getElem?_modify]
  by_cases hji : j = i
  · subst hji
    simp only [hc, Option.some.injEq, exists_eq_left', true_and, if_true, Option.map_eq_map,
      Option.map_some']
    constructor
    · rintro (⟨h1, h2⟩ | ⟨h1, _⟩)
      · exact absurd h1.symm h2
      · rw [hf]; exact h1.symm
    · intro h
      right
      rw [hf] at h
      exact ⟨h.symm, hb.1, by omega⟩
  · have hij : ¬ i = j := fun h => hji h.symm
    simp only [hji, false_and, not_false_eq_true, and_true, or_false, hij, if_false]
    cases cs[j]? <;> simp

omit [CommRing α] in
theorem mem_keep_of_inv (ps : List CubePlane) (cs : List (Cube α)) (f : Cube α → Cube α)
    (comp : Vec3 → Int) (i : Nat)
    (hf : ∀ c, comp (f c).pn = comp c.pn)
    (hmem : ∀ (k : Int) (j : Nat), j ∈ planeIds ps k ↔ ∃ c, cs[j]? = some c ∧ comp c.pn = k) :
    ∀ (k : Int) (j : Nat), j ∈ planeIds ps k ↔
      ∃ c', (cs.modify f i)[j]? = some c' ∧ comp c'.pn = k := by
  intro k j
  rw [hmem, List.getElem?_modify]
  cases cs[j]? with
  | none => simp
  | some c => by_cases hij : i = j <;> simp [hij, hf]

theorem nv_move (ps : List CubePlane) (a b : Int) (i : Nat) (v : Vec3)
    (h : ∀ p, p ∈ ps → p.nv = v) :
    ∀ p, p ∈ planeInsert (planeErase ps a i) b i → p.nv = v :=
  nv_of_map_eq ps _ ((map_nv_planeInsert _ _ _).trans (map_nv_planeErase _ _ _)) v h

omit [CommRing α] in
theorem range_modify (cs : List (Cube α)) (f : Cube α → Cube α) (n : Int) (i : Nat)
    (hf : ∀ c, InRange n c.pn → InRange n (f c).pn)
    (h : ∀ (j : Nat) (c : Cube α), cs[j]? = some c → InRange n c.pn) :
    ∀ (j : Nat) (c : Cube α), (cs.modify f i)[j]? = some c → InRange n c.pn := by
  intro j c hc
  rw [List.getElem?_modify] at hc
  cases h0 : cs[j]? with
  | none => simp [h0] at hc
  | some c0 =>
    simp only [h0, Option.map_eq_map, Option.map_some', Option.some.injEq] at hc
    subst hc
    split
    · exact hf _ (h j c0 h0)
    · exact h j c0 h0

omit [CommRing α] in
theorem pos_modify (cs : List (Cube α)) (f : Cube α → Cube α) (n : Int) (i : Nat)
    (hf : ∀ c, (f c).position = c.position)
    (h : ∀ (j : Nat) (c : Cube α), cs[j]? = some c → InRange n (gridCoord n c.position)) :
    ∀ (j : Nat) (c : Cube α), (cs.modify f i)[j]? = some c →
      InRange n (gridCoord n c.position) := by
  intro j c hc
  rw [List.getElem?_modify] at hc
  cases h0 : cs[j]? with
  | none => simp [h0] at hc
  | some c0 =>
    simp only [h0, Option.map_eq_map, Option.map_some', Option.some.injEq] at hc
    subst hc
    split
    · rw [hf]; exact h j c0 h0
    · exact h j c0 h0

omit [CommRing α] in
theorem Inv.step {s : State α} (h : Inv s) (axis : Int) (dir : Bool) (i : Nat) :
    Inv (updateCubePlaneStep axis dir i s) := by
  unfold updateCubePlaneStep
  cases hc : s.Cubes[i]? with
  | none => exact h
  | some c =>
    have hr := h.range i c hc
    have hr' := hr
    unfold InRange at hr'
    simp only []
    have hrange : ∀ (f : Cube α → Cube α), (∀ c0, InRange s.N c0.pn → InRange s.N (f c0).pn) →
        ∀ (j : Nat) (c1 : Cube α), (s.Cubes.modify f i)[j]? = some c1 → InRange s.N c1.pn :=
      fun f hf => range_modify _ f _ i hf h.range
    split_ifs with h1 h2 h3
    · refine ⟨h.one_le, h.xlen, ?_, ?_, h.xnv, nv_move _ _ _ _ _ h.ynv, nv_move _ _ _ _ _ h.znv,
        ?_, ?_, ?_, ?_, ?_⟩
      · simp only [length_planeInsert, length_planeErase]; exact h.ylen
      · simp only [length_planeInsert, length_planeErase]; exact h.zlen
      · exact pos_modify _ _ _ i (fun _ => rfl) h.pos
      · apply hrange
        intro c0 hc0
        unfold InRange at hc0 ⊢
        simp only []
        omega
      · exact mem_keep_of_inv _ _ _ (fun v => v.x) i (fun _ => rfl) h.xmem
      · exact mem_move_of_inv _ _ _ (fun v => v.y) s.N i c _ h.ylen hc (by omega) rfl h.ymem
      · exact mem_move_of_inv _ _ _ (fun v => v.z) s.N i c _ h.zlen hc (by omega) rfl h.zmem
    · refine ⟨h.one_le, ?_, h.ylen, ?_, nv_move _ _ _ _ _ h.xnv, h.ynv, nv_move _ _ _ _ _ h.znv,
        ?_, ?_, ?_, ?_, ?_⟩
      · simp only [length_planeInsert, length_planeErase]; exact h.xlen
      · simp only [length_planeInsert, length_planeErase]; exact h.zlen
      · exact pos_modify _ _ _ i (fun _ => rfl) h.pos
      · apply hrange
        intro c0 hc0
        unfold InRange at hc0 ⊢
        simp only []
        omega
      · exact mem_move_of_inv _ _ _ (fun v => v.x) s.N i c _ h.xlen hc (by omega) rfl h.xmem
      · exact mem_keep_of_inv _ _ _ (fun v => v.y) i (fun _ => rfl) h.ymem
      · exact mem_move_of_inv _ _ _ (fun v => v.z) s.N i c _ h.zlen hc (by omega) rfl h.zmem
    · refine ⟨h.one_le, ?_, ?_, h.zlen, nv_move _ _ _ _ _ h.xnv, nv_move _ _ _ _ _ h.ynv, h.znv,
        ?_, ?_, ?_, ?_, ?_⟩
      · simp only [length_planeInsert, length_planeErase]; exact h.xlen
      · simp only [length_planeInsert, length_planeErase]; exact h.ylen
      · exact pos_modify _ _ _ i (fun _ => rfl) h.pos
      · apply hrange
        intro c0 hc0
        unfold InRange at hc0 ⊢
        simp only []
        omega
      · exact mem_move_of_inv _ _ _ (fun v => v.x) s.N i c _ h.xlen hc (by omega) rfl h.xmem
      · exact mem_move_of_inv _ _ _ (fun v => v.y) s.N i c _ h.ylen hc (by omega) rfl h.ymem
      · exact mem_keep_of_inv _ _ _ (fun v => v.z) i (fun _ => rfl) h.zmem
    · refine ⟨h.one_le, h.xlen, ?_, ?_, h.xnv, nv_move _ _ _ _ _ h.ynv, nv_move _ _ _ _ _ h.znv,
        ?_, ?_, ?_, ?_, ?_⟩
      · simp only [length_planeInsert, length_planeErase]; exact h.ylen
      · simp only [length_planeInsert, length_planeErase]; exact h.zlen
      · exact pos_modify _ _ _ i (fun _ => rfl) h.pos
      · apply hrange
        intro c0 hc0
        unfold InRange at hc0 ⊢
        simp only []
        omega
      · exact mem_keep_of_inv _ _ _ (fun v => v.x) i (fun _ => rfl) h.xmem
      · exact mem_move_of_inv _ _ _ (fun v => v.y) s.N i c _ h.ylen hc (by omega) rfl h.ymem
      · exact mem_move_of_inv _ _ _ (fun v => v.z) s.N i c _ h.zlen hc (by omega) rfl h.zmem
    · refine ⟨h.one_le, ?_, h.ylen, ?_, nv_move _ _ _ _ _ h.xnv, h.ynv, nv_move _ _ _ _ _ h.znv,
        ?_, ?_, ?_, ?_, ?_⟩
      · simp only [length_planeInsert, length_planeErase]; exact h.xlen
      · simp only [length_planeInsert, length_planeErase]; exact h.zlen
      · exact pos_modify _ _ _ i (fun _ => rfl) h.pos
      · apply hrange
        intro c0 hc0
        unfold InRange at hc0 ⊢
        simp only []
        omega
      · exact mem_move_of_inv _ _ _ (fun v => v.x) s.N i c _ h.xlen hc (by omega) rfl h.xmem
      · exact mem_keep_of_inv _ _ _ (fun v => v.y) i (fun _ => rfl) h.ymem
      · exact mem_move_of_inv _ _ _ (fun v => v.z) s.N i c _ h.zlen hc (by omega) rfl h.zmem
    · refine ⟨h.one_le, ?_, ?_, h.zlen, nv_move _ _ _ _ _ h.xnv, nv_move _ _ _ _ _ h.ynv, h.znv,
        ?_, ?_, ?_, ?_, ?_⟩
      · simp only [length_planeInsert, length_planeErase]; exact h.xlen
      · simp only [length_planeInsert, length_planeErase]; exact h.ylen
      · exact pos_modify _ _ _ i (fun _ => rfl) h.pos
      · apply hrange
        intro c0 hc0
        unfold InRange at hc0 ⊢
        simp only []
        omega
      · exact mem_move_of_inv _ _ _ (fun v => v.x) s.N i c _ h.xlen hc (by omega) rfl h.xmem
      · exact mem_move_of_inv _ _ _ (fun v => v.y) s.N i c _ h.ylen hc (by omega) rfl h.ymem
      · exact mem_keep_of_inv _ _ _ (fun v => v.z) i (fun _ => rfl) h.zmem


/-! ### Loops over a plane -/

theorem setToList_nodup (ids : Finset Nat) : (setToList ids).Nodup :=
  (List.nodup_range _).filter _

theorem mem_setToList (ids : Finset Nat) (i : Nat) : i ∈ setToList ids ↔ i ∈ ids := by
  unfold setToList
  simp only [List.mem_filter, List.mem_range, decide_eq_true_eq, and_iff_right_iff_imp]
  intro h
  exact Nat.lt_succ_of_le (Finset.le_sup (f := id) h)

theorem setToList_eq_sort (ids : Finset Nat) : setToList ids = ids.sort (· ≤ ·) := by
  apply List.eq_of_perm_of_sorted (r := (· ≤ ·))
  · rw [List.perm_ext_iff_of_nodup (setToList_nodup ids) (Finset.sort_nodup _ _)]
    intro a
    rw [mem_setToList, Finset.mem_sort]
  · exact ((List.pairwise_le_range _).sublist (List.filter_sublist _))
  · exact Finset.sort_sorted _ _

theorem getElem?_foldl_modify {β : Type} (f : β → β) (ids : List Nat) (hnd : ids.Nodup)
    (l : List β) (j : Nat) :
    (ids.foldl (fun cs i => cs.modify f i) l)[j]? =
      if j ∈ ids then Option.map f l[j]? else l[j]? := by
  induction ids generalizing l with
  | nil => simp
  | cons i ids ih =>
    rw [List.nodup_cons] at hnd
    rw [List.foldl_cons, ih hnd.2, List.getElem?_modify]
    by_cases hji : j = i
    · subst hji
      simp [hnd.1]
    · have hij : ¬ i = j := fun h => hji h.symm
      simp [hji, hij]

theorem length_foldl_modify {β : Type} (f : β → β) (ids : List Nat) (l : List β) :
    (ids.foldl (fun cs i => cs.modify f i) l).length = l.length := by
  induction ids generalizing l with
  | nil => rfl
  | cons i ids ih => rw [List.foldl_cons, ih, List.length_modify]


omit [CommRing α] in
theorem foldl_updateCubePlaneStep_N (axis : Int) (dir : Bool) (ids : List Nat) (s : State α) :
    (ids.foldl (fun st i => updateCubePlaneStep axis dir i st) s).N = s.N := by
  induction ids generalizing s with
  | nil => rfl
  | cons i ids ih => rw [List.foldl_cons, ih, updateCubePlaneStep_N]

omit [CommRing α] in
theorem foldl_updateCubePlaneStep_Cubes (axis : Int) (dir : Bool) (ids : List Nat)
    (s : State α) :
    (ids.foldl (fun st i => updateCubePlaneStep axis dir i st) s).Cubes =
      ids.foldl (fun cs i => cs.modify (fun c => { c with pn := turnPn s.N axis dir c.pn }) i)
        s.Cubes := by
  induction ids generalizing s with
  | nil => rfl
  | cons i ids ih =>
    rw [List.foldl_cons, ih, updateCubePlaneStep_N, updateCubePlaneStep_Cubes, List.foldl_cons]

omit [CommRing α] in
theorem Inv.foldl_step {s : State α} (h : Inv s) (axis : Int) (dir : Bool) (ids : List Nat) :
    Inv (ids.foldl (fun st i => updateCubePlaneStep axis dir i st) s) := by
  induction ids generalizing s with
  | nil => exact h
  | cons i ids ih => rw [List.foldl_cons]; exact ih (h.step axis dir i)

theorem turnCubes_eq (t : Angle α) (rotateDir : Bool) (sel : PlaneRef) (s : State α) :
    turnCubes t rotateDir sel s =
      { s with Cubes := ((s.planeCubeIds sel).foldl
          (fun cs i => cs.modify
            (fun c => { c with rotMat := turnMat t rotateDir sel s * c.rotMat }) i) s.Cubes) } := by
  unfold turnCubes
  simp only []
  have key : ∀ (ids : List Nat) (st : State α), st.planeNv sel = s.planeNv sel →
      ids.foldl
        (fun st i =>
          { st with
            Cubes := st.Cubes.modify
              (fun c =>
                { c with
                  rotMat := glmRotate t (st.planeNv sel *
                    (if rotateDir then Vec3.splat 1 else Vec3.splat (-1))) * c.rotMat }) i })
        st =
      { st with Cubes := (ids.foldl (fun cs i => cs.modify
            (fun c => { c with rotMat := turnMat t rotateDir sel s * c.rotMat }) i) st.Cubes) } := by
    intro ids
    induction ids with
    | nil => intro st _; rfl
    | cons i ids ih =>
      intro st hst
      rw [List.foldl_cons]
      refine (ih _ (by exact hst)).trans ?_
      simp only [List.foldl_cons, turnMat, hst]
  exact key _ s rfl

omit [CommRing α] in
theorem Inv.of_cubes {s : State α} (h : Inv s) (cs : List (Cube α))
    (hcs : ∀ j : Nat, (cs[j]?).map (fun c => (c.pn, c.position)) =
      (s.Cubes[j]?).map (fun c => (c.pn, c.position))) :
    Inv { s with Cubes := cs } := by
  have hfwd : ∀ (j : Nat) (c : Cube α), cs[j]? = some c →
      ∃ c0, s.Cubes[j]? = some c0 ∧ c0.pn = c.pn ∧ c0.position = c.position := by
    intro j c hc
    have := hcs j
    rw [hc] at this
    cases h0 : s.Cubes[j]? with
    | none => simp [h0] at this
    | some c0 =>
      simp only [h0, Option.map_some', Option.some.injEq, Prod.mk.injEq] at this
      exact ⟨c0, rfl, this.1.symm, this.2.symm⟩
  have hbwd : ∀ (j : Nat) (c0 : Cube α), s.Cubes[j]? = some c0 →
      ∃ c, cs[j]? = some c ∧ c.pn = c0.pn ∧ c.position = c0.position := by
    intro j c0 hc0
    have := hcs j
    rw [hc0] at this
    cases h1 : cs[j]? with
    | none => simp [h1] at this
    | some c =>
      simp only [h1, Option.map_some', Option.some.injEq, Prod.mk.injEq] at this
      exact ⟨c, rfl, this.1, this.2⟩
  have hmem : ∀ (comp : Vec3 → Int) (k : Int) (i : Nat),
      (∃ c, s.Cubes[i]? = some c ∧ comp c.pn = k) ↔ (∃ c, cs[i]? = some c ∧ comp c.pn = k) := by
    intro comp k i
    constructor
    · rintro ⟨c0, hc0, hk⟩
      obtain ⟨c, hc, e, _⟩ := hbwd i c0 hc0
      exact ⟨c, hc, by rw [e]; exact hk⟩
    · rintro ⟨c, hc, hk⟩
      obtain ⟨c0, hc0, e, _⟩ := hfwd i c hc
      exact ⟨c0, hc0, by rw [e]; exact hk⟩
  refine ⟨h.one_le, h.xlen, h.ylen, h.zlen, h.xnv, h.ynv, h.znv, ?_, ?_, ?_, ?_, ?_⟩
  · intro i c hc
    obtain ⟨c0, hc0, _, e⟩ := hfwd i c hc
    have := h.pos i c0 hc0
    rw [e] at this
    exact this
  · intro i c hc
    obtain ⟨c0, hc0, e, _⟩ := hfwd i c hc
    have := h.range i c0 hc0
    rw [e] at this
    exact this
  · intro k i; exact (h.xmem k i).trans (hmem (fun v => v.x) k i)
  · intro k i; exact (h.ymem k i).trans (hmem (fun v => v.y) k i)
  · intro k i; exact (h.zmem k i).trans (hmem (fun v => v.z) k i)

omit [CommRing α] in
theorem State.planeCubeIds_nodup (s : State α) (sel : PlaneRef) : (s.planeCubeIds sel).Nodup := by
  unfold State.planeCubeIds
  split
  · exact setToList_nodup _
  · exact List.nodup_nil

theorem Inv.turnCubes {s : State α} (h : Inv s) (t : Angle α) (rotateDir : Bool)
    (sel : PlaneRef) : Inv (turnCubes t rotateDir sel s) := by
  rw [turnCubes_eq]
  apply h.of_cubes
  intro j
  rw [getElem?_foldl_modify _ _ (s.planeCubeIds_nodup sel)]
  split
  · cases s.Cubes[j]? <;> rfl
  · rfl

omit [CommRing α] in
theorem Inv.updateCubePlane {s : State α} (h : Inv s) (axis : Int) (dir : Bool)
    (sel : PlaneRef) : Inv (updateCubePlane axis dir sel s) :=
  h.foldl_step axis dir _

theorem Inv.rotate {s : State α} (h : Inv s) (q : Angle α) (axis : Int) (dir : Bool)
    (sel : PlaneRef) : Inv (rotate q axis dir sel s) :=
  (h.turnCubes q dir sel).updateCubePlane axis dir sel


/-! ### `resetCube` -/

theorem foldl_modify_range_eq_map {β : Type} (f : β → β) (l : List β) :
    (List.range l.length).foldl (fun cs i => cs.modify f i) l = l.map f := by
  apply List.ext_getElem?
  intro j
  rw [getElem?_foldl_modify _ _ (List.nodup_range _), List.getElem?_map]
  by_cases hj : j < l.length
  · simp [hj]
  · have : l[j]? = none := List.getElem?_eq_none (by omega)
    simp [hj, this]


theorem resetCubeAssign_N (i : Nat) (s : State α) : (resetCubeAssign i s).N = s.N := by
  unfold resetCubeAssign
  cases s.Cubes[i]? <;> rfl

theorem resetCubeAssign_Cubes (i : Nat) (s : State α) :
    (resetCubeAssign i s).Cubes = s.Cubes.modify (Cube.reset s.N) i := by
  unfold resetCubeAssign
  cases h : s.Cubes[i]? with
  | none => simp only []; rw [modify_of_getElem?_none _ _ _ h]
  | some c =>
    simp only []
    exact modify_congr_at _ _ _ _ c h rfl

theorem foldl_resetCubeAssign_N (ids : List Nat) (s : State α) :
    (ids.foldl (fun st i => resetCubeAssign i st) s).N = s.N := by
  induction ids generalizing s with
  | nil => rfl
  | cons i ids ih => rw [List.foldl_cons, ih, resetCubeAssign_N]

theorem foldl_resetCubeAssign_Cubes (ids : List Nat) (s : State α) :
    (ids.foldl (fun st i => resetCubeAssign i st) s).Cubes =
      ids.foldl (fun cs i => cs.modify (Cube.reset s.N) i) s.Cubes := by
  induction ids generalizing s with
  | nil => rfl
  | cons i ids ih =>
    rw [List.foldl_cons, ih, resetCubeAssign_N, resetCubeAssign_Cubes, List.foldl_cons]

/-- The planes of one family after the clearing loop of `resetCube`. -/
theorem foldl_planeClear_getElem? (ps : List CubePlane) (m j : Nat) :
    ((List.range m).foldl (fun ps i => planeClear ps i) ps)[j]? =
      if j < m then (ps[j]?).map (fun p => { p with cubeIds := ∅ }) else ps[j]? := by
  have := getElem?_foldl_modify (fun p : CubePlane => { p with cubeIds := ∅ }) (List.range m)
    (List.nodup_range m) ps j
  simp only [List.mem_range] at this
  exact this

theorem resetCubeAssign_planes (i : Nat) (s : State α) (fam : Family) :
    (resetCubeAssign i s).planes fam =
      match s.Cubes[i]? with
      | none => s.planes fam
      | some c => planeInsert (s.planes fam) ((gridCoord s.N c.position).along fam) i := by
  unfold resetCubeAssign
  cases h : s.Cubes[i]? with
  | none => rfl
  | some c => cases fam <;> rfl

theorem getElem?_modify_reset (cs : List (Cube α)) (n : Int) (i j : Nat) (P : Vec3 → Prop) :
    (∃ c, (cs.modify (Cube.reset n) i)[j]? = some c ∧ P c.position) ↔
      ∃ c, cs[j]? = some c ∧ P c.position := by
  rw [List.getElem?_modify]
  cases cs[j]? with
  | none => simp
  | some c => by_cases hij : i = j <;> simp [hij, Cube.reset]

theorem mem_planeIds_foldl_resetCubeAssign (ids : List Nat) (s : State α) (fam : Family)
    (k : Int) (j : Nat) :
    j ∈ planeIds ((ids.foldl (fun st i => resetCubeAssign i st) s).planes fam) k ↔
      j ∈ planeIds (s.planes fam) k ∨
        (j ∈ ids ∧ (∃ c, s.Cubes[j]? = some c ∧ (gridCoord s.N c.position).along fam = k) ∧
          0 ≤ k ∧ k < (s.planes fam).length) := by
  induction ids generalizing s with
  | nil => simp
  | cons i ids ih =>
    rw [List.foldl_cons, ih, resetCubeAssign_N, resetCubeAssign_Cubes,
      getElem?_modify_reset _ _ _ _ (fun p => (gridCoord s.N p).along fam = k),
      resetCubeAssign_planes]
    cases h : s.Cubes[i]? with
    | none =>
      simp only [List.mem_cons]
      constructor
      · rintro (h1 | ⟨h1, h2, h3⟩)
        · exact Or.inl h1
        · exact Or.inr ⟨Or.inr h1, h2, h3⟩
      · rintro (h1 | ⟨h1 | h1, ⟨c, hc, hk⟩, h3⟩)
        · exact Or.inl h1
        · subst h1; rw [h] at hc; cases hc
        · exact Or.inr ⟨h1, ⟨c, hc, hk⟩, h3⟩
    | some c0 =>
      simp only [mem_planeIds_planeInsert, length_planeInsert, List.mem_cons]
      constructor
      · rintro ((h1 | ⟨h1, h2, h3⟩) | ⟨h1, h2, h3⟩)
        · exact Or.inl h1
        · subst h1
          exact Or.inr ⟨Or.inl rfl, ⟨c0, h, h2.symm⟩, by omega⟩
        · exact Or.inr ⟨Or.inr h1, h2, h3⟩
      · rintro (h1 | ⟨h1 | h1, ⟨c, hc, hk⟩, h3⟩)
        · exact Or.inl (Or.inl h1)
        · subst h1
          rw [h] at hc
          cases hc
          exact Or.inl (Or.inr ⟨rfl, hk.symm, by omega⟩)
        · exact Or.inr ⟨h1, ⟨c, hc, hk⟩, h3⟩

theorem foldl_resetCubeAssign_planes_shape (ids : List Nat) (s : State α) (fam : Family) :
    ((ids.foldl (fun st i => resetCubeAssign i st) s).planes fam).map (fun p => p.nv) =
      (s.planes fam).map (fun p => p.nv) := by
  induction ids generalizing s with
  | nil => rfl
  | cons i ids ih =>
    rw [List.foldl_cons, ih, resetCubeAssign_planes]
    cases s.Cubes[i]? with
    | none => rfl
    | some c => exact map_nv_planeInsert _ _ _

omit [CommRing α] in
theorem Inv.of_fam (s : State α) (h1 : 1 ≤ s.N)
    (hlen : ∀ fam : Family, ((s.planes fam).length : Int) = s.N)
    (hnv : ∀ (fam : Family) (p : CubePlane), p ∈ s.planes fam → p.nv = fam.nv)
    (hpos : ∀ (i : Nat) (c : Cube α), s.Cubes[i]? = some c →
      InRange s.N (gridCoord s.N c.position))
    (hrange : ∀ (i : Nat) (c : Cube α), s.Cubes[i]? = some c → InRange s.N c.pn)
    (hmem : ∀ (fam : Family) (k : Int) (i : Nat), i ∈ planeIds (s.planes fam) k ↔
      ∃ c, s.Cubes[i]? = some c ∧ c.pn.along fam = k) : Inv s :=
  ⟨h1, hlen Family.X, hlen Family.Y, hlen Family.Z, hnv Family.X, hnv Family.Y, hnv Family.Z,
    hpos, hrange, hmem Family.X, hmem Family.Y, hmem Family.Z⟩

omit [CommRing α] in
theorem Inv.len {s : State α} (h : Inv s) (fam : Family) :
    ((s.planes fam).length : Int) = s.N := by
  cases fam
  · exact h.xlen
  · exact h.ylen
  · exact h.zlen

omit [CommRing α] in
theorem Inv.nv {s : State α} (h : Inv s) (fam : Family) (p : CubePlane)
    (hp : p ∈ s.planes fam) : p.nv = fam.nv := by
  cases fam
  · exact h.xnv p hp
  · exact h.ynv p hp
  · exact h.znv p hp

omit [CommRing α] in
theorem Inv.mem {s : State α} (h : Inv s) (fam : Family) (k : Int) (i : Nat) :
    i ∈ planeIds (s.planes fam) k ↔ ∃ c, s.Cubes[i]? = some c ∧ c.pn.along fam = k := by
  cases fam
  · exact h.xmem k i
  · exact h.ymem k i
  · exact h.zmem k i

omit [CommRing α] in
theorem Inv.frame {s : State α} (h : Inv s) : Frame s :=
  ⟨h.one_le, h.len, h.nv, h.pos⟩

theorem planeIds_eq_empty_of_length_le (ps : List CubePlane) (k : Int)
    (h : ∀ p, p ∈ ps → p.cubeIds = ∅) : planeIds ps k = ∅ := by
  unfold planeIds
  split
  · cases hp : ps[k.toNat]? with
    | none => rfl
    | some p => exact h p (List.getElem?_mem hp)
  · rfl

omit [CommRing α] in
/-- The clearing loop of `resetCube`, one family at a time. -/
theorem clear_loop_eq (ids : List Nat) (s : State α) :
    ids.foldl
      (fun st i =>
        { st with
          xCubePlanes := planeClear st.xCubePlanes i
          yCubePlanes := planeClear st.yCubePlanes i
          zCubePlanes := planeClear st.zCubePlanes i })
      s =
    { s with
      xCubePlanes := ids.foldl (fun ps i => planeClear ps i) s.xCubePlanes
      yCubePlanes := ids.foldl (fun ps i => planeClear ps i) s.yCubePlanes
      zCubePlanes := ids.foldl (fun ps i => planeClear ps i) s.zCubePlanes } := by
  induction ids generalizing s with
  | nil => rfl
  | cons i ids ih => rw [List.foldl_cons, ih]; rfl

theorem cleared_of_length_le (ps : List CubePlane) (m : Nat) (hm : ps.length ≤ m) :
    (∀ p, p ∈ (List.range m).foldl (fun ps i => planeClear ps i) ps → p.cubeIds = ∅) ∧
    ((List.range m).foldl (fun ps i => planeClear ps i) ps).map (fun p => p.nv) =
      ps.map (fun p => p.nv) := by
  constructor
  · intro p hp
    obtain ⟨j, hj⟩ := List.getElem?_of_mem hp
    rw [foldl_planeClear_getElem?] at hj
    cases h0 : ps[j]? with
    | none => simp [h0] at hj
    | some p0 =>
      have hlt := (List.getElem?_eq_some_iff.mp h0).1
      have hjm : j < m := by omega
      simp only [hjm, if_true, h0, Option.map_some', Option.some.injEq] at hj
      rw [← hj]
  · apply List.ext_getElem?
    intro j
    rw [List.getElem?_map, List.getElem?_map, foldl_planeClear_getElem?]
    split
    · cases ps[j]? <;> rfl
    · rfl

theorem resetCube_eq (s : State α) :
    resetCube s =
      (List.range s.Cubes.length).foldl (fun st i => resetCubeAssign i st) (clearedState s) := by
  unfold resetCube
  simp only [clear_loop_eq]
  rfl

theorem resetCube_N (s : State α) : (resetCube s).N = s.N := by
  rw [resetCube_eq, foldl_resetCubeAssign_N]; rfl

theorem resetCube_Cubes (s : State α) :
    (resetCube s).Cubes = s.Cubes.map (Cube.reset s.N) := by
  rw [resetCube_eq, foldl_resetCubeAssign_Cubes]
  exact foldl_modify_range_eq_map _ _

omit [CommRing α] in
theorem clearedState_planes (s : State α) (fam : Family) :
    (clearedState s).planes fam =
      (List.range s.N.toNat).foldl (fun ps i => planeClear ps i) (s.planes fam) := by
  cases fam <;> rfl

theorem Frame.inv_resetCube {s : State α} (h : Frame s) : Inv (resetCube s) := by
  have hshape : ∀ fam : Family, ((resetCube s).planes fam).map (fun p => p.nv) =
      (s.planes fam).map (fun p => p.nv) := by
    intro fam
    rw [resetCube_eq, foldl_resetCubeAssign_planes_shape, clearedState_planes]
    exact (cleared_of_length_le _ _ (by have := h.len fam; omega)).2
  have hlen : ∀ fam : Family, ((resetCube s).planes fam).length = (s.planes fam).length := by
    intro fam
    have := congrArg List.length (hshape fam)
    simpa using this
  have hget : ∀ (i : Nat) (c : Cube α), (resetCube s).Cubes[i]? = some c →
      ∃ c0, s.Cubes[i]? = some c0 ∧ c = Cube.reset s.N c0 := by
    intro i c hc
    rw [resetCube_Cubes, List.getElem?_map] at hc
    cases h0 : s.Cubes[i]? with
    | none => simp [h0] at hc
    | some c0 =>
      simp only [h0, Option.map_some', Option.some.injEq] at hc
      exact ⟨c0, rfl, hc.symm⟩
  apply Inv.of_fam
  · rw [resetCube_N]; exact h.one_le
  · intro fam; rw [resetCube_N, hlen]; exact h.len fam
  · intro fam; exact nv_of_map_eq _ _ (hshape fam) _ (h.nv fam)
  · intro i c hc
    obtain ⟨c0, hc0, rfl⟩ := hget i c hc
    rw [resetCube_N]; exact h.pos i c0 hc0
  · intro i c hc
    obtain ⟨c0, hc0, rfl⟩ := hget i c hc
    rw [resetCube_N]; exact h.pos i c0 hc0
  · intro fam k i
    rw [resetCube_Cubes, List.getElem?_map]
    conv_lhs => rw [resetCube_eq]
    rw [mem_planeIds_foldl_resetCubeAssign, clearedState_planes,
      planeIds_eq_empty_of_length_le _ _
        (cleared_of_length_le _ _ (by have := h.len fam; omega)).1]
    have hl : ((List.range s.N.toNat).foldl (fun ps i => planeClear ps i)
        (s.planes fam)).length = (s.planes fam).length := by
      have := congrArg List.length
        (cleared_of_length_le (s.planes fam) s.N.toNat (by have := h.len fam; omega)).2
      simpa using this
    rw [hl]
    have hN : (clearedState s).N = s.N := rfl
    have hC : (clearedState s).Cubes = s.Cubes := rfl
    rw [hN, hC]
    simp only [Finset.not_mem_empty, false_or, List.mem_range]
    constructor
    · rintro ⟨_, ⟨c, hc, hk⟩, _⟩
      exact ⟨Cube.reset s.N c, by simp [hc], hk⟩
    · rintro ⟨c', hc', hk⟩
      cases h0 : s.Cubes[i]? with
      | none => simp [h0] at hc'
      | some c0 =>
        simp only [h0, Option.map_some', Option.some.injEq] at hc'
        subst hc'
        have hlt := (List.getElem?_eq_some_iff.mp h0).1
        have hp := h.pos i c0 h0
        have hk' : (gridCoord s.N c0.position).along fam = k := hk
        refine ⟨hlt, ⟨c0, rfl, hk'⟩, ?_⟩
        have := h.len fam
        unfold InRange at hp
        cases fam <;> simp only [Vec3.along] at hk' <;> omega

theorem Inv.resetCube {s : State α} (h : Inv s) : Inv (resetCube s) :=
  h.frame.inv_resetCube


/-! ### The cubes that `initCube` builds -/

theorem tdiv_two_of_eq (a b : Int) (h : a = 2 * b) : a.tdiv 2 = b := by
  subst h
  exact Int.mul_tdiv_cancel_left b (by decide)

theorem vec3_ext (a b : Vec3) (hx : a.x = b.x) (hy : a.y = b.y) (hz : a.z = b.z) : a = b := by
  cases a; cases b; simp only [Vec3.mk.injEq]; exact ⟨hx, hy, hz⟩

theorem Vec3.add_def (a b : Vec3) : a + b = ⟨a.x + b.x, a.y + b.y, a.z + b.z⟩ := rfl
theorem Vec3.sub_def (a b : Vec3) : a - b = ⟨a.x - b.x, a.y - b.y, a.z - b.z⟩ := rfl
theorem Vec3.mul_def (a b : Vec3) : a * b = ⟨a.x * b.x, a.y * b.y, a.z * b.z⟩ := rfl

/-- The vector with twice the components. -/
theorem gridCoord_of_double (n : Int) (p c : Vec3)
    (h : p + Vec3.splat (n - 1) = ⟨2 * c.x, 2 * c.y, 2 * c.z⟩) : gridCoord n p = c := by
  unfold gridCoord
  rw [h]
  cases c
  simp only [Vec3.half, Vec3.mk.injEq]
  exact ⟨Int.mul_tdiv_cancel_left _ (by decide), Int.mul_tdiv_cancel_left _ (by decide),
    Int.mul_tdiv_cancel_left _ (by decide)⟩

theorem cornerPos_double (n : Int) (i : Nat) (hi : i < 8) :
    cornerPos n i + Vec3.splat (n - 1) =
      ⟨2 * (cornerCell n i).x, 2 * (cornerCell n i).y, 2 * (cornerCell n i).z⟩ := by
  interval_cases i <;>
    (apply vec3_ext <;>
      simp [cornerPos, cornerCell, vecAt, cCubePositions, Vec3.splat, Vec3.add_def,
        Vec3.mul_def] <;> omega)

theorem edgePos_double (n : Int) (i : Nat) (hi : i < 12) (j : Int) :
    edgePos n i j + Vec3.splat (n - 1) =
      ⟨2 * (edgeCell n i j).x, 2 * (edgeCell n i j).y, 2 * (edgeCell n i j).z⟩ := by
  interval_cases i <;>
    (apply vec3_ext <;>
      simp [edgePos, edgeCell, edgeDir, vecAt, cCubePositions, eCubePositions, cubeEdgeCorners,
        Vec3.splat, Vec3.add_def, Vec3.mul_def, Vec3.sub_def, Vec3.half] <;> omega)

theorem facePos_double (n : Int) (i : Nat) (hi : i < 6) (j k : Int) :
    facePos n i j k + Vec3.splat (n - 1) =
      ⟨2 * (faceCell n i j k).x, 2 * (faceCell n i j k).y, 2 * (faceCell n i j k).z⟩ := by
  interval_cases i <;>
    (apply vec3_ext <;>
      simp [facePos, faceCell, faceDir1, faceDir2, vecAt, eCubePositions, fCubePositions,
        cubeFaceEdges, Vec3.splat, Vec3.add_def, Vec3.mul_def, Vec3.sub_def, Vec3.half] <;>
      omega)

theorem gridCoord_cornerPos (n : Int) (i : Nat) (hi : i < 8) :
    gridCoord n (cornerPos n i) = cornerCell n i :=
  gridCoord_of_double _ _ _ (cornerPos_double n i hi)

theorem gridCoord_edgePos (n : Int) (i : Nat) (hi : i < 12) (j : Int) :
    gridCoord n (edgePos n i j) = edgeCell n i j :=
  gridCoord_of_double _ _ _ (edgePos_double n i hi j)

theorem gridCoord_facePos (n : Int) (i : Nat) (hi : i < 6) (j k : Int) :
    gridCoord n (facePos n i j k) = faceCell n i j k :=
  gridCoord_of_double _ _ _ (facePos_double n i hi j k)

theorem initCube_eq (n : Int) (s : State α) :
    initCube n s =
      { registered n s with
        cubeIds2vao := (registered n s).cubeIds2vao ++
          (registered n s).Cubes.map (fun c => vaoIndex n c.pn) } := by
  rfl

theorem mem_newCubes (n mode : Int) (c : Cube α) (hc : c ∈ newCubes n mode) :
    c.rotMat = 1 ∧ c.transMat = glmTranslate c.position ∧
    ((n = 1 ∧ c.cubeType = 1 ∧ c.position = ⟨0, 0, 0⟩) ∨
     (n ≠ 1 ∧ c.cubeType = 1 ∧ ∃ i, i < 8 ∧ c.position = cornerPos n i) ∨
     (n ≠ 1 ∧ c.cubeType = 2 ∧ ∃ i j : Nat, i < 12 ∧ (j : Int) < n - 2 ∧
        c.position = edgePos n i j) ∨
     (n ≠ 1 ∧ mode ≠ 2 ∧ c.cubeType = 3 ∧ ∃ i j k : Nat, i < 6 ∧ (j : Int) < n - 2 ∧
        (k : Int) < n - 2 ∧ c.position = facePos n i j k)) := by
  unfold newCubes at hc
  split at hc
  · rename_i h1
    subst h1
    simp only [List.mem_singleton] at hc
    subst hc
    exact ⟨rfl, rfl, Or.inl ⟨rfl, rfl, rfl⟩⟩
  · rename_i h1
    simp only [List.mem_append, cornerCubes, edgeCubes, faceCubes, List.mem_map, List.mem_range,
      List.mem_flatMap] at hc
    rcases hc with (⟨i, hi, rfl⟩ | ⟨i, hi, j, hj, rfl⟩) | hc
    · exact ⟨rfl, rfl, Or.inr (Or.inl ⟨h1, rfl, i, hi, rfl⟩)⟩
    · exact ⟨rfl, rfl, Or.inr (Or.inr (Or.inl ⟨h1, rfl, i, j, hi, by omega, rfl⟩))⟩
    · split at hc
      · rename_i hm
        simp only [List.mem_flatMap, List.mem_range, List.mem_map] at hc
        obtain ⟨i, hi, j, hj, k, hk, rfl⟩ := hc
        exact ⟨rfl, rfl, Or.inr (Or.inr (Or.inr ⟨h1, hm, rfl, i, j, k, hi, by omega, by omega, rfl⟩))⟩
      · simp at hc

theorem cornerCell_inRange (n : Int) (hn : 1 ≤ n) (i : Nat) : InRange n (cornerCell n i) := by
  unfold cornerCell InRange
  split <;> simp only [] <;> omega

theorem edgeCell_inRange (n : Int) (i : Nat) (j : Int) (hj : 0 ≤ j ∧ j < n - 2) :
    InRange n (edgeCell n i j) := by
  unfold edgeCell InRange
  split <;> simp only [] <;> omega

theorem faceCell_inRange (n : Int) (i : Nat) (j k : Int) (hj : 0 ≤ j ∧ j < n - 2)
    (hk : 0 ≤ k ∧ k < n - 2) : InRange n (faceCell n i j k) := by
  unfold faceCell InRange
  split <;> simp only [] <;> omega

theorem newCubes_pos (n mode : Int) (hn : 1 ≤ n) (c : Cube α) (hc : c ∈ newCubes n mode) :
    InRange n (gridCoord n c.position) := by
  obtain ⟨_, _, h | h | h | h⟩ := mem_newCubes n mode c hc
  · obtain ⟨rfl, _, hp⟩ := h
    rw [hp]
    unfold InRange
    decide
  · obtain ⟨_, _, i, hi, hp⟩ := h
    rw [hp, gridCoord_cornerPos n i hi]
    exact cornerCell_inRange n hn i
  · obtain ⟨_, _, i, j, hi, hj, hp⟩ := h
    rw [hp, gridCoord_edgePos n i hi]
    exact edgeCell_inRange n i j ⟨by omega, hj⟩
  · obtain ⟨_, _, _, i, j, k, hi, hj, hk, hp⟩ := h
    rw [hp, gridCoord_facePos n i hi]
    exact faceCell_inRange n i j k ⟨by omega, hj⟩ ⟨by omega, hk⟩

theorem newCubes_double (n mode : Int) (c : Cube α) (hc : c ∈ newCubes n mode) :
    c.position + Vec3.splat (n - 1) =
      ⟨2 * (gridCoord n c.position).x, 2 * (gridCoord n c.position).y,
        2 * (gridCoord n c.position).z⟩ := by
  obtain ⟨_, _, h | h | h | h⟩ := mem_newCubes n mode c hc
  · obtain ⟨rfl, _, hp⟩ := h
    rw [hp]
    decide
  · obtain ⟨_, _, i, hi, hp⟩ := h
    rw [hp, gridCoord_cornerPos n i hi]
    exact cornerPos_double n i hi
  · obtain ⟨_, _, i, j, hi, hj, hp⟩ := h
    rw [hp, gridCoord_edgePos n i hi]
    exact edgePos_double n i hi j
  · obtain ⟨_, _, _, i, j, k, hi, hj, hk, hp⟩ := h
    rw [hp, gridCoord_facePos n i hi]
    exact facePos_double n i hi j k

theorem initCubeAssign_eq (i : Nat) (s : State α)
    (h1 : ∀ c, s.Cubes[i]? = some c → c.rotMat = 1) :
    initCubeAssign s.N i s = resetCubeAssign i s := by
  unfold initCubeAssign resetCubeAssign
  cases h : s.Cubes[i]? with
  | none => rfl
  | some c =>
    simp only []
    congr 1
    apply modify_congr_at _ _ _ _ c h
    have := h1 c h
    cases c
    simp only [Cube.mk.injEq, true_and, and_true] at this ⊢
    exact this

theorem foldl_initCubeAssign_eq (ids : List Nat) (s : State α)
    (h1 : ∀ (i : Nat) (c : Cube α), s.Cubes[i]? = some c → c.rotMat = 1) :
    ids.foldl (fun st i => initCubeAssign s.N i st) s =
      ids.foldl (fun st i => resetCubeAssign i st) s := by
  induction ids generalizing s with
  | nil => rfl
  | cons i ids ih =>
    rw [List.foldl_cons, List.foldl_cons, initCubeAssign_eq i s (h1 i)]
    have hN : (resetCubeAssign i s).N = s.N := resetCubeAssign_N i s
    rw [← hN]
    apply ih
    intro j c hc
    rw [resetCubeAssign_Cubes, List.getElem?_modify] at hc
    cases h0 : s.Cubes[j]? with
    | none => simp [h0] at hc
    | some c0 =>
      simp only [h0, Option.map_eq_map, Option.map_some', Option.some.injEq] at hc
      subst hc
      split
      · rfl
      · exact h1 j c0 h0

theorem foldl_planeClear_of_empty (ids : List Nat) (ps : List CubePlane)
    (h : ∀ p, p ∈ ps → p.cubeIds = ∅) :
    ids.foldl (fun ps i => planeClear ps i) ps = ps := by
  induction ids with
  | nil => rfl
  | cons i ids ih =>
    rw [List.foldl_cons]
    have : planeClear ps i = ps := by
      unfold planeClear
      apply List.ext_getElem?
      intro m
      rw [List.getElem?_modify]
      cases hm : ps[m]? with
      | none => rfl
      | some p =>
        have := h p (List.getElem?_mem hm)
        by_cases him : i = m
        · simp only [him, if_true, Option.map_eq_map, Option.map_some', Option.some.injEq]
          cases p
          simp only [CubePlane.mk.injEq, true_and] at this ⊢
          exact this.symm
        · simp [him]
    rw [this]
    exact ih

omit [CommRing α] in
theorem Inv.with_vao {s : State α} (h : Inv s) (v : List Int) :
    Inv { s with cubeIds2vao := v } :=
  ⟨h.one_le, h.xlen, h.ylen, h.zlen, h.xnv, h.ynv, h.znv, h.pos, h.range, h.xmem, h.ymem,
    h.zmem⟩

theorem pushed_blank_planes (n mode : Int) (fam : Family) :
    (pushed n (blank n mode : State α)).planes fam = List.replicate n.toNat ⟨fam.nv, ∅⟩ := by
  cases fam <;> rfl

theorem pushed_blank_Cubes (n mode : Int) :
    (pushed n (blank n mode : State α)).Cubes = newCubes n mode := rfl

theorem frame_pushed_blank (n mode : Int) (hn : 1 ≤ n) :
    Frame (pushed n (blank n mode : State α)) := by
  refine ⟨hn, ?_, ?_, ?_⟩
  · intro fam
    rw [pushed_blank_planes, List.length_replicate]
    show ((n.toNat : Nat) : Int) = n
    omega
  · intro fam p hp
    rw [pushed_blank_planes] at hp
    rw [List.eq_of_mem_replicate hp]
  · intro i c hc
    rw [pushed_blank_Cubes] at hc
    exact newCubes_pos n mode hn c (List.getElem?_mem hc)

theorem clearedState_pushed_blank (n mode : Int) :
    clearedState (pushed n (blank n mode : State α)) = pushed n (blank n mode) := by
  have h : ∀ (v : Vec3) (p : CubePlane), p ∈ List.replicate n.toNat (⟨v, ∅⟩ : CubePlane) →
      p.cubeIds = ∅ := by
    intro v p hp
    rw [List.eq_of_mem_replicate hp]
  unfold clearedState
  have hx := foldl_planeClear_of_empty (List.range n.toNat)
    (pushed n (blank n mode : State α)).xCubePlanes (h _)
  have hy := foldl_planeClear_of_empty (List.range n.toNat)
    (pushed n (blank n mode : State α)).yCubePlanes (h _)
  have hz := foldl_planeClear_of_empty (List.range n.toNat)
    (pushed n (blank n mode : State α)).zCubePlanes (h _)
  have hN : (pushed n (blank n mode : State α)).N = n := rfl
  rw [hN, hx, hy, hz]
  rfl

theorem registered_blank (n mode : Int) :
    registered n (blank n mode : State α) = resetCube (pushed n (blank n mode)) := by
  rw [resetCube_eq, clearedState_pushed_blank]
  unfold registered
  have hN : (pushed n (blank n mode : State α)).N = n := rfl
  have := foldl_initCubeAssign_eq (List.range (pushed n (blank n mode : State α)).Cubes.length)
    (pushed n (blank n mode : State α))
    (by
      intro i c hc
      exact (mem_newCubes n mode c (List.getElem?_mem hc)).1)
  rw [hN] at this
  exact this

theorem build_eq (n mode : Int) :
    (build n mode : State α) =
      { resetCube (pushed n (blank n mode)) with
        cubeIds2vao :=
          (resetCube (pushed n (blank n mode) : State α)).Cubes.map (fun c => vaoIndex n c.pn) } := by
  have h0 : (build n mode : State α) = initCube n (blank n mode) := rfl
  rw [h0, initCube_eq, registered_blank]
  have hv : (resetCube (pushed n (blank n mode : State α))).cubeIds2vao = [] := by
    rw [resetCube_eq, clearedState_pushed_blank]
    generalize (List.range (pushed n (blank n mode : State α)).Cubes.length) = ids
    have : ∀ (ids : List Nat) (st : State α),
        (ids.foldl (fun st i => resetCubeAssign i st) st).cubeIds2vao = st.cubeIds2vao := by
      intro ids
      induction ids with
      | nil => intro st; rfl
      | cons i ids ih =>
        intro st
        rw [List.foldl_cons, ih]
        unfold resetCubeAssign
        cases st.Cubes[i]? <;> rfl
    rw [this]
    rfl
  rw [hv, List.nil_append]

theorem inv_build (n mode : Int) (hn : 1 ≤ n) : Inv (build n mode : State α) := by
  rw [build_eq]
  exact (frame_pushed_blank n mode hn).inv_resetCube.with_vao _

theorem build_Cubes (n mode : Int) :
    (build n mode : State α).Cubes = (newCubes n mode).map (Cube.reset n) := by
  rw [build_eq]
  show (resetCube (pushed n (blank n mode : State α))).Cubes = _
  rw [resetCube_Cubes]
  rfl

theorem build_N (n mode : Int) : (build n mode : State α).N = n := by
  rw [build_eq]
  show (resetCube (pushed n (blank n mode : State α))).N = _
  rw [resetCube_N]
  rfl


/-! ### `rotate` -/

omit [CommRing α] in
theorem mem_planeCubeIds (s : State α) (fam : Family) (k : Int) (i : Nat) :
    i ∈ s.planeCubeIds ⟨fam, k⟩ ↔ i ∈ planeIds (s.planes fam) k := by
  unfold State.planeCubeIds State.plane planeIds
  by_cases hk : 0 ≤ k
  · simp only [hk, if_true]
    cases fam <;> simp only [State.planes] <;>
      (split <;> rename_i h <;> simp only [h, mem_setToList, List.not_mem_nil,
        Finset.not_mem_empty])
  · simp [hk]

theorem turnCubes_planeCubeIds (t : Angle α) (d : Bool) (sel sel' : PlaneRef) (s : State α) :
    (turnCubes t d sel s).planeCubeIds sel' = s.planeCubeIds sel' := by
  rw [turnCubes_eq]; rfl

theorem turnCubes_N (t : Angle α) (d : Bool) (sel : PlaneRef) (s : State α) :
    (turnCubes t d sel s).N = s.N := by
  rw [turnCubes_eq]

theorem rotate_N (q : Angle α) (axis : Int) (dir : Bool) (sel : PlaneRef) (s : State α) :
    (rotate q axis dir sel s).N = s.N := by
  unfold rotate updateCubePlane
  rw [foldl_updateCubePlaneStep_N, turnCubes_N]

theorem rotate_Cubes_getElem? (q : Angle α) (axis : Int) (dir : Bool) (sel : PlaneRef)
    (s : State α) (j : Nat) :
    (rotate q axis dir sel s).Cubes[j]? =
      if j ∈ s.planeCubeIds sel then
        (s.Cubes[j]?).map (Cube.turned (turnMat q dir sel s) s.N axis dir)
      else s.Cubes[j]? := by
  unfold rotate updateCubePlane
  rw [foldl_updateCubePlaneStep_Cubes, turnCubes_planeCubeIds, turnCubes_N,
    getElem?_foldl_modify _ _ (s.planeCubeIds_nodup sel), turnCubes_eq]
  simp only []
  rw [getElem?_foldl_modify _ _ (s.planeCubeIds_nodup sel)]
  split
  · cases s.Cubes[j]? <;> rfl
  · rfl

theorem rotate_Cubes_length (q : Angle α) (axis : Int) (dir : Bool) (sel : PlaneRef)
    (s : State α) : (rotate q axis dir sel s).Cubes.length = s.Cubes.length := by
  unfold rotate updateCubePlane
  rw [foldl_updateCubePlaneStep_Cubes, length_foldl_modify, turnCubes_eq]
  simp only []
  rw [length_foldl_modify]

theorem Reachable.inv {q : Angle α} {n mode : Int} (hn : 1 ≤ n) {s : State α}
    (h : Reachable q n mode s) : Inv s ∧ s.N = n := by
  induction h with
  | init => exact ⟨inv_build n mode hn, build_N n mode⟩
  | rotate axis dir k _ _ _ _ ih => exact ⟨ih.1.rotate q axis dir _, by rw [rotate_N]; exact ih.2⟩
  | reset _ ih => exact ⟨ih.1.resetCube, by rw [resetCube_N]; exact ih.2⟩


/-! ### Quarter turns as matrices -/

theorem glmRotate_eq (t : Angle α) (v : Vec3) :
    glmRotate t v =
      Matrix.of ![![t.cos + (1 - t.cos) * (v.x : α) * (v.x : α),
            (1 - t.cos) * (v.y : α) * (v.x : α) - t.sin * (v.z : α),
            (1 - t.cos) * (v.z : α) * (v.x : α) + t.sin * (v.y : α), 0],
          ![(1 - t.cos) * (v.x : α) * (v.y : α) + t.sin * (v.z : α),
            t.cos + (1 - t.cos) * (v.y : α) * (v.y : α),
            (1 - t.cos) * (v.z : α) * (v.y : α) - t.sin * (v.x : α), 0],
          ![(1 - t.cos) * (v.x : α) * (v.z : α) - t.sin * (v.y : α),
            (1 - t.cos) * (v.y : α) * (v.z : α) + t.sin * (v.x : α),
            t.cos + (1 - t.cos) * (v.z : α) * (v.z : α), 0],
          ![0, 0, 0, 1]] := rfl

theorem dirSign_mul_self (d : Bool) : (dirSign d : α) * dirSign d = 1 := by
  cases d <;> simp [dirSign]

theorem dirSign_not (d : Bool) : (dirSign (!d) : α) = - dirSign d := by
  cases d <;> simp [dirSign]

theorem turnMat_eq (t : Angle α) (fam : Family) (d : Bool) :
    Family.turnMat t fam d =
      match fam with
      | Family.X => Matrix.of ![![1, 0, 0, 0], ![0, t.cos, -(t.sin * dirSign d), 0],
                        ![0, t.sin * dirSign d, t.cos, 0], ![0, 0, 0, 1]]
      | Family.Y => Matrix.of ![![t.cos, 0, t.sin * dirSign d, 0], ![0, 1, 0, 0],
                        ![-(t.sin * dirSign d), 0, t.cos, 0], ![0, 0, 0, 1]]
      | Family.Z => Matrix.of ![![t.cos, -(t.sin * dirSign d), 0, 0],
                        ![t.sin * dirSign d, t.cos, 0, 0], ![0, 0, 1, 0], ![0, 0, 0, 1]] := by
  unfold Family.turnMat
  rw [glmRotate_eq]
  cases fam <;> cases d <;>
    (simp only [Family.nv, Vec3.mul_def, Vec3.splat, if_true, dirSign]; norm_num)

theorem turnMat_inv (t : Angle α) (hc : t.cos = 0) (hs : t.sin = 1) (fam : Family) (d : Bool) :
    Family.turnMat t fam (!d) * Family.turnMat t fam d = 1 := by
  rw [turnMat_eq, turnMat_eq, dirSign_not, hc, hs]
  have h := dirSign_mul_self (α := α) d
  cases fam <;> (ext i j; fin_cases i <;> fin_cases j <;>
    simp [Matrix.mul_apply, Fin.sum_univ_four, h, Matrix.vecHead, Matrix.vecTail])

theorem turnMat_sq (t : Angle α) (hc : t.cos = 0) (hs : t.sin = 1) (fam : Family) (d : Bool) :
    Family.turnMat t fam d * Family.turnMat t fam d =
      match fam with
      | Family.X => Matrix.of ![![1, 0, 0, 0], ![0, -1, 0, 0], ![0, 0, -1, 0], ![0, 0, 0, 1]]
      | Family.Y => Matrix.of ![![-1, 0, 0, 0], ![0, 1, 0, 0], ![0, 0, -1, 0], ![0, 0, 0, 1]]
      | Family.Z => Matrix.of ![![-1, 0, 0, 0], ![0, -1, 0, 0], ![0, 0, 1, 0], ![0, 0, 0, 1]] := by
  rw [turnMat_eq, hc, hs]
  have h := dirSign_mul_self (α := α) d
  cases fam <;> (ext i j; fin_cases i <;> fin_cases j <;>
    simp [Matrix.mul_apply, Fin.sum_univ_four, h, Matrix.vecHead, Matrix.vecTail])

theorem turnMat_four (t : Angle α) (hc : t.cos = 0) (hs : t.sin = 1) (fam : Family) (d : Bool)
    (M : Mat4 α) :
    Family.turnMat t fam d * (Family.turnMat t fam d *
      (Family.turnMat t fam d * (Family.turnMat t fam d * M))) = M := by
  have h1 : Family.turnMat t fam d * (Family.turnMat t fam d *
      (Family.turnMat t fam d * (Family.turnMat t fam d * M))) =
      (Family.turnMat t fam d * Family.turnMat t fam d) *
        (Family.turnMat t fam d * Family.turnMat t fam d) * M := by
    simp only [Matrix.mul_assoc]
  have h2 : (Family.turnMat t fam d * Family.turnMat t fam d) *
        (Family.turnMat t fam d * Family.turnMat t fam d) = 1 := by
    rw [turnMat_sq t hc hs]
    cases fam <;> (ext i j; fin_cases i <;> fin_cases j <;>
      simp [Matrix.mul_apply, Fin.sum_univ_four, Matrix.vecHead, Matrix.vecTail])
  rw [h1, h2, Matrix.one_mul]

theorem turnMat_inv_mul (t : Angle α) (hc : t.cos = 0) (hs : t.sin = 1) (fam : Family)
    (d : Bool) (M : Mat4 α) :
    Family.turnMat t fam (!d) * (Family.turnMat t fam d * M) = M := by
  rw [← Matrix.mul_assoc, turnMat_inv t hc hs, Matrix.one_mul]


/-! ### Frame of `rotate` and `resetCube` -/

theorem turnPn_inv (n axis : Int) (d : Bool) (p : Vec3) :
    turnPn n axis (!d) (turnPn n axis d p) = p := by
  cases p
  by_cases h0 : axis = 0 <;> by_cases h1 : axis = 1 <;> cases d <;>
    simp [turnPn, h0, h1]

theorem turnPn_four (n axis : Int) (d : Bool) (p : Vec3) :
    turnPn n axis d (turnPn n axis d (turnPn n axis d (turnPn n axis d p))) = p := by
  cases p
  by_cases h0 : axis = 0 <;> by_cases h1 : axis = 1 <;> cases d <;>
    simp [turnPn, h0, h1]

omit [CommRing α] in
theorem updateCubePlaneStep_planes_axis (axis : Int) (dir : Bool) (i : Nat) (s : State α) :
    (updateCubePlaneStep axis dir i s).planes (axisFamily axis) = s.planes (axisFamily axis) := by
  unfold updateCubePlaneStep axisFamily
  cases s.Cubes[i]? with
  | none => rfl
  | some c =>
    simp only []
    split_ifs <;> rfl

theorem rotate_planes_axis (q : Angle α) (axis : Int) (dir : Bool) (sel : PlaneRef)
    (s : State α) :
    (rotate q axis dir sel s).planes (axisFamily axis) = s.planes (axisFamily axis) := by
  unfold rotate updateCubePlane
  have : ∀ (ids : List Nat) (st : State α),
      (ids.foldl (fun st i => updateCubePlaneStep axis dir i st) st).planes (axisFamily axis) =
        st.planes (axisFamily axis) := by
    intro ids
    induction ids with
    | nil => intro st; rfl
    | cons i ids ih => intro st; rw [List.foldl_cons, ih, updateCubePlaneStep_planes_axis]
  rw [this, turnCubes_eq]
  cases axisFamily axis <;> rfl

omit [CommRing α] in
theorem planeCubeIds_congr (s s' : State α) (fam : Family) (k : Int)
    (h : s'.planes fam = s.planes fam) :
    s'.planeCubeIds ⟨fam, k⟩ = s.planeCubeIds ⟨fam, k⟩ := by
  unfold State.planeCubeIds State.plane
  cases fam <;> simp only [State.planes] at h <;> simp only [h]

omit [CommRing α] in
theorem planeNv_congr (s s' : State α) (fam : Family) (k : Int)
    (h : s'.planes fam = s.planes fam) :
    s'.planeNv ⟨fam, k⟩ = s.planeNv ⟨fam, k⟩ := by
  unfold State.planeNv State.plane
  cases fam <;> simp only [State.planes] at h <;> simp only [h]

omit [CommRing α] in
theorem Inv.planeNv {s : State α} (h : Inv s) (fam : Family) (k : Int) (hk : 0 ≤ k ∧ k < s.N) :
    s.planeNv ⟨fam, k⟩ = fam.nv := by
  have hl := h.len fam
  have hlt : k.toNat < (s.planes fam).length := by omega
  have hget : (s.planes fam)[k.toNat]? = some (s.planes fam)[k.toNat] :=
    List.getElem?_eq_getElem hlt
  have hnv := h.nv fam _ (List.getElem?_mem hget)
  unfold State.planeNv State.plane
  cases fam <;> simp only [State.planes] at hget hnv <;> simp only [hk.1, if_true, hget, hnv]

theorem Inv.turnMat {s : State α} (h : Inv s) (t : Angle α) (d : Bool) (fam : Family) (k : Int)
    (hk : 0 ≤ k ∧ k < s.N) : turnMat t d ⟨fam, k⟩ s = Family.turnMat t fam d := by
  unfold RubiksCube.turnMat Family.turnMat
  rw [h.planeNv fam k hk]

omit [CommRing α] in
theorem SameRest.refl (s : State α) : SameRest s s :=
  ⟨rfl, rfl, rfl, rfl, rfl, rfl, rfl, rfl, rfl, rfl⟩

omit [CommRing α] in
theorem SameRest.trans {s s' s'' : State α} (h : SameRest s s') (h' : SameRest s' s'') :
    SameRest s s'' := by
  unfold SameRest at *
  obtain ⟨a1, a2, a3, a4, a5, a6, a7, a8, a9, a10⟩ := h
  obtain ⟨b1, b2, b3, b4, b5, b6, b7, b8, b9, b10⟩ := h'
  exact ⟨b1.trans a1, b2.trans a2, b3.trans a3, b4.trans a4, b5.trans a5, b6.trans a6,
    b7.trans a7, b8.trans a8, b9.trans a9, b10.trans a10⟩

omit [CommRing α] in
theorem state_ext (s s' : State α) (h : SameRest s s') (hc : s'.Cubes = s.Cubes)
    (hp : ∀ fam : Family, s'.planes fam = s.planes fam) : s' = s := by
  have hx := hp Family.X
  have hy := hp Family.Y
  have hz := hp Family.Z
  unfold SameRest at h
  cases s
  cases s'
  simp only [State.planes] at hx hy hz
  simp only [State.mk.injEq] at h hc ⊢
  obtain ⟨a1, a2, a3, a4, a5, a6, a7, a8, a9, a10⟩ := h
  exact ⟨a1, a2, a3, hc, hx, hy, hz, a4, a5, a6, a7, a8, a9, a10⟩

omit [CommRing α] in
theorem sameRest_foldl (f : Nat → State α → State α)
    (hf : ∀ (i : Nat) (st : State α), SameRest st (f i st)) (ids : List Nat) (s : State α) :
    SameRest s (ids.foldl (fun st i => f i st) s) := by
  induction ids generalizing s with
  | nil => exact SameRest.refl s
  | cons i ids ih => rw [List.foldl_cons]; exact (hf i s).trans (ih _)

omit [CommRing α] in
theorem sameRest_updateCubePlaneStep (axis : Int) (dir : Bool) (i : Nat) (s : State α) :
    SameRest s (updateCubePlaneStep axis dir i s) := by
  unfold updateCubePlaneStep
  cases s.Cubes[i]? with
  | none => exact SameRest.refl s
  | some c =>
    simp only []
    split_ifs <;> exact ⟨rfl, rfl, rfl, rfl, rfl, rfl, rfl, rfl, rfl, rfl⟩

omit [CommRing α] in
theorem sameRest_updateCubePlane (axis : Int) (dir : Bool) (sel : PlaneRef) (s : State α) :
    SameRest s (updateCubePlane axis dir sel s) :=
  sameRest_foldl _ (sameRest_updateCubePlaneStep axis dir) _ s

theorem sameRest_turnCubes (t : Angle α) (d : Bool) (sel : PlaneRef) (s : State α) :
    SameRest s (turnCubes t d sel s) := by
  rw [turnCubes_eq]
  exact ⟨rfl, rfl, rfl, rfl, rfl, rfl, rfl, rfl, rfl, rfl⟩

theorem sameRest_rotate (q : Angle α) (axis : Int) (dir : Bool) (sel : PlaneRef) (s : State α) :
    SameRest s (rotate q axis dir sel s) :=
  (sameRest_turnCubes q dir sel s).trans (sameRest_updateCubePlane axis dir sel _)

theorem sameRest_resetCubeAssign (i : Nat) (s : State α) : SameRest s (resetCubeAssign i s) := by
  unfold resetCubeAssign
  cases s.Cubes[i]? with
  | none => exact SameRest.refl s
  | some c => exact ⟨rfl, rfl, rfl, rfl, rfl, rfl, rfl, rfl, rfl, rfl⟩

theorem sameRest_resetCube (s : State α) : SameRest s (resetCube s) := by
  rw [resetCube_eq]
  have h1 : SameRest s (clearedState s) := ⟨rfl, rfl, rfl, rfl, rfl, rfl, rfl, rfl, rfl, rfl⟩
  exact h1.trans (sameRest_foldl _ sameRest_resetCubeAssign _ _)

omit [CommRing α] in
/-- Under `Inv` the planes are determined by the grid coordinates. -/
theorem planes_eq_of_inv {s s' : State α} (h : Inv s) (h' : Inv s') (hN : s'.N = s.N)
    (hpn : ∀ i : Nat, s'.pnOf i = s.pnOf i) (fam : Family) :
    s'.planes fam = s.planes fam := by
  have hmem : ∀ (k : Int) (i : Nat),
      i ∈ planeIds (s'.planes fam) k ↔ i ∈ planeIds (s.planes fam) k := by
    intro k i
    rw [h.mem, h'.mem]
    have := hpn i
    unfold State.pnOf at this
    cases h0 : s.Cubes[i]? <;> cases h1 : s'.Cubes[i]? <;> simp [h0, h1] at this ⊢
    rw [this]
  apply List.ext_getElem?
  intro m
  have hl := h.len fam
  have hl' := h'.len fam
  by_cases hm : m < (s.planes fam).length
  · have hm' : m < (s'.planes fam).length := by omega
    have e := List.getElem?_eq_getElem hm
    have e' := List.getElem?_eq_getElem hm'
    rw [e, e']
    have hnv := h.nv fam _ (List.getElem?_mem e)
    have hnv' := h'.nv fam _ (List.getElem?_mem e')
    have hids : (s'.planes fam)[m].cubeIds = (s.planes fam)[m].cubeIds := by
      ext i
      have := hmem (m : Int) i
      unfold planeIds at this
      simp only [Int.toNat_ofNat, Int.ofNat_zero_le, if_true, e, e'] at this
      exact this
    congr 1
    cases hp : (s.planes fam)[m]
    cases hp' : (s'.planes fam)[m]
    rw [hp] at hnv hids
    rw [hp'] at hnv' hids
    simp only [CubePlane.mk.injEq] at hnv hnv' hids ⊢
    exact ⟨hnv'.trans hnv.symm, hids⟩
  · rw [List.getElem?_eq_none (by omega), List.getElem?_eq_none (by omega)]


/-- One `rotate` call about `A` on the plane `k` of the family of `A`, in a consistent
state. -/
theorem rotate_same {s : State α} (h : Inv s) (q : Angle α) (A : Int) (d : Bool) (k : Int)
    (hk : 0 ≤ k ∧ k < s.N) :
    Inv (rotate q A d ⟨axisFamily A, k⟩ s) ∧
    (rotate q A d ⟨axisFamily A, k⟩ s).N = s.N ∧
    (rotate q A d ⟨axisFamily A, k⟩ s).planeCubeIds ⟨axisFamily A, k⟩ =
      s.planeCubeIds ⟨axisFamily A, k⟩ ∧
    (∀ j : Nat, (rotate q A d ⟨axisFamily A, k⟩ s).Cubes[j]? =
      if j ∈ s.planeCubeIds ⟨axisFamily A, k⟩ then
        (s.Cubes[j]?).map (Cube.turned (Family.turnMat q (axisFamily A) d) s.N A d)
      else s.Cubes[j]?) ∧
    SameRest s (rotate q A d ⟨axisFamily A, k⟩ s) := by
  refine ⟨h.rotate q A d _, rotate_N _ _ _ _ _,
    planeCubeIds_congr _ _ _ _ (rotate_planes_axis _ _ _ _ _), ?_, sameRest_rotate _ _ _ _ _⟩
  intro j
  rw [rotate_Cubes_getElem?, h.turnMat q d _ k hk]

theorem Cube.turned_inv (q : Angle α) (hc : q.cos = 0) (hs : q.sin = 1) (fam : Family)
    (n A : Int) (d : Bool) (c : Cube α) :
    Cube.turned (Family.turnMat q fam (!d)) n A (!d)
      (Cube.turned (Family.turnMat q fam d) n A d c) = c := by
  unfold Cube.turned
  cases c
  simp only [Cube.mk.injEq, true_and, turnPn_inv, and_true]
  exact turnMat_inv_mul q hc hs fam d _

theorem Cube.turned_four (q : Angle α) (hc : q.cos = 0) (hs : q.sin = 1) (fam : Family)
    (n A : Int) (d : Bool) (c : Cube α) :
    Cube.turned (Family.turnMat q fam d) n A d (Cube.turned (Family.turnMat q fam d) n A d
      (Cube.turned (Family.turnMat q fam d) n A d
        (Cube.turned (Family.turnMat q fam d) n A d c))) = c := by
  unfold Cube.turned
  cases c
  simp only [Cube.mk.injEq, true_and, turnPn_four, and_true]
  exact turnMat_four q hc hs fam d _

omit [CommRing α] in
theorem getElem?_of_pnOf {s : State α} {i : Nat} {p : Vec3} (h : s.pnOf i = some p) :
    ∃ c, s.Cubes[i]? = some c ∧ c.pn = p := by
  unfold State.pnOf at h
  cases h0 : s.Cubes[i]? with
  | none => simp [h0] at h
  | some c => simp only [h0, Option.map_some', Option.some.injEq] at h; exact ⟨c, rfl, h⟩


/-! ### Reachable states -/

theorem Reachable.N_eq {q : Angle α} {n mode : Int} {s : State α}
    (h : Reachable q n mode s) : s.N = n := by
  induction h with
  | init => exact build_N n mode
  | rotate axis dir k _ _ _ _ ih => rw [rotate_N]; exact ih
  | reset _ ih => rw [resetCube_N]; exact ih

theorem Reachable.static {q : Angle α} {n mode : Int} {s : State α}
    (h : Reachable q n mode s) :
    s.Cubes.map (Cube.reset n) = (build n mode : State α).Cubes := by
  induction h with
  | init =>
    rw [build_Cubes, List.map_map]
    rfl
  | @rotate s axis dir k hs _ _ _ ih =>
    rw [← ih]
    apply List.ext_getElem?
    intro j
    rw [List.getElem?_map, List.getElem?_map, rotate_Cubes_getElem?]
    split
    · cases s.Cubes[j]? <;> rfl
    · rfl
  | @reset s hs ih =>
    rw [resetCube_Cubes, hs.N_eq, List.map_map, ← ih]
    rfl

theorem resetCube_of_reachable {q : Angle α} {n mode : Int} (hn : 1 ≤ n) {s : State α}
    (h : Reachable q n mode s) :
    (resetCube s).Cubes = (build n mode : State α).Cubes ∧
    ∀ fam : Family, (resetCube s).planes fam = (build n mode : State α).planes fam := by
  have hc : (resetCube s).Cubes = (build n mode : State α).Cubes := by
    rw [resetCube_Cubes, h.N_eq]; exact h.static
  refine ⟨hc, ?_⟩
  have h1 := (h.inv hn).1.resetCube
  have h2 := inv_build (α := α) n mode hn
  refine planes_eq_of_inv h2 h1 ?_ ?_
  · rw [resetCube_N, h.N_eq, build_N]
  · intro i
    unfold State.pnOf
    rw [hc]

theorem shuffleStep_reachable {q : Angle α} {n mode : Int} (hn : 1 ≤ n) {s : State α}
    (h : Reachable q n mode s) (r0 r1 r2 : Nat) :
    Reachable q n mode (shuffleStep q r0 r1 r2 s) := by
  unfold shuffleStep
  simp only []
  have hax : Int.tmod (r0 : Int) 3 = 0 ∨ Int.tmod (r0 : Int) 3 = 1 ∨ Int.tmod (r0 : Int) 3 = 2 := by
    rw [Int.tmod_eq_emod (by omega) (by omega)]
    omega
  have hN := h.N_eq
  have hk : 0 ≤ Int.tmod (r2 : Int) s.N ∧ Int.tmod (r2 : Int) s.N < n := by
    rw [Int.tmod_eq_emod (by omega) (by omega), hN]
    exact ⟨Int.emod_nonneg _ (by omega), Int.emod_lt_of_pos _ (by omega)⟩
  have hsel : (if Int.tmod (r0 : Int) 3 = 0 then (⟨Family.X, Int.tmod (r2 : Int) s.N⟩ : PlaneRef)
      else if Int.tmod (r0 : Int) 3 = 1 then ⟨Family.Y, Int.tmod (r2 : Int) s.N⟩
      else ⟨Family.Z, Int.tmod (r2 : Int) s.N⟩) =
      ⟨axisFamily (Int.tmod (r0 : Int) 3), Int.tmod (r2 : Int) s.N⟩ := by
    unfold axisFamily
    split_ifs <;> rfl
  rw [hsel]
  exact Reachable.rotate _ _ _ h hax hk.1 hk.2

theorem shuffleCube_reachable {q : Angle α} {n mode : Int} (hn : 1 ≤ n) {s : State α}
    (h : Reachable q n mode s) (rand : Nat → Nat) :
    Reachable q n mode (shuffleCube q rand s) := by
  unfold shuffleCube
  generalize List.range 10 = l
  induction l generalizing s with
  | nil => exact h
  | cons i l ih => rw [List.foldl_cons]; exact ih (shuffleStep_reachable hn h _ _ _)


/-! ### Orientation against grid coordinate -/

theorem Oriented.turned (q : Angle ℤ) (hc : q.cos = 0) (hs : q.sin = 1) (n A : Int) (d : Bool)
    (c : Cube ℤ) (h : Oriented n c) :
    Oriented n (Cube.turned (Family.turnMat q (axisFamily A) d) n A d c) := by
  unfold Oriented at *
  unfold Cube.turned applyMat at *
  simp only [Vec3.add_def, Vec3.splat, Vec3.mk.injEq] at h ⊢
  rw [turnMat_eq, hc, hs]
  by_cases h0 : A = 0 <;> by_cases h1 : A = 1 <;> cases d <;>
    simp [axisFamily, turnPn, h0, h1, Matrix.mul_apply, Fin.sum_univ_four, dirSign,
      Matrix.vecHead, Matrix.vecTail] <;>
    omega

theorem applyMat_one (p : Vec3) : applyMat 1 p = p := by
  cases p
  simp [applyMat]

theorem Oriented.build (n mode : Int) (c : Cube ℤ)
    (hc : c ∈ (build n mode : State ℤ).Cubes) : Oriented n c := by
  rw [build_Cubes] at hc
  obtain ⟨c0, hc0, rfl⟩ := List.mem_map.mp hc
  unfold Oriented Cube.reset
  simp only [applyMat_one]
  exact newCubes_double n mode c0 hc0

theorem Reachable.oriented {q : Angle ℤ} (hc : q.cos = 0) (hs : q.sin = 1) {n mode : Int}
    (hn : 1 ≤ n) {s : State ℤ} (h : Reachable q n mode s) :
    ∀ (i : Nat) (c : Cube ℤ), s.Cubes[i]? = some c → Oriented n c := by
  induction h with
  | init => intro i c hi; exact Oriented.build n mode c (List.getElem?_mem hi)
  | @rotate s axis dir k hr _ hk0 hk1 ih =>
    intro i c hi
    obtain ⟨hinv, hN⟩ := hr.inv hn
    obtain ⟨_, _, _, hcubes, _⟩ := rotate_same hinv q axis dir k (by omega)
    rw [hcubes] at hi
    split at hi
    · cases h0 : s.Cubes[i]? with
      | none => simp [h0] at hi
      | some c0 =>
        simp only [h0, Option.map_some', Option.some.injEq] at hi
        subst hi
        rw [hN]
        exact Oriented.turned q hc hs n axis dir c0 (ih i c0 h0)
    · exact ih i c hi
  | @reset s hr ih =>
    intro i c hi
    have := (resetCube_of_reachable hn hr).1
    rw [this] at hi
    exact Oriented.build n mode c (List.getElem?_mem hi)


/-! ### Counting the cubes -/

omit [CommRing α] in
theorem typeCount_append (t : Int) (l l' : List (Cube α)) :
    typeCount t (l ++ l') = typeCount t l + typeCount t l' := by
  simp [typeCount]

omit [CommRing α] in
theorem typeCount_of_all (t t' : Int) (l : List (Cube α)) (h : ∀ c, c ∈ l → c.cubeType = t') :
    typeCount t l = if t = t' then l.length else 0 := by
  unfold typeCount
  split
  · rename_i e
    subst e
    rw [List.filter_eq_self.mpr]
    intro c hc
    simp [h c hc]
  · rename_i e
    rw [List.filter_eq_nil_iff.mpr]
    · rfl
    · intro c hc
      simp only [decide_eq_true_eq]
      rw [h c hc]
      exact fun e' => e e'.symm

theorem typeCount_map_reset (t n : Int) (l : List (Cube α)) :
    typeCount t (l.map (Cube.reset n)) = typeCount t l := by
  unfold typeCount
  rw [List.filter_map, List.length_map]
  rfl

theorem length_cornerCubes (n : Int) : (cornerCubes n : List (Cube α)).length = 8 := by
  simp [cornerCubes]

theorem length_flatMap_const {β γ : Type} (l : List β) (f : β → List γ) (m : Nat)
    (h : ∀ x, (f x).length = m) : (l.flatMap f).length = l.length * m := by
  induction l with
  | nil => simp
  | cons x l ih =>
    rw [List.flatMap_cons, List.length_append, ih, h, List.length_cons]
    ring

theorem length_edgeCubes (n : Int) :
    (edgeCubes n : List (Cube α)).length = 12 * (n - 2).toNat := by
  unfold edgeCubes
  rw [length_flatMap_const _ _ (n - 2).toNat (by intro i; simp)]
  simp

theorem length_faceCubes (n : Int) :
    (faceCubes n : List (Cube α)).length = 6 * ((n - 2).toNat * (n - 2).toNat) := by
  unfold faceCubes
  rw [length_flatMap_const _ _ ((n - 2).toNat * (n - 2).toNat)
    (by
      intro i
      rw [length_flatMap_const _ _ (n - 2).toNat (by intro j; simp)]
      simp)]
  simp

theorem cubeType_cornerCubes (n : Int) (c : Cube α) (h : c ∈ cornerCubes n) :
    c.cubeType = 1 := by
  simp only [cornerCubes, List.mem_map] at h
  obtain ⟨_, _, rfl⟩ := h
  rfl

theorem cubeType_edgeCubes (n : Int) (c : Cube α) (h : c ∈ edgeCubes n) :
    c.cubeType = 2 := by
  simp only [edgeCubes, List.mem_flatMap, List.mem_map] at h
  obtain ⟨_, _, _, _, rfl⟩ := h
  rfl

theorem cubeType_faceCubes (n : Int) (c : Cube α) (h : c ∈ faceCubes n) :
    c.cubeType = 3 := by
  simp only [faceCubes, List.mem_flatMap, List.mem_map] at h
  obtain ⟨_, _, _, _, _, _, rfl⟩ := h
  rfl


theorem typeCount_newCubes (n mode : Int) (hn : n ≠ 1) :
    typeCount 1 (newCubes n mode : List (Cube α)) = 8 ∧
    typeCount 2 (newCubes n mode : List (Cube α)) = 12 * (n - 2).toNat ∧
    typeCount 3 (newCubes n mode : List (Cube α)) =
      (if mode = 2 then 0 else 6 * ((n - 2).toNat * (n - 2).toNat)) ∧
    (newCubes n mode : List (Cube α)).length =
      8 + 12 * (n - 2).toNat + (if mode = 2 then 0 else 6 * ((n - 2).toNat * (n - 2).toNat)) := by
  have c1 : typeCount 1 (cornerCubes n : List (Cube α)) = 8 := by
    rw [typeCount_of_all 1 1 _ (cubeType_cornerCubes n), if_pos rfl, length_cornerCubes]
  have c2 : typeCount 2 (cornerCubes n : List (Cube α)) = 0 := by
    rw [typeCount_of_all 2 1 _ (cubeType_cornerCubes n), if_neg (by decide)]
  have c3 : typeCount 3 (cornerCubes n : List (Cube α)) = 0 := by
    rw [typeCount_of_all 3 1 _ (cubeType_cornerCubes n), if_neg (by decide)]
  have e1 : typeCount 1 (edgeCubes n : List (Cube α)) = 0 := by
    rw [typeCount_of_all 1 2 _ (cubeType_edgeCubes n), if_neg (by decide)]
  have e2 : typeCount 2 (edgeCubes n : List (Cube α)) = 12 * (n - 2).toNat := by
    rw [typeCount_of_all 2 2 _ (cubeType_edgeCubes n), if_pos rfl, length_edgeCubes]
  have e3 : typeCount 3 (edgeCubes n : List (Cube α)) = 0 := by
    rw [typeCount_of_all 3 2 _ (cubeType_edgeCubes n), if_neg (by decide)]
  have f1 : typeCount 1 (faceCubes n : List (Cube α)) = 0 := by
    rw [typeCount_of_all 1 3 _ (cubeType_faceCubes n), if_neg (by decide)]
  have f2 : typeCount 2 (faceCubes n : List (Cube α)) = 0 := by
    rw [typeCount_of_all 2 3 _ (cubeType_faceCubes n), if_neg (by decide)]
  have f3 : typeCount 3 (faceCubes n : List (Cube α)) =
      6 * ((n - 2).toNat * (n - 2).toNat) := by
    rw [typeCount_of_all 3 3 _ (cubeType_faceCubes n), if_pos rfl, length_faceCubes]
  have z : ∀ t : Int, typeCount t ([] : List (Cube α)) = 0 := fun _ => rfl
  unfold newCubes
  rw [if_neg hn]
  by_cases hm : mode = 2
  · simp only [hm, ne_eq, not_true_eq_false, if_false, if_true, typeCount_append,
      List.length_append, c1, c2, c3, e1, e2, e3, z, length_cornerCubes, length_edgeCubes,
      List.length_nil]
    simp
  · simp only [hm, ne_eq, not_false_eq_true, if_false, if_true, typeCount_append,
      List.length_append, c1, c2, c3, e1, e2, e3, f1, f2, f3, length_cornerCubes,
      length_edgeCubes, length_faceCubes]
    simp

/-! ### Keyboard and animation -/

omit [CommRing α] in
theorem Inv.transfer {s s' : State α} (h : Inv s) (hN : s'.N = s.N)
    (hp : ∀ fam : Family, s'.planes fam = s.planes fam)
    (hcs : ∀ j : Nat, (s'.Cubes[j]?).map (fun c => (c.pn, c.position)) =
      (s.Cubes[j]?).map (fun c => (c.pn, c.position))) : Inv s' := by
  have h1 := h.of_cubes s'.Cubes hcs
  have hx := hp Family.X
  have hy := hp Family.Y
  have hz := hp Family.Z
  simp only [State.planes] at hx hy hz
  refine ⟨?_, ?_, ?_, ?_, ?_, ?_, ?_, ?_, ?_, ?_, ?_, ?_⟩
  · rw [hN]; exact h1.one_le
  · rw [hN, hx]; exact h1.xlen
  · rw [hN, hy]; exact h1.ylen
  · rw [hN, hz]; exact h1.zlen
  · rw [hx]; exact h1.xnv
  · rw [hy]; exact h1.ynv
  · rw [hz]; exact h1.znv
  · rw [hN]; exact h1.pos
  · rw [hN]; exact h1.range
  · rw [hx]; exact h1.xmem
  · rw [hy]; exact h1.ymem
  · rw [hz]; exact h1.zmem

omit [CommRing α] in
/-- The requests that `rotateCubeByKey` makes: the plane is one of the family of the axis,
with an index in range. -/
theorem rotateCubeByKey_request (key : Int) (s : State α) (hN : 1 ≤ s.N)
    (h : (rotateCubeByKey key s).rotating = true) (h0 : s.rotating = false) :
    ∃ (axis k : Int) (dir : Bool),
      rotateCubeByKey key s = selectPlane ⟨axisFamily axis, k⟩ axis dir s ∧
      (axis = 0 ∨ axis = 1 ∨ axis = 2) ∧ 0 ≤ k ∧ k < s.N := by
  have hdiv : 0 ≤ Int.tdiv s.N 2 ∧ Int.tdiv s.N 2 < s.N := by
    rw [Int.tdiv_eq_ediv (by omega) (by omega)]
    omega
  by_cases c82 : toChar key = 82
  · exact ⟨0, s.N - 1, true, by simp [rotateCubeByKey, c82, axisFamily], Or.inl rfl,
      by omega, by omega⟩
  by_cases c76 : toChar key = 76
  · exact ⟨0, 0, false, by simp [rotateCubeByKey, c76, axisFamily], Or.inl rfl,
      by omega, by omega⟩
  by_cases c85 : toChar key = 85
  · exact ⟨1, s.N - 1, true, by simp [rotateCubeByKey, c85, axisFamily], Or.inr (Or.inl rfl),
      by omega, by omega⟩
  by_cases c68 : toChar key = 68
  · exact ⟨1, 0, false, by simp [rotateCubeByKey, c68, axisFamily], Or.inr (Or.inl rfl),
      by omega, by omega⟩
  by_cases c70 : toChar key = 70
  · exact ⟨2, s.N - 1, true, by simp [rotateCubeByKey, c70, axisFamily], Or.inr (Or.inr rfl),
      by omega, by omega⟩
  by_cases c66 : toChar key = 66
  · exact ⟨2, 0, false, by simp [rotateCubeByKey, c66, axisFamily], Or.inr (Or.inr rfl),
      by omega, by omega⟩
  by_cases hm : s.mode = 2
  · have e : rotateCubeByKey key s = s := by
      simp [rotateCubeByKey, c82, c76, c85, c68, c70, c66, hm]
    rw [e, h0] at h
    cases h
  by_cases c77 : toChar key = 77
  · exact ⟨0, Int.tdiv s.N 2, true, by simp [rotateCubeByKey, c77, axisFamily, hm],
      Or.inl rfl, hdiv.1, hdiv.2⟩
  by_cases c69 : toChar key = 69
  · exact ⟨1, Int.tdiv s.N 2, true, by simp [rotateCubeByKey, c69, axisFamily, hm],
      Or.inr (Or.inl rfl), hdiv.1, hdiv.2⟩
  by_cases c83 : toChar key = 83
  · exact ⟨2, Int.tdiv s.N 2, false, by simp [rotateCubeByKey, c83, axisFamily, hm],
      Or.inr (Or.inr rfl), hdiv.1, hdiv.2⟩
  have e : rotateCubeByKey key s = s := by
    simp [rotateCubeByKey, c82, c76, c85, c68, c70, c66, c77, c69, c83]
  rw [e, h0] at h
  cases h


omit [CommRing α] in
theorem planeCubeIds_congr' (s s' : State α) (sel : PlaneRef)
    (h : ∀ fam : Family, s'.planes fam = s.planes fam) :
    s'.planeCubeIds sel = s.planeCubeIds sel := by
  cases sel with
  | mk fam k => exact planeCubeIds_congr s s' fam k (h fam)

omit [CommRing α] in
theorem planeNv_congr' (s s' : State α) (sel : PlaneRef)
    (h : ∀ fam : Family, s'.planes fam = s.planes fam) :
    s'.planeNv sel = s.planeNv sel := by
  cases sel with
  | mk fam k => exact planeNv_congr s s' fam k (h fam)

theorem animating_start (s : State α) (sel : PlaneRef) (axis : Int) (dir : Bool) (R : Mat4 α)
    (h0 : s.rotateCount = 0) : Animating s sel axis dir R 0 (selectPlane sel axis dir s) := by
  refine ⟨rfl, ?_, rfl, rfl, rfl, rfl, fun fam => by cases fam <;> rfl, ?_⟩
  · show s.rotateCount = _
    rw [h0]; rfl
  · intro j
    show s.Cubes[j]? = _
    split
    · cases s.Cubes[j]? with
      | none => rfl
      | some c => simp
    · rfl

theorem animating_tick (t : Angle α) (s : State α) (sel : PlaneRef) (axis : Int) (dir : Bool)
    (m : Nat) (st : State α) (h : Animating s sel axis dir (turnMat t dir sel s) m st)
    (hm : m < 9) :
    Animating s sel axis dir (turnMat t dir sel s) (m + 1) (animateRotate t st) := by
  have hstep : animateRotate t st =
      { turnCubes t st.rotateDir sel st with rotateCount := st.rotateCount + 1 } := by
    unfold animateRotate
    rw [if_pos h.rotating, h.selected]
    simp only []
    rw [if_pos (by rw [h.count]; omega)]
  have hR : turnMat t dir sel st = turnMat t dir sel s := by
    unfold turnMat
    rw [planeNv_congr' s st sel h.planes]
  rw [hstep, turnCubes_eq]
  refine ⟨h.rotating, ?_, h.selected, h.axis_eq, h.dir_eq, h.N_eq, ?_, ?_⟩
  · show st.rotateCount + 1 = _
    rw [h.count]; push_cast; rfl
  · intro fam
    rw [← h.planes fam]
    cases fam <;> rfl
  · intro j
    show (List.foldl _ st.Cubes _)[j]? = _
    rw [h.dir_eq, hR, planeCubeIds_congr' s st sel h.planes,
      getElem?_foldl_modify _ _ (s.planeCubeIds_nodup sel), h.cubes]
    split
    · cases s.Cubes[j]? with
      | none => rfl
      | some c => simp [pow_succ', Matrix.mul_assoc]
    · rfl

theorem animating_iterate (t : Angle α) (s : State α) (sel : PlaneRef) (axis : Int)
    (dir : Bool) (h0 : s.rotateCount = 0) (m : Nat) (hm : m ≤ 9) :
    Animating s sel axis dir (turnMat t dir sel s) m
      (Nat.iterate (animateRotate t) m (selectPlane sel axis dir s)) := by
  induction m with
  | zero => exact animating_start s sel axis dir _ h0
  | succ m ih =>
    rw [Function.iterate_succ_apply']
    exact animating_tick t s sel axis dir m _ (ih (by omega)) (by omega)


theorem turnMat_real_add (a b : ℝ) (fam : Family) (d : Bool) :
    Family.turnMat (⟨Real.cos a, Real.sin a⟩ : Angle ℝ) fam d *
      Family.turnMat (⟨Real.cos b, Real.sin b⟩ : Angle ℝ) fam d =
    Family.turnMat (⟨Real.cos (a + b), Real.sin (a + b)⟩ : Angle ℝ) fam d := by
  rw [turnMat_eq, turnMat_eq, turnMat_eq, Real.cos_add, Real.sin_add]
  have h := dirSign_mul_self (α := ℝ) d
  generalize (dirSign d : ℝ) = σ at h
  have h' : σ ^ 2 = 1 := by rw [pow_two]; exact h
  cases fam <;> (ext i j; fin_cases i <;> fin_cases j <;>
    simp [Matrix.mul_apply, Fin.sum_univ_four, Matrix.vecHead, Matrix.vecTail] <;>
    ring_nf <;> (try rw [h']) <;> (try ring))

theorem turnMat_real_zero (fam : Family) (d : Bool) :
    Family.turnMat (⟨Real.cos 0, Real.sin 0⟩ : Angle ℝ) fam d = 1 := by
  rw [turnMat_eq, Real.cos_zero, Real.sin_zero]
  cases fam <;> (ext i j; fin_cases i <;> fin_cases j <;>
    simp [Matrix.one_apply, Matrix.vecHead, Matrix.vecTail])

theorem turnMat_real_pow (a : ℝ) (fam : Family) (d : Bool) (m : Nat) :
    Family.turnMat (⟨Real.cos a, Real.sin a⟩ : Angle ℝ) fam d ^ m =
      Family.turnMat (⟨Real.cos (m * a), Real.sin (m * a)⟩ : Angle ℝ) fam d := by
  induction m with
  | zero =>
    rw [pow_zero, Nat.cast_zero, zero_mul]
    exact (turnMat_real_zero fam d).symm
  | succ m ih =>
    rw [pow_succ, ih, turnMat_real_add]
    push_cast
    ring_nf

theorem turnMat_real_ninth (fam : Family) (d : Bool) :
    Family.turnMat (⟨Real.cos (Real.pi / 18), Real.sin (Real.pi / 18)⟩ : Angle ℝ) fam d ^ 9 =
      Family.turnMat (Angle.quarter : Angle ℝ) fam d := by
  rw [turnMat_real_pow]
  have : ((9 : ℕ) : ℝ) * (Real.pi / 18) = Real.pi / 2 := by push_cast; ring
  rw [this, Real.cos_pi_div_two, Real.sin_pi_div_two]
  rfl


theorem Animating.consistent {s : State α} {sel : PlaneRef} {axis : Int} {dir : Bool} {R : Mat4 α}
    {m : Nat} {st : State α} (h : Animating s sel axis dir R m st) (hinv : Inv s) : Inv st := by
  apply hinv.transfer h.N_eq h.planes
  intro j
  rw [h.cubes]
  split
  · cases s.Cubes[j]? <;> rfl
  · rfl

theorem Animating.pnOf {s : State α} {sel : PlaneRef} {axis : Int} {dir : Bool} {R : Mat4 α}
    {m : Nat} {st : State α} (h : Animating s sel axis dir R m st) (i : Nat) :
    st.pnOf i = s.pnOf i := by
  unfold State.pnOf
  rw [h.cubes]
  split
  · cases s.Cubes[i]? <;> rfl
  · rfl

theorem animating_commit (t : Angle α) {s : State α} (hinv : Inv s) {sel : PlaneRef}
    {axis : Int} {dir : Bool} {R : Mat4 α} {st : State α}
    (h : Animating s sel axis dir R 9 st) :
    (animateRotate t st).rotating = false ∧ (animateRotate t st).rotateCount = 0 ∧
    Inv (animateRotate t st) ∧ (animateRotate t st).N = s.N ∧
    ∀ j : Nat, (animateRotate t st).Cubes[j]? =
      if j ∈ s.planeCubeIds sel then (s.Cubes[j]?).map (Cube.turned (R ^ 9) s.N axis dir)
      else s.Cubes[j]? := by
  have hstep : animateRotate t st =
      { updateCubePlane st.axis st.rotateDir sel st with rotateCount := 0, rotating := false } := by
    unfold animateRotate
    rw [if_pos h.rotating, h.selected]
    simp only []
    rw [if_neg (by rw [h.count]; decide)]
  have hi : Inv (updateCubePlane st.axis st.rotateDir sel st) :=
    (h.consistent hinv).updateCubePlane _ _ _
  have hN : (updateCubePlane st.axis st.rotateDir sel st).N = s.N := by
    unfold updateCubePlane
    rw [foldl_updateCubePlaneStep_N, h.N_eq]
  rw [hstep]
  refine ⟨rfl, rfl, ?_, hN, ?_⟩
  · exact hi.transfer rfl (fun fam => by cases fam <;> rfl) (fun j => rfl)
  · intro j
    show (updateCubePlane st.axis st.rotateDir sel st).Cubes[j]? = _
    unfold updateCubePlane
    rw [foldl_updateCubePlaneStep_Cubes, planeCubeIds_congr' s st sel h.planes,
      getElem?_foldl_modify _ _ (s.planeCubeIds_nodup sel), h.cubes, h.N_eq, h.axis_eq, h.dir_eq]
    split
    · cases s.Cubes[j]? <;> rfl
    · rfl


theorem build_idle (n mode : Int) :
    (build n mode : State α).rotating = false ∧ (build n mode : State α).rotateCount = 0 ∧
    (build n mode : State α).mode = mode := by
  rw [build_eq]
  obtain ⟨_, _, a3, _, _, _, a7, _, _, a10⟩ := sameRest_resetCube (pushed n (blank n mode : State α))
  exact ⟨a7, a10, a3⟩

/-! ### The cells that the cubes occupy -/

theorem map_gridCoord_newCubes (n mode : Int) :
    (newCubes n mode : List (Cube α)).map (fun c => gridCoord n c.position) = cells n mode := by
  unfold newCubes cells
  split
  · rename_i h1
    subst h1
    rfl
  · have hc : (cornerCubes n : List (Cube α)).map (fun c => gridCoord n c.position) =
        cornerCells n := by
      unfold cornerCubes cornerCells
      rw [List.map_map]
      apply List.map_congr_left
      intro i hi
      exact gridCoord_cornerPos n i (List.mem_range.mp hi)
    have he : (edgeCubes n : List (Cube α)).map (fun c => gridCoord n c.position) =
        edgeCells n := by
      unfold edgeCubes edgeCells
      rw [List.map_flatMap]
      apply List.flatMap_congr
      intro i hi
      rw [List.map_map]
      apply List.map_congr_left
      intro j _
      exact gridCoord_edgePos n i (List.mem_range.mp hi) j
    have hf : (faceCubes n : List (Cube α)).map (fun c => gridCoord n c.position) =
        faceCells n := by
      unfold faceCubes faceCells
      rw [List.map_flatMap]
      apply List.flatMap_congr
      intro i hi
      rw [List.map_flatMap]
      apply List.flatMap_congr
      intro j _
      rw [List.map_map]
      apply List.map_congr_left
      intro k _
      exact gridCoord_facePos n i (List.mem_range.mp hi) j k
    rw [List.map_append, List.map_append, hc, he]
    split
    · rw [hf]
    · rfl


theorem mem_cornerCells (n : Int) (p : Vec3) :
    p ∈ cornerCells n ↔ IsCornerCell n p := by
  unfold cornerCells IsCornerCell onFace
  simp only [List.mem_map, List.mem_range]
  constructor
  · rintro ⟨i, hi, rfl⟩
    interval_cases i <;> simp [cornerCell]
  · cases p with
    | mk x y z =>
      simp only []
      rintro ⟨rfl | rfl, rfl | rfl, rfl | rfl⟩
      · exact ⟨4, by decide, rfl⟩
      · exact ⟨7, by decide, rfl⟩
      · exact ⟨0, by decide, rfl⟩
      · exact ⟨3, by decide, rfl⟩
      · exact ⟨5, by decide, rfl⟩
      · exact ⟨6, by decide, rfl⟩
      · exact ⟨1, by decide, rfl⟩
      · exact ⟨2, by decide, rfl⟩

theorem interior_up (n v : Int) (h : 0 < v ∧ v < n - 1) :
    ∃ j : Nat, j < (n - 2).toNat ∧ (j : Int) + 1 = v :=
  ⟨(v - 1).toNat, Int.lt_toNat.mpr (by omega), by omega⟩

theorem interior_down (n v : Int) (h : 0 < v ∧ v < n - 1) :
    ∃ j : Nat, j < (n - 2).toNat ∧ n - 2 - (j : Int) = v :=
  ⟨(n - 2 - v).toNat, Int.lt_toNat.mpr (by omega), by omega⟩

theorem mem_edgeCells (n : Int) (hn : 2 ≤ n) (p : Vec3) :
    p ∈ edgeCells n ↔ IsEdgeCell n p := by
  unfold edgeCells IsEdgeCell InRange onFace
  simp only [List.mem_flatMap, List.mem_map, List.mem_range]
  constructor
  · rintro ⟨i, hi, j, hj, rfl⟩
    have hj' : (j : Int) < n - 2 := Int.lt_toNat.mp hj
    clear hj
    interval_cases i <;> simp [edgeCell] <;> omega
  · cases p with
    | mk x y z =>
      simp only []
      intro h
      have hx : x = 0 ∨ x = n - 1 ∨ (0 < x ∧ x < n - 1) := by omega
      have hy : y = 0 ∨ y = n - 1 ∨ (0 < y ∧ y < n - 1) := by omega
      have hz : z = 0 ∨ z = n - 1 ∨ (0 < z ∧ z < n - 1) := by omega
      rcases hx with rfl | rfl | hx <;> rcases hy with rfl | rfl | hy <;>
        rcases hz with rfl | rfl | hz <;>
        first
        | (exfalso; omega)
        | (obtain ⟨j, hj, rfl⟩ := interior_up n y hy; exact ⟨0, by decide, j, hj, rfl⟩)
        | (obtain ⟨j, hj, rfl⟩ := interior_up n y hy; exact ⟨1, by decide, j, hj, rfl⟩)
        | (obtain ⟨j, hj, rfl⟩ := interior_up n y hy; exact ⟨2, by decide, j, hj, rfl⟩)
        | (obtain ⟨j, hj, rfl⟩ := interior_up n y hy; exact ⟨3, by decide, j, hj, rfl⟩)
        | (obtain ⟨j, hj, rfl⟩ := interior_down n x hx; exact ⟨4, by decide, j, hj, rfl⟩)
        | (obtain ⟨j, hj, rfl⟩ := interior_down n z hz; exact ⟨5, by decide, j, hj, rfl⟩)
        | (obtain ⟨j, hj, rfl⟩ := interior_up n x hx; exact ⟨6, by decide, j, hj, rfl⟩)
        | (obtain ⟨j, hj, rfl⟩ := interior_up n z hz; exact ⟨7, by decide, j, hj, rfl⟩)
        | (obtain ⟨j, hj, rfl⟩ := interior_down n x hx; exact ⟨8, by decide, j, hj, rfl⟩)
        | (obtain ⟨j, hj, rfl⟩ := interior_down n z hz; exact ⟨9, by decide, j, hj, rfl⟩)
        | (obtain ⟨j, hj, rfl⟩ := interior_up n x hx; exact ⟨10, by decide, j, hj, rfl⟩)
        | (obtain ⟨j, hj, rfl⟩ := interior_up n z hz; exact ⟨11, by decide, j, hj, rfl⟩)

theorem mem_faceCells (n : Int) (hn : 2 ≤ n) (p : Vec3) :
    p ∈ faceCells n ↔ IsFaceCell n p := by
  unfold faceCells IsFaceCell InRange onFace
  simp only [List.mem_flatMap, List.mem_map, List.mem_range]
  constructor
  · rintro ⟨i, hi, j, hj, k, hk, rfl⟩
    have hj' : (j : Int) < n - 2 := Int.lt_toNat.mp hj
    have hk' : (k : Int) < n - 2 := Int.lt_toNat.mp hk
    clear hj hk
    interval_cases i <;> simp [faceCell] <;> omega
  · cases p with
    | mk x y z =>
      simp only []
      intro h
      have hx : x = 0 ∨ x = n - 1 ∨ (0 < x ∧ x < n - 1) := by omega
      have hy : y = 0 ∨ y = n - 1 ∨ (0 < y ∧ y < n - 1) := by omega
      have hz : z = 0 ∨ z = n - 1 ∨ (0 < z ∧ z < n - 1) := by omega
      rcases hx with rfl | rfl | hx <;> rcases hy with rfl | rfl | hy <;>
        rcases hz with rfl | rfl | hz <;>
        first
        | (exfalso; omega)
        | (obtain ⟨j, hj, rfl⟩ := interior_up n x hx; obtain ⟨k, hk, rfl⟩ := interior_down n y hy
           exact ⟨0, by decide, j, hj, k, hk, rfl⟩)
        | (obtain ⟨j, hj, rfl⟩ := interior_down n z hz; obtain ⟨k, hk, rfl⟩ := interior_down n y hy
           exact ⟨1, by decide, j, hj, k, hk, rfl⟩)
        | (obtain ⟨j, hj, rfl⟩ := interior_down n z hz; obtain ⟨k, hk, rfl⟩ := interior_up n x hx
           exact ⟨2, by decide, j, hj, k, hk, rfl⟩)
        | (obtain ⟨j, hj, rfl⟩ := interior_up n z hz; obtain ⟨k, hk, rfl⟩ := interior_down n y hy
           exact ⟨3, by decide, j, hj, k, hk, rfl⟩)
        | (obtain ⟨j, hj, rfl⟩ := interior_down n z hz; obtain ⟨k, hk, rfl⟩ := interior_up n x hx
           exact ⟨4, by decide, j, hj, k, hk, rfl⟩)
        | (obtain ⟨j, hj, rfl⟩ := interior_down n x hx; obtain ⟨k, hk, rfl⟩ := interior_down n y hy
           exact ⟨5, by decide, j, hj, k, hk, rfl⟩)


theorem cornerCell_inj (n : Int) (hn : 2 ≤ n) (i j : Nat) (hi : i < 8) (hj : j < 8)
    (h : cornerCell n i = cornerCell n j) : i = j := by
  interval_cases i <;> interval_cases j <;> simp [cornerCell] at h ⊢ <;> omega

theorem edgeCell_inj (n : Int) (i i' : Nat) (hi : i < 12) (hi' : i' < 12) (j j' : Nat)
    (hj : (j : Int) < n - 2) (hj' : (j' : Int) < n - 2)
    (h : edgeCell n i j = edgeCell n i' j') : i = i' ∧ j = j' := by
  interval_cases i <;> interval_cases i' <;> simp [edgeCell] at h ⊢ <;> omega

theorem faceCell_inj (n : Int) (i i' : Nat) (hi : i < 6) (hi' : i' < 6) (j j' k k' : Nat)
    (hj : (j : Int) < n - 2) (hj' : (j' : Int) < n - 2)
    (hk : (k : Int) < n - 2) (hk' : (k' : Int) < n - 2)
    (h : faceCell n i j k = faceCell n i' j' k') : i = i' ∧ j = j' ∧ k = k' := by
  interval_cases i <;> interval_cases i' <;> simp [faceCell] at h ⊢ <;> omega

theorem nodup_cornerCells (n : Int) (hn : 2 ≤ n) : (cornerCells n).Nodup := by
  unfold cornerCells
  apply List.Nodup.map_on _ (List.nodup_range 8)
  intro i hi j hj h
  exact cornerCell_inj n hn i j (List.mem_range.mp hi) (List.mem_range.mp hj) h

theorem nodup_edgeCells (n : Int) : (edgeCells n).Nodup := by
  unfold edgeCells
  rw [List.nodup_flatMap]
  constructor
  · intro i hi
    apply List.Nodup.map_on _ (List.nodup_range _)
    intro j hj j' hj' h
    exact (edgeCell_inj n i i (List.mem_range.mp hi) (List.mem_range.mp hi) j j'
      (Int.lt_toNat.mp (List.mem_range.mp hj)) (Int.lt_toNat.mp (List.mem_range.mp hj')) h).2
  · apply (List.nodup_range 12).pairwise_of_forall_ne
    intro i hi i' hi' hne
    show List.Disjoint _ _
    rw [List.disjoint_left]
    intro p hp hp'
    simp only [List.mem_map, List.mem_range] at hp hp'
    obtain ⟨j, hj, rfl⟩ := hp
    obtain ⟨j', hj', h⟩ := hp'
    exact hne (edgeCell_inj n i i' (List.mem_range.mp hi) (List.mem_range.mp hi') j j'
      (Int.lt_toNat.mp hj) (Int.lt_toNat.mp hj') h.symm).1

theorem nodup_faceCells (n : Int) : (faceCells n).Nodup := by
  unfold faceCells
  rw [List.nodup_flatMap]
  constructor
  · intro i hi
    rw [List.nodup_flatMap]
    constructor
    · intro j hj
      apply List.Nodup.map_on _ (List.nodup_range _)
      intro k hk k' hk' h
      exact (faceCell_inj n i i (List.mem_range.mp hi) (List.mem_range.mp hi) j j k k'
        (Int.lt_toNat.mp (List.mem_range.mp hj)) (Int.lt_toNat.mp (List.mem_range.mp hj))
        (Int.lt_toNat.mp (List.mem_range.mp hk)) (Int.lt_toNat.mp (List.mem_range.mp hk'))
        h).2.2
    · apply (List.nodup_range _).pairwise_of_forall_ne
      intro j hj j' hj' hne
      show List.Disjoint _ _
      rw [List.disjoint_left]
      intro p hp hp'
      simp only [List.mem_map, List.mem_range] at hp hp'
      obtain ⟨k, hk, rfl⟩ := hp
      obtain ⟨k', hk', h⟩ := hp'
      exact hne (faceCell_inj n i i (List.mem_range.mp hi) (List.mem_range.mp hi) j j' k k'
        (Int.lt_toNat.mp (List.mem_range.mp hj)) (Int.lt_toNat.mp (List.mem_range.mp hj'))
        (Int.lt_toNat.mp hk) (Int.lt_toNat.mp hk') h.symm).2.1
  · apply (List.nodup_range 6).pairwise_of_forall_ne
    intro i hi i' hi' hne
    show List.Disjoint _ _
    rw [List.disjoint_left]
    intro p hp hp'
    simp only [List.mem_flatMap, List.mem_map, List.mem_range] at hp hp'
    obtain ⟨j, hj, k, hk, rfl⟩ := hp
    obtain ⟨j', hj', k', hk', h⟩ := hp'
    exact hne (faceCell_inj n i i' (List.mem_range.mp hi) (List.mem_range.mp hi') j j' k k'
      (Int.lt_toNat.mp hj) (Int.lt_toNat.mp hj') (Int.lt_toNat.mp hk) (Int.lt_toNat.mp hk')
      h.symm).1

theorem nodup_cells (n mode : Int) (hn : 1 ≤ n) : (cells n mode).Nodup := by
  unfold cells
  split
  · exact List.nodup_singleton _
  · rename_i h1
    have h2 : 2 ≤ n := by omega
    have hce : List.Disjoint (cornerCells n) (edgeCells n) := by
      rw [List.disjoint_left]
      intro p hp hp'
      have a := (mem_cornerCells n p).mp hp
      have b := (mem_edgeCells n h2 p).mp hp'
      unfold IsCornerCell at a
      unfold IsEdgeCell at b
      tauto
    have hcf : List.Disjoint (cornerCells n ++ edgeCells n) (faceCells n) := by
      rw [List.disjoint_left]
      intro p hp hp'
      have c := (mem_faceCells n h2 p).mp hp'
      unfold IsFaceCell at c
      rcases List.mem_append.mp hp with hp | hp
      · have a := (mem_cornerCells n p).mp hp
        unfold IsCornerCell at a
        tauto
      · have b := (mem_edgeCells n h2 p).mp hp
        unfold IsEdgeCell at b
        tauto
    have h12 : (cornerCells n ++ edgeCells n).Nodup :=
      List.nodup_append.mpr ⟨nodup_cornerCells n h2, nodup_edgeCells n, hce⟩
    split
    · exact List.nodup_append.mpr ⟨h12, nodup_faceCells n, hcf⟩
    · rw [List.append_nil]; exact h12

theorem mem_cells (n mode : Int) (hn : 1 ≤ n) (p : Vec3) :
    p ∈ cells n mode ↔ OccupiedCell n mode p := by
  unfold cells OccupiedCell
  by_cases h1 : n = 1
  · subst h1
    simp only [if_true, List.mem_singleton, VoidCell, ShellCell, InRange, onFace]
    cases p with
    | mk x y z =>
      simp only [Vec3.mk.injEq]
      split <;> omega
  · have h2 : 2 ≤ n := by omega
    simp only [h1, if_false, List.mem_append, mem_cornerCells n, mem_edgeCells n h2]
    by_cases hm : mode = 2
    · simp only [hm, ne_eq, not_true_eq_false, if_false, if_true, List.not_mem_nil, or_false,
        IsCornerCell, IsEdgeCell, VoidCell, InRange, onFace]
      omega
    · simp only [hm, ne_eq, not_false_eq_true, if_true, if_false, mem_faceCells n h2,
        IsCornerCell, IsEdgeCell, IsFaceCell, ShellCell, InRange, onFace]
      omega


theorem turnPn_along (n axis : Int) (d : Bool) (p : Vec3) :
    (turnPn n axis d p).along (axisFamily axis) = p.along (axisFamily axis) := by
  by_cases h0 : axis = 0 <;> by_cases h1 : axis = 1 <;> cases d <;>
    simp [turnPn, axisFamily, Vec3.along, h0, h1]

theorem sliceTurn_inv (n axis : Int) (d : Bool) (k : Int) (p : Vec3) :
    sliceTurn n axis (!d) k (sliceTurn n axis d k p) = p := by
  unfold sliceTurn
  by_cases h : p.along (axisFamily axis) = k
  · rw [if_pos h, if_pos (by rw [turnPn_along]; exact h), turnPn_inv]
  · rw [if_neg h, if_neg h]

theorem sliceTurn_inv' (n axis : Int) (d : Bool) (k : Int) (p : Vec3) :
    sliceTurn n axis d k (sliceTurn n axis (!d) k p) = p := by
  have := sliceTurn_inv n axis (!d) k p
  rw [Bool.not_not] at this
  exact this

theorem occupied_turnPn (n mode axis : Int) (d : Bool) (p : Vec3) :
    OccupiedCell n mode (turnPn n axis d p) ↔ OccupiedCell n mode p := by
  cases p with
  | mk x y z =>
    have e : turnPn n axis d ⟨x, y, z⟩ =
        if d then
          if axis = 0 then ⟨x, n - 1 - z, y⟩
          else if axis = 1 then ⟨z, y, n - 1 - x⟩
          else ⟨n - 1 - y, x, z⟩
        else
          if axis = 0 then ⟨x, z, n - 1 - y⟩
          else if axis = 1 then ⟨n - 1 - z, y, x⟩
          else ⟨y, n - 1 - x, z⟩ := rfl
    rw [e]
    unfold OccupiedCell VoidCell ShellCell InRange onFace
    split_ifs <;> simp only [] <;> omega

theorem occupied_sliceTurn (n mode axis : Int) (d : Bool) (k : Int) (p : Vec3) :
    OccupiedCell n mode (sliceTurn n axis d k p) ↔ OccupiedCell n mode p := by
  unfold sliceTurn
  split
  · exact occupied_turnPn n mode axis d p
  · rfl

theorem rotate_pnOf {s : State α} (h : Inv s) (q : Angle α) (A : Int) (d : Bool) (k : Int)
    (i : Nat) :
    (rotate q A d ⟨axisFamily A, k⟩ s).pnOf i = (s.pnOf i).map (sliceTurn s.N A d k) := by
  unfold State.pnOf
  rw [rotate_Cubes_getElem?]
  cases hc : s.Cubes[i]? with
  | none => simp
  | some c =>
    have hiff : i ∈ s.planeCubeIds ⟨axisFamily A, k⟩ ↔ c.pn.along (axisFamily A) = k := by
      rw [mem_planeCubeIds, h.mem, hc]
      simp
    by_cases hk : c.pn.along (axisFamily A) = k
    · rw [if_pos (hiff.mpr hk)]
      simp only [Option.map_some', Cube.turned, sliceTurn, if_pos hk]
    · rw [if_neg (fun hm => hk (hiff.mp hm))]
      simp only [Option.map_some', sliceTurn, if_neg hk]

theorem CellsOK.after_rotate {n mode : Int} {s : State α} (h : CellsOK n mode s) (hinv : Inv s)
    (hN : s.N = n) (q : Angle α) (A : Int) (d : Bool) (k : Int) :
    CellsOK n mode (RubiksCube.rotate q A d ⟨axisFamily A, k⟩ s) := by
  have hpn := fun i => rotate_pnOf hinv q A d k i
  rw [hN] at hpn
  have hget : ∀ (i : Nat) (p : Vec3),
      (RubiksCube.rotate q A d ⟨axisFamily A, k⟩ s).pnOf i = some p ↔
        s.pnOf i = some (sliceTurn n A (!d) k p) := by
    intro i p
    rw [hpn]
    cases h0 : s.pnOf i with
    | none => simp
    | some p0 =>
      simp only [Option.map_some', Option.some.injEq]
      constructor
      · intro e; rw [← e, sliceTurn_inv]
      · intro e; rw [e, sliceTurn_inv']
  constructor
  · intro i j p hi hj
    exact h.1 i j _ ((hget i p).mp hi) ((hget j p).mp hj)
  · intro p
    rw [← occupied_sliceTurn n mode A (!d) k p, ← h.2]
    constructor
    · rintro ⟨i, hi⟩; exact ⟨i, (hget i p).mp hi⟩
    · rintro ⟨i, hi⟩; exact ⟨i, (hget i p).mpr hi⟩

theorem build_pnOf (n mode : Int) (i : Nat) :
    (build n mode : State α).pnOf i = (cells n mode)[i]? := by
  unfold State.pnOf
  rw [build_Cubes, ← map_gridCoord_newCubes (α := α), List.getElem?_map, List.getElem?_map]
  cases (newCubes n mode : List (Cube α))[i]? <;> rfl

omit [CommRing α] in
theorem cellsOK_of_pnOf (n mode : Int) (hn : 1 ≤ n) (s : State α)
    (h : ∀ i : Nat, s.pnOf i = (cells n mode)[i]?) : CellsOK n mode s := by
  constructor
  · intro i j p hi hj
    rw [h] at hi hj
    obtain ⟨hi1, hi2⟩ := List.getElem?_eq_some_iff.mp hi
    obtain ⟨hj1, hj2⟩ := List.getElem?_eq_some_iff.mp hj
    exact (List.Nodup.getElem_inj_iff (nodup_cells n mode hn)).mp (hi2.trans hj2.symm)
  · intro p
    rw [← mem_cells n mode hn, List.mem_iff_getElem?]
    constructor
    · rintro ⟨i, hi⟩; exact ⟨i, by rw [← h]; exact hi⟩
    · rintro ⟨i, hi⟩; exact ⟨i, by rw [h]; exact hi⟩

theorem Reachable.cellsOK {q : Angle α} {n mode : Int} (hn : 1 ≤ n) {s : State α}
    (h : Reachable q n mode s) : CellsOK n mode s := by
  induction h with
  | init => exact cellsOK_of_pnOf n mode hn _ (build_pnOf n mode)
  | @rotate s axis dir k hr _ _ _ ih =>
    obtain ⟨hinv, hN⟩ := hr.inv hn
    exact ih.after_rotate hinv hN q axis dir k
  | @reset s hr _ =>
    apply cellsOK_of_pnOf n mode hn
    intro i
    rw [← build_pnOf (α := α)]
    unfold State.pnOf
    rw [(resetCube_of_reachable hn hr).1]


end Lemmas

/-! ## Lemmas for the later claims -/

section Lemmas2

variable {α : Type} [CommRing α]

/-! ### Reset and the animation controller -/

theorem animateRotate_idle (t : Angle α) (s : State α) (h : s.rotating = false) :
    animateRotate t s = s := by
  unfold animateRotate
  simp [h]

theorem iterate_animateRotate_idle (t : Angle α) (s : State α) (h : s.rotating = false)
    (m : Nat) : Nat.iterate (animateRotate t) m s = s := by
  induction m with
  | zero => rfl
  | succ m ih => rw [Function.iterate_succ_apply', ih, animateRotate_idle t s h]

theorem animateRotate_count (t : Angle α) (s : State α) (sel : PlaneRef)
    (hr : s.rotating = true) (hs : s.selectedCubePlane = some sel) (hc : s.rotateCount < 9) :
    (animateRotate t s).rotating = true ∧ (animateRotate t s).rotateCount = s.rotateCount + 1 := by
  unfold animateRotate
  simp only [hr, hs, if_true, if_pos hc]
  exact ⟨(sameRest_turnCubes t s.rotateDir sel s).2.2.2.2.2.2.1.trans hr, trivial⟩

omit [CommRing α] in
theorem rotateCubeByKey_R (s : State α) :
    rotateCubeByKey 82 s = selectPlane ⟨Family.X, s.N - 1⟩ 0 true s := by
  simp [rotateCubeByKey, toChar]

/-! ### The cube of size one -/

theorem newCubes_one (mode : Int) :
    (newCubes 1 mode : List (Cube α)) = [Cube.new 1 ⟨0, 0, 0⟩ 1] := by
  simp [newCubes, Vec3.splat]

theorem Reachable.length_Cubes {q : Angle α} {n mode : Int} {s : State α}
    (h : Reachable q n mode s) : s.Cubes.length = (newCubes n mode : List (Cube α)).length := by
  have h1 := congrArg List.length h.static
  rw [List.length_map, build_Cubes, List.length_map] at h1
  exact h1

omit [CommRing α] in
theorem pn_zero_of_inRange_one (p : Vec3) (h : InRange 1 p) : p = ⟨0, 0, 0⟩ := by
  obtain ⟨hx, hy, hz⟩ := h
  apply vec3_ext <;> simp only <;> omega

omit [CommRing α] in
theorem sliceTurn_one (A : Int) (d : Bool) (k : Int) :
    sliceTurn 1 A d k ⟨0, 0, 0⟩ = ⟨0, 0, 0⟩ := by
  unfold sliceTurn turnPn
  split_ifs <;> rfl

theorem build_pnOf_two_zero :
    (build 2 0 : State ℤ).pnOf 0 = some ⟨0, 1, 0⟩ := by
  rw [build_pnOf]; decide

/-! ### The table of visual-variant indices -/

omit [CommRing α] in
theorem vaoIndex_comp (n v : Int) (h1 : 1 < n) (hv : 0 ≤ v ∧ v < n) :
    (if (if v < n - 1 ∧ v > 0 then 1 else v) = n - 1 then 2
      else (if v < n - 1 ∧ v > 0 then 1 else v)) = faceClass n v := by
  unfold faceClass
  split_ifs <;> omega

omit [CommRing α] in
theorem vaoIndex_eq (n : Int) (p : Vec3) (h : InRange n p) :
    vaoIndex n p =
      if 1 < n then 9 * faceClass n p.x + 3 * faceClass n p.y + faceClass n p.z else 0 := by
  obtain ⟨hx, hy, hz⟩ := h
  by_cases h1 : 1 < n
  · rw [if_pos h1, ← vaoIndex_comp n p.x h1 hx, ← vaoIndex_comp n p.y h1 hy,
      ← vaoIndex_comp n p.z h1 hz]
    exact if_pos h1
  · rw [if_neg h1]
    exact if_neg h1

omit [CommRing α] in
theorem faceClass_range (n v : Int) : 0 ≤ faceClass n v ∧ faceClass n v ≤ 2 := by
  unfold faceClass; split_ifs <;> omega

omit [CommRing α] in
theorem faceClass_eq_one (n v : Int) (h : faceClass n v = 1) : ¬ onFace n v := by
  unfold faceClass at h
  unfold onFace
  split_ifs at h <;> omega

theorem build_vao (n mode : Int) :
    (build n mode : State α).cubeIds2vao =
      (build n mode : State α).Cubes.map (fun c => vaoIndex n c.pn) := by
  rw [build_eq]

theorem Reachable.vao {q : Angle α} {n mode : Int} {s : State α} (h : Reachable q n mode s) :
    s.cubeIds2vao = (build n mode : State α).cubeIds2vao := by
  induction h with
  | init => rfl
  | rotate axis dir k _ _ _ _ ih => rw [(sameRest_rotate _ _ _ _ _).2.2.2.1, ih]
  | reset _ ih => rw [(sameRest_resetCube _).2.2.2.1, ih]

omit [CommRing α] in
theorem occupied_onFace (n mode : Int) (p : Vec3) (h : OccupiedCell n mode p) :
    onFace n p.x ∨ onFace n p.y ∨ onFace n p.z := by
  unfold OccupiedCell at h
  split_ifs at h
  · obtain ⟨_, h | h | h⟩ := h
    · exact Or.inl h.1
    · exact Or.inl h.1
    · exact Or.inr (Or.inl h.1)
  · exact h.2

theorem visualOK_of_reachable {q : Angle α} {n mode : Int} (hn : 1 ≤ n) {s : State α}
    (h : Reachable q n mode s) (hc : s.Cubes = (build n mode : State α).Cubes) :
    VisualOK n s := by
  obtain ⟨hinv, hN⟩ := h.inv hn
  have hv : s.cubeIds2vao = s.Cubes.map (fun c => vaoIndex n c.pn) := by
    rw [h.vao, build_vao, hc]
  refine ⟨by rw [hv, List.length_map], ?_⟩
  intro i c hi
  have hr : InRange n c.pn := by
    have := hinv.range i c hi
    rwa [hN] at this
  refine ⟨vaoIndex n c.pn, by rw [hv, List.getElem?_map, hi]; rfl, ?_⟩
  rw [vaoIndex_eq n c.pn hr]
  have hx := faceClass_range n c.pn.x
  have hy := faceClass_range n c.pn.y
  have hz := faceClass_range n c.pn.z
  refine ⟨fun h1 => by rw [if_pos h1], fun h1 => by rw [if_neg (by omega)], ?_, ?_, ?_⟩
  · split_ifs <;> omega
  · split_ifs <;> omega
  · intro h13
    split_ifs at h13 with h1
    · have hocc : OccupiedCell n mode c.pn :=
        ((h.cellsOK hn).2 c.pn).mp ⟨i, by unfold State.pnOf; rw [hi]; rfl⟩
      have e1 : faceClass n c.pn.x = 1 := by omega
      have e2 : faceClass n c.pn.y = 1 := by omega
      have e3 : faceClass n c.pn.z = 1 := by omega
      rcases occupied_onFace n mode c.pn hocc with hf | hf | hf
      · exact faceClass_eq_one n _ e1 hf
      · exact faceClass_eq_one n _ e2 hf
      · exact faceClass_eq_one n _ e3 hf
    · omega

/-! ### Key codes -/

omit [CommRing α] in
theorem toChar_of_byte (key : Int) (h : 0 ≤ key ∧ key < 256) : toChar key = key := by
  unfold toChar; omega

/-! ### The shape of the state after `initCube` -/

omit [CommRing α] in
theorem sameShape_refl (s : State α) : SameShape s s := ⟨rfl, fun _ => rfl, rfl, rfl⟩

omit [CommRing α] in
theorem sameShape_trans {s s' s'' : State α} (h : SameShape s s') (h' : SameShape s' s'') :
    SameShape s s'' :=
  ⟨h'.1.trans h.1, fun fam => (h'.2.1 fam).trans (h.2.1 fam), h'.2.2.1.trans h.2.2.1,
    h'.2.2.2.trans h.2.2.2⟩

omit [CommRing α] in
theorem sameShape_initCubeAssign (n : Int) (i : Nat) (s : State α) :
    SameShape s (initCubeAssign n i s) := by
  unfold initCubeAssign
  cases h : s.Cubes[i]? with
  | none => exact sameShape_refl s
  | some c =>
    refine ⟨by simp, ?_, rfl, rfl⟩
    intro fam
    cases fam <;> simp [State.planes, length_planeInsert]

omit [CommRing α] in
theorem sameShape_foldl_initCubeAssign (n : Int) (ids : List Nat) (s : State α) :
    SameShape s (ids.foldl (fun st i => initCubeAssign n i st) s) := by
  induction ids generalizing s with
  | nil => exact sameShape_refl s
  | cons i ids ih =>
    rw [List.foldl_cons]
    exact sameShape_trans (sameShape_initCubeAssign n i s) (ih _)

theorem initCube_shape (n : Int) (s : State α) :
    (initCube n s).Cubes.length = s.Cubes.length + (newCubes n s.mode : List (Cube α)).length ∧
    (∀ fam : Family, ((initCube n s).planes fam).length = (s.planes fam).length + n.toNat) ∧
    (initCube n s).N = s.N ∧ (initCube n s).mode = s.mode := by
  rw [initCube_eq]
  obtain ⟨h1, h2, h3, h4⟩ :=
    sameShape_foldl_initCubeAssign n (List.range (pushed n s).Cubes.length) (pushed n s)
  refine ⟨?_, ?_, h3, h4⟩
  · show (registered n s).Cubes.length = _
    unfold registered
    rw [h1]
    simp [pushed]
  · intro fam
    show ((registered n s).planes fam).length = _
    unfold registered
    rw [h2 fam]
    cases fam <;> simp [pushed, State.planes]

theorem length_newCubes_of_lt_one (n mode : Int) (hn : n < 1) :
    (newCubes n mode : List (Cube α)).length = 8 := by
  have h := (@typeCount_newCubes α _ n mode (by omega)).2.2.2
  have h0 : (n - 2).toNat = 0 := by omega
  rw [h, h0]
  split_ifs <;> rfl

omit [CommRing α] in
theorem ite_N (c : Prop) [Decidable c] (a b : State α) (h : a.N = b.N) :
    (if c then a else b).N = b.N := by
  split_ifs
  · exact h
  · rfl

omit [CommRing α] in
theorem rotateCubeByKey_cases (key : Int) (s : State α) :
    rotateCubeByKey key s = s ∨
      ∃ (a k : Int) (d : Bool), (a = 0 ∨ a = 1 ∨ a = 2) ∧
        rotateCubeByKey key s = selectPlane ⟨axisFamily a, k⟩ a d s := by
  unfold rotateCubeByKey
  simp only []
  by_cases k1 : toChar key = 82
  · rw [if_pos k1]; exact Or.inr ⟨0, s.N - 1, true, Or.inl rfl, rfl⟩
  rw [if_neg k1]
  by_cases k2 : toChar key = 76
  · rw [if_pos k2]; exact Or.inr ⟨0, 0, false, Or.inl rfl, rfl⟩
  rw [if_neg k2]
  by_cases k3 : toChar key = 85
  · rw [if_pos k3]; exact Or.inr ⟨1, s.N - 1, true, Or.inr (Or.inl rfl), rfl⟩
  rw [if_neg k3]
  by_cases k4 : toChar key = 68
  · rw [if_pos k4]; exact Or.inr ⟨1, 0, false, Or.inr (Or.inl rfl), rfl⟩
  rw [if_neg k4]
  by_cases k5 : toChar key = 70
  · rw [if_pos k5]; exact Or.inr ⟨2, s.N - 1, true, Or.inr (Or.inr rfl), rfl⟩
  rw [if_neg k5]
  by_cases k6 : toChar key = 66
  · rw [if_pos k6]; exact Or.inr ⟨2, 0, false, Or.inr (Or.inr rfl), rfl⟩
  rw [if_neg k6]
  by_cases k7 : toChar key = 77
  · rw [if_pos k7]
    by_cases hm : s.mode = 2
    · rw [if_pos hm]; exact Or.inl rfl
    · rw [if_neg hm]; exact Or.inr ⟨0, Int.tdiv s.N 2, true, Or.inl rfl, rfl⟩
  rw [if_neg k7]
  by_cases k8 : toChar key = 69
  · rw [if_pos k8]
    by_cases hm : s.mode = 2
    · rw [if_pos hm]; exact Or.inl rfl
    · rw [if_neg hm]; exact Or.inr ⟨1, Int.tdiv s.N 2, true, Or.inr (Or.inl rfl), rfl⟩
  rw [if_neg k8]
  by_cases k9 : toChar key = 83
  · rw [if_pos k9]
    by_cases hm : s.mode = 2
    · rw [if_pos hm]; exact Or.inl rfl
    · rw [if_neg hm]; exact Or.inr ⟨2, Int.tdiv s.N 2, false, Or.inr (Or.inr rfl), rfl⟩
  rw [if_neg k9]
  exact Or.inl rfl

omit [CommRing α] in
theorem rotateCubeByKey_N (key : Int) (s : State α) : (rotateCubeByKey key s).N = s.N := by
  rcases rotateCubeByKey_cases key s with h | ⟨a, k, d, _, h⟩
  · rw [h]
  · rw [h]; rfl

theorem shuffleCube_N (q : Angle α) (rand : Nat → Nat) (s : State α) :
    (shuffleCube q rand s).N = s.N := by
  unfold shuffleCube
  exact (sameRest_foldl
    (fun i st => shuffleStep q (rand (3 * i)) (rand (3 * i + 1)) (rand (3 * i + 2)) st)
    (fun i st => sameRest_rotate _ _ _ _ _) (List.range 10) s).1

theorem changeMode_N (s : State α) : (changeMode s).N = s.N := by
  unfold changeMode
  exact (initCube_shape _ _).2.2.1

theorem changeN_N (pressKey : Int) (s : State α) : (changeN pressKey s).N = pressKey - 48 := by
  unfold changeN
  exact (initCube_shape _ _).2.2.1

theorem keyPress_N (q : Angle α) (rand : Nat → Nat) (key : Int) (s : State α) :
    (let s := { s with pressKey := key }
     let s := if ¬ s.rotating then rotateCubeByKey s.pressKey s else s
     let s := if toChar s.pressKey = 32 then shuffleCube q rand s else s
     let s := if toChar s.pressKey = 81 then resetCube s else s
     let s := if toChar s.pressKey = 67 then changeColorMode s else s
     let s := if toChar s.pressKey = 80 then changeMode s else s
     s).N = s.N := by
  lift_lets
  intro s0 s1 s2 s3 s4 s5
  have h1 : s1.N = s0.N := ite_N _ _ _ (rotateCubeByKey_N _ _)
  have h2 : s2.N = s1.N := ite_N _ _ _ (shuffleCube_N _ _ _)
  have h3 : s3.N = s2.N := ite_N _ _ _ (resetCube_N _)
  have h4 : s4.N = s3.N := ite_N _ _ _ rfl
  have h5 : s5.N = s4.N := ite_N _ _ _ (changeMode_N _)
  exact h5.trans (h4.trans (h3.trans (h2.trans h1)))

theorem keyboardEvent_N (q : Angle α) (rand : Nat → Nat) (key action : Int) (mods : Nat)
    (s : State α) :
    (keyboardEvent q rand key action mods s).N = s.N ∨
      (1 ≤ (keyboardEvent q rand key action mods s).N ∧
        (keyboardEvent q rand key action mods s).N ≤ 9) := by
  have hs1 : (if action = 1 then
      (let s := { s with pressKey := key }
       let s := if ¬ s.rotating then rotateCubeByKey s.pressKey s else s
       let s := if toChar s.pressKey = 32 then shuffleCube q rand s else s
       let s := if toChar s.pressKey = 81 then resetCube s else s
       let s := if toChar s.pressKey = 67 then changeColorMode s else s
       let s := if toChar s.pressKey = 80 then changeMode s else s
       s)
      else if action = 0 then { s with pressKey := 0 } else s).N = s.N := by
    split_ifs
    · exact keyPress_N q rand key s
    · rfl
    · rfl
  unfold keyboardEvent
  generalize (if action = 1 then
      (let s := { s with pressKey := key }
       let s := if ¬ s.rotating then rotateCubeByKey s.pressKey s else s
       let s := if toChar s.pressKey = 32 then shuffleCube q rand s else s
       let s := if toChar s.pressKey = 81 then resetCube s else s
       let s := if toChar s.pressKey = 67 then changeColorMode s else s
       let s := if toChar s.pressKey = 80 then changeMode s else s
       s)
      else if action = 0 then { s with pressKey := 0 } else s) = s1 at hs1 ⊢
  simp only []
  split_ifs with hc
  · right
    rw [changeN_N]
    omega
  · left; exact hs1

/-! ### Axis values and call sites of `rotate` -/

omit [CommRing α] in
theorem updateCubePlaneStep_other_axis (axis : Int) (h0 : axis ≠ 0) (h1 : axis ≠ 1) (d : Bool)
    (i : Nat) (s : State α) : updateCubePlaneStep axis d i s = updateCubePlaneStep 2 d i s := by
  unfold updateCubePlaneStep
  cases s.Cubes[i]? with
  | none => rfl
  | some c =>
    have e0 : ¬ ((2 : Int) = 0) := by decide
    have e1 : ¬ ((2 : Int) = 1) := by decide
    simp only [if_neg h0, if_neg h1, if_neg e0, if_neg e1]

omit [CommRing α] in
theorem updateCubePlane_other_axis (axis : Int) (h0 : axis ≠ 0) (h1 : axis ≠ 1) (d : Bool)
    (sel : PlaneRef) (s : State α) : updateCubePlane axis d sel s = updateCubePlane 2 d sel s := by
  unfold updateCubePlane
  congr 1
  funext st i
  exact updateCubePlaneStep_other_axis axis h0 h1 d i st

theorem shuffleStep_request (q : Angle α) (r0 r1 r2 : Nat) (s : State α) (hN : 1 ≤ s.N) :
    ∃ (a k : Int) (d : Bool), (a = 0 ∨ a = 1 ∨ a = 2) ∧ 0 ≤ k ∧ k < s.N ∧
      shuffleStep q r0 r1 r2 s = rotate q a d ⟨axisFamily a, k⟩ s := by
  have hax : Int.tmod (r0 : Int) 3 = 0 ∨ Int.tmod (r0 : Int) 3 = 1 ∨ Int.tmod (r0 : Int) 3 = 2 := by
    rw [Int.tmod_eq_emod (by omega) (by omega)]
    omega
  have hk : 0 ≤ Int.tmod (r2 : Int) s.N ∧ Int.tmod (r2 : Int) s.N < s.N := by
    rw [Int.tmod_eq_emod (by omega) (by omega)]
    exact ⟨Int.emod_nonneg _ (by omega), Int.emod_lt_of_pos _ (by omega)⟩
  refine ⟨Int.tmod (r0 : Int) 3, Int.tmod (r2 : Int) s.N, decide (Int.tmod (r1 : Int) 2 ≠ 0), hax,
    hk.1, hk.2, ?_⟩
  unfold shuffleStep
  simp only []
  have hsel : (if Int.tmod (r0 : Int) 3 = 0 then (⟨Family.X, Int.tmod (r2 : Int) s.N⟩ : PlaneRef)
      else if Int.tmod (r0 : Int) 3 = 1 then ⟨Family.Y, Int.tmod (r2 : Int) s.N⟩
      else ⟨Family.Z, Int.tmod (r2 : Int) s.N⟩) =
      ⟨axisFamily (Int.tmod (r0 : Int) 3), Int.tmod (r2 : Int) s.N⟩ := by
    unfold axisFamily
    split_ifs <;> rfl
  rw [hsel]

theorem build_pnOf_two_two :
    (build 2 0 : State ℤ).pnOf 2 = some ⟨1, 1, 1⟩ := by
  rw [build_pnOf]; decide

/-! ### Key events during an animation -/

theorem keyboardEvent_quietKey (q : Angle α) (rand : Nat → Nat) (key action : Int) (mods : Nat)
    (s : State α) (hrot : s.rotating = true) (hq : quietKey s.pressKey key action mods) :
    ∃ oc : Int, keyboardEvent q rand key action mods s =
      { s with pressKey := pressKeyAfter s.pressKey key action, outColorMode := oc } := by
  obtain ⟨h1, h2⟩ := hq
  unfold keyboardEvent
  by_cases ha : action = 1
  · obtain ⟨h32, h81, h80⟩ := h1 ha
    have hp : pressKeyAfter s.pressKey key action = key := by
      unfold pressKeyAfter; rw [if_pos ha]
    rw [hp] at h2 ⊢
    by_cases h67 : toChar key = 67
    · refine ⟨(changeColorMode { s with pressKey := key }).outColorMode, ?_⟩
      simp [ha, hrot, h32, h81, h80, h67, h2, changeColorMode]
    · exact ⟨s.outColorMode, by simp [ha, hrot, h32, h81, h80, h67, h2]⟩
  · by_cases h0 : action = 0
    · have hp : pressKeyAfter s.pressKey key action = 0 := by
        unfold pressKeyAfter; rw [if_neg ha, if_pos h0]
      rw [hp]
      refine ⟨s.outColorMode, ?_⟩
      simp [ha, h0]
    · have hp : pressKeyAfter s.pressKey key action = s.pressKey := by
        unfold pressKeyAfter; rw [if_neg ha, if_neg h0]
      rw [hp] at h2 ⊢
      refine ⟨s.outColorMode, ?_⟩
      simp [ha, h0, h2]

theorem animateRotate_pressKey (t : Angle α) (s : State α) :
    (animateRotate t s).pressKey = s.pressKey := by
  unfold animateRotate
  by_cases hr : s.rotating = true
  · rw [if_pos hr]
    cases s.selectedCubePlane with
    | none => rfl
    | some sel =>
      simp only []
      by_cases hc : s.rotateCount < 9
      · rw [if_pos hc]
        exact (sameRest_turnCubes t s.rotateDir sel s).2.2.2.2.1
      · rw [if_neg hc]
        exact (sameRest_updateCubePlane s.axis s.rotateDir sel s).2.2.2.2.1
  · rw [if_neg hr]

theorem animating_quiet_run (q t : Angle α) (s : State α) (sel : PlaneRef) (axis : Int)
    (dir : Bool) (es : List Event) (m : Nat) (st : State α)
    (hq : quietFrom st.pressKey es)
    (h : Animating s sel axis dir (turnMat t dir sel s) m st) (hm : m + ticks es ≤ 9) :
    Animating s sel axis dir (turnMat t dir sel s) (m + ticks es) (mainLoop q t es st) := by
  induction es generalizing m st with
  | nil => exact h
  | cons e es ih =>
    unfold mainLoop
    rw [List.foldl_cons]
    cases e with
    | tick =>
      have hq' : quietFrom (animateRotate t st).pressKey es := by
        rw [animateRotate_pressKey]; exact hq
      have hm' : m + 1 + ticks es ≤ 9 := by
        have : ticks (Event.tick :: es) = ticks es + 1 := rfl
        omega
      have := ih (m + 1) (animateRotate t st) hq'
        (animating_tick t s sel axis dir m st h (by omega)) hm'
      have e2 : m + ticks (Event.tick :: es) = m + 1 + ticks es := by
        show m + (ticks es + 1) = _
        omega
      rw [e2]
      exact this
    | key k a md r =>
      obtain ⟨hk, hrest⟩ := hq
      obtain ⟨oc, e⟩ := keyboardEvent_quietKey q r k a md st h.rotating hk
      have hA : Animating s sel axis dir (turnMat t dir sel s) m
          (keyboardEvent q r k a md st) := by
        rw [e]
        exact ⟨h.rotating, h.count, h.selected, h.axis_eq, h.dir_eq, h.N_eq,
          fun fam => by rw [← h.planes fam]; cases fam <;> rfl, h.cubes⟩
      refine ih m _ ?_ hA hm
      show quietFrom (keyboardEvent q r k a md st).pressKey es
      rw [e]
      exact hrest

theorem resetCube_pressKey (s : State α) : (resetCube s).pressKey = s.pressKey :=
  (sameRest_resetCube s).2.2.2.2.1

omit [CommRing α] in
theorem initCubeAssign_pressKey (n : Int) (i : Nat) (s : State α) :
    (initCubeAssign n i s).pressKey = s.pressKey := by
  unfold initCubeAssign
  cases s.Cubes[i]? <;> rfl

omit [CommRing α] in
theorem foldl_initCubeAssign_pressKey (n : Int) (ids : List Nat) (s : State α) :
    (ids.foldl (fun st i => initCubeAssign n i st) s).pressKey = s.pressKey := by
  induction ids generalizing s with
  | nil => rfl
  | cons i ids ih => rw [List.foldl_cons, ih, initCubeAssign_pressKey]

theorem initCube_pressKey (n : Int) (s : State α) : (initCube n s).pressKey = s.pressKey := by
  rw [initCube_eq]
  show (registered n s).pressKey = _
  unfold registered
  rw [foldl_initCubeAssign_pressKey]
  rfl

theorem changeMode_pressKey (s : State α) : (changeMode s).pressKey = s.pressKey := by
  unfold changeMode
  rw [initCube_pressKey]
  rfl

theorem keyboardEvent_press_Q (q : Angle α) (rand : Nat → Nat) (key : Int) (mods : Nat)
    (s : State α) (hrot : s.rotating = true) (hk : toChar key = 81) :
    keyboardEvent q rand key 1 mods s = resetCube { s with pressKey := key } := by
  have hN : ¬ (key ≥ 49 ∧ key ≤ 57) := by
    unfold toChar at hk; omega
  unfold keyboardEvent
  simp [hrot, hk, hN, resetCube_pressKey]

theorem keyboardEvent_press_P (q : Angle α) (rand : Nat → Nat) (key : Int) (mods : Nat)
    (s : State α) (hrot : s.rotating = true) (hk : toChar key = 80) :
    keyboardEvent q rand key 1 mods s = changeMode { s with pressKey := key } := by
  have hN : ¬ (key ≥ 49 ∧ key ≤ 57) := by
    unfold toChar at hk; omega
  unfold keyboardEvent
  simp [hrot, hk, hN, changeMode_pressKey]

theorem keyboardEvent_press_digit (q : Angle α) (rand : Nat → Nat) (key : Int) (mods : Nat)
    (s : State α) (hrot : s.rotating = true) (hk : 49 ≤ key ∧ key ≤ 57)
    (hm : mods &&& 8 ≠ 0) :
    keyboardEvent q rand key 1 mods s = changeN key { s with pressKey := key } := by
  have hc : toChar key = key := toChar_of_byte key (by omega)
  have h32 : key ≠ 32 := by omega
  have h81 : key ≠ 81 := by omega
  have h67 : key ≠ 67 := by omega
  have h80 : key ≠ 80 := by omega
  unfold keyboardEvent
  simp [hrot, hc, h32, h81, h67, h80, hk.1, hk.2, hm]

/-! ### Shuffle and mode change during an animation -/

theorem shuffleCube_sameRest (q : Angle α) (rand : Nat → Nat) (s : State α) :
    SameRest s (shuffleCube q rand s) := by
  unfold shuffleCube
  exact sameRest_foldl
    (fun i st => shuffleStep q (rand (3 * i)) (rand (3 * i + 1)) (rand (3 * i + 2)) st)
    (fun i st => sameRest_rotate _ _ _ _ _) (List.range 10) s

theorem shuffleStep_zero (q : Angle α) (s : State α) :
    shuffleStep q 0 0 0 s = rotate q 0 false ⟨axisFamily 0, 0⟩ s := by
  unfold shuffleStep
  simp [axisFamily]

theorem foldl_shuffleStep_zero_pnOf (q : Angle α) (l : List Nat) (s : State α) (hinv : Inv s)
    (i : Nat) :
    (l.foldl (fun st _ => shuffleStep q 0 0 0 st) s).pnOf i =
      (s.pnOf i).map (Nat.iterate (sliceTurn s.N 0 false 0) l.length) := by
  induction l generalizing s with
  | nil =>
    rw [List.foldl_nil]
    cases s.pnOf i <;> rfl
  | cons a l ih =>
    rw [List.foldl_cons, shuffleStep_zero, ih _ (hinv.rotate q 0 false _), rotate_pnOf hinv,
      rotate_N]
    cases s.pnOf i <;> rfl

theorem keyboardEvent_space (q : Angle α) (rand : Nat → Nat) (s : State α)
    (hrot : s.rotating = true) :
    keyboardEvent q rand 32 1 0 s = shuffleCube q rand { s with pressKey := 32 } := by
  have hp : ∀ st : State α, (shuffleCube q rand st).pressKey = st.pressKey :=
    fun st => (shuffleCube_sameRest q rand st).2.2.2.2.1
  unfold keyboardEvent
  simp [hrot, toChar, hp]

theorem keyboardEvent_P (q : Angle α) (rand : Nat → Nat) (s : State α)
    (hrot : s.rotating = true) :
    keyboardEvent q rand 80 1 0 s = changeMode { s with pressKey := 80 } := by
  unfold keyboardEvent
  simp [hrot, toChar]

theorem length_newCubes_three (mode : Int) :
    (newCubes 3 mode : List (Cube α)).length = if mode = 2 then 20 else 26 := by
  rw [(@typeCount_newCubes α _ 3 mode (by decide)).2.2.2]
  have e : ((3 : Int) - 2).toNat = 1 := by decide
  rw [e]
  split_ifs <;> rfl

theorem changeMode_Cubes_length (s : State α) :
    (changeMode s).Cubes.length =
      (newCubes s.N (if s.mode + 1 > 2 then 0 else s.mode + 1) : List (Cube α)).length := by
  unfold changeMode
  rw [(initCube_shape _ _).1]
  simp [initData]

theorem changeMode_void_length (s : State α) (key : Int) (hN : s.N = 3) (hm : s.mode = 1) :
    (changeMode { s with pressKey := key }).Cubes.length = 20 := by
  rw [changeMode_Cubes_length]
  simp only []
  rw [hN, hm]
  have e : (if (1 : Int) + 1 > 2 then (0 : Int) else 1 + 1) = 2 := by decide
  rw [e, length_newCubes_three]
  rfl

/-! ### Cube types and cells -/

omit [CommRing α] in
theorem onFace_flip (n v : Int) : onFace n (n - 1 - v) ↔ onFace n v := by
  unfold onFace
  constructor <;> intro h <;> omega

omit [CommRing α] in
theorem turnPn_mk (n axis : Int) (d : Bool) (x y z : Int) :
    turnPn n axis d ⟨x, y, z⟩ =
      if d then
        if axis = 0 then ⟨x, n - 1 - z, y⟩
        else if axis = 1 then ⟨z, y, n - 1 - x⟩
        else ⟨n - 1 - y, x, z⟩
      else
        if axis = 0 then ⟨x, z, n - 1 - y⟩
        else if axis = 1 then ⟨n - 1 - z, y, x⟩
        else ⟨y, n - 1 - x, z⟩ := rfl

omit [CommRing α] in
theorem isCornerCell_turnPn (n axis : Int) (d : Bool) (p : Vec3) (h : IsCornerCell n p) :
    IsCornerCell n (turnPn n axis d p) := by
  cases p with
  | mk x y z =>
    obtain ⟨hx, hy, hz⟩ := h
    simp only [] at hx hy hz
    rw [turnPn_mk]
    unfold IsCornerCell
    split_ifs <;> simp only [onFace_flip] <;> exact ⟨by assumption, by assumption, by assumption⟩

omit [CommRing α] in
theorem isEdgeCell_turnPn (n axis : Int) (d : Bool) (p : Vec3) (h : IsEdgeCell n p) :
    IsEdgeCell n (turnPn n axis d p) := by
  refine ⟨turnPn_inRange n axis d p h.1, ?_⟩
  obtain ⟨_, h⟩ := h
  cases p with
  | mk x y z =>
    simp only [] at h
    rw [turnPn_mk]
    rcases h with ⟨hx, hy, hz⟩ | ⟨hx, hy, hz⟩ | ⟨hx, hy, hz⟩ <;> split_ifs <;>
      simp only [onFace_flip] <;>
      first
        | exact Or.inl ⟨by assumption, by assumption, by assumption⟩
        | exact Or.inr (Or.inl ⟨by assumption, by assumption, by assumption⟩)
        | exact Or.inr (Or.inr ⟨by assumption, by assumption, by assumption⟩)

omit [CommRing α] in
theorem isFaceCell_turnPn (n axis : Int) (d : Bool) (p : Vec3) (h : IsFaceCell n p) :
    IsFaceCell n (turnPn n axis d p) := by
  refine ⟨turnPn_inRange n axis d p h.1, ?_⟩
  obtain ⟨_, h⟩ := h
  cases p with
  | mk x y z =>
    simp only [] at h
    rw [turnPn_mk]
    rcases h with ⟨hx, hy, hz⟩ | ⟨hx, hy, hz⟩ | ⟨hx, hy, hz⟩ <;> split_ifs <;>
      simp only [onFace_flip] <;>
      first
        | exact Or.inl ⟨by assumption, by assumption, by assumption⟩
        | exact Or.inr (Or.inl ⟨by assumption, by assumption, by assumption⟩)
        | exact Or.inr (Or.inr ⟨by assumption, by assumption, by assumption⟩)

omit [CommRing α] in
theorem typeCell_turnPn (n t axis : Int) (d : Bool) (p : Vec3) (h : TypeCell n t p) :
    TypeCell n t (turnPn n axis d p) := by
  rcases h with ⟨ht, h⟩ | ⟨ht, h⟩ | ⟨ht, h⟩
  · exact Or.inl ⟨ht, isCornerCell_turnPn n axis d p h⟩
  · exact Or.inr (Or.inl ⟨ht, isEdgeCell_turnPn n axis d p h⟩)
  · exact Or.inr (Or.inr ⟨ht, isFaceCell_turnPn n axis d p h⟩)

theorem typeCell_newCubes (n mode : Int) (hn : 2 ≤ n) (c : Cube α) (hc : c ∈ newCubes n mode) :
    TypeCell n c.cubeType (gridCoord n c.position) := by
  obtain ⟨_, _, h | h | h | h⟩ := mem_newCubes n mode c hc
  · omega
  · obtain ⟨_, ht, i, hi, hp⟩ := h
    rw [hp, gridCoord_cornerPos n i hi]
    refine Or.inl ⟨ht, (mem_cornerCells n _).mp ?_⟩
    exact List.mem_map.mpr ⟨i, List.mem_range.mpr hi, rfl⟩
  · obtain ⟨_, ht, i, j, hi, hj, hp⟩ := h
    rw [hp, gridCoord_edgePos n i hi]
    refine Or.inr (Or.inl ⟨ht, (mem_edgeCells n hn _).mp ?_⟩)
    unfold edgeCells
    simp only [List.mem_flatMap, List.mem_map, List.mem_range]
    exact ⟨i, hi, j, Int.lt_toNat.mpr hj, rfl⟩
  · obtain ⟨_, _, ht, i, j, k, hi, hj, hk, hp⟩ := h
    rw [hp, gridCoord_facePos n i hi]
    refine Or.inr (Or.inr ⟨ht, (mem_faceCells n hn _).mp ?_⟩)
    unfold faceCells
    simp only [List.mem_flatMap, List.mem_map, List.mem_range]
    exact ⟨i, hi, j, Int.lt_toNat.mpr hj, k, Int.lt_toNat.mpr hk, rfl⟩

theorem typeCell_build (n mode : Int) (hn : 2 ≤ n) (i : Nat) (c : Cube α)
    (hc : (build n mode : State α).Cubes[i]? = some c) : TypeCell n c.cubeType c.pn := by
  rw [build_Cubes, List.getElem?_map] at hc
  cases h0 : (newCubes n mode : List (Cube α))[i]? with
  | none => rw [h0] at hc; cases hc
  | some c0 =>
    rw [h0] at hc
    simp only [Option.map_some', Option.some.injEq] at hc
    subst hc
    exact typeCell_newCubes n mode hn c0 (List.getElem?_mem h0)

theorem Reachable.typeCell {q : Angle α} {n mode : Int} (hn : 2 ≤ n) {s : State α}
    (h : Reachable q n mode s) :
    ∀ (i : Nat) (c : Cube α), s.Cubes[i]? = some c → TypeCell n c.cubeType c.pn := by
  induction h with
  | init => exact typeCell_build n mode hn
  | @rotate s axis dir k hr _ _ _ ih =>
    intro i c hc
    rw [rotate_Cubes_getElem?] at hc
    split_ifs at hc
    · cases h0 : s.Cubes[i]? with
      | none => rw [h0] at hc; cases hc
      | some c0 =>
        rw [h0] at hc
        simp only [Option.map_some', Option.some.injEq] at hc
        subst hc
        show TypeCell n c0.cubeType (turnPn s.N axis dir c0.pn)
        rw [hr.N_eq]
        exact typeCell_turnPn n _ _ _ _ (ih i c0 h0)
    · exact ih i c hc
  | @reset s hr _ =>
    intro i c hc
    rw [(resetCube_of_reachable (by omega) hr).1] at hc
    exact typeCell_build n mode hn i c hc

/-! ### Reference positions -/

theorem Reachable.position {q : Angle α} {n mode : Int} {s : State α}
    (h : Reachable q n mode s) (i : Nat) (c : Cube α) (hc : s.Cubes[i]? = some c) :
    ∃ c0 : Cube α, c0 ∈ (newCubes n mode : List (Cube α)) ∧ c0.position = c.position := by
  have h1 := congrArg (fun l => l[i]?) h.static
  simp only [build_Cubes, List.getElem?_map, hc, Option.map_some'] at h1
  cases h0 : (newCubes n mode : List (Cube α))[i]? with
  | none => rw [h0] at h1; cases h1
  | some c0 =>
    rw [h0] at h1
    simp only [Option.map_some', Option.some.injEq] at h1
    refine ⟨c0, List.getElem?_mem h0, ?_⟩
    have := congrArg Cube.position h1
    exact this.symm

omit [CommRing α] in
theorem symRange_of_double (n p g : Int) (hg : 0 ≤ g ∧ g < n) (h : p + (n - 1) = 2 * g) :
    SymRange n p ∧ (p + (n - 1)).tdiv 2 = g ∧ 2 * (p + (n - 1)).tdiv 2 = p + (n - 1) := by
  have e : (p + (n - 1)).tdiv 2 = g := tdiv_two_of_eq _ _ h
  refine ⟨⟨by omega, by omega, by omega⟩, e, by rw [e]; omega⟩

/-! ### `initCube` with checked accesses -/

omit [CommRing α] in
theorem accessOK_initCubeAssign (n : Int) (i j : Nat) (s : State α) :
    accessOK n j (initCubeAssign n i s) = accessOK n j s := by
  unfold initCubeAssign
  cases h : s.Cubes[i]? with
  | none => rfl
  | some c =>
    unfold accessOK
    simp only [length_planeInsert]
    by_cases hij : i = j
    · subst hij
      rw [List.getElem?_modify, h]
      simp
    · rw [List.getElem?_modify]
      cases s.Cubes[j]? with
      | none => rfl
      | some c' => simp [hij]

omit [CommRing α] in
theorem foldlM_checked_some (n : Int) (ids : List Nat) (s : State α)
    (h : ∀ i, i ∈ ids → accessOK n i s = true) :
    ids.foldlM (fun st i => initCubeAssignChecked n i st) s =
      some (ids.foldl (fun st i => initCubeAssign n i st) s) := by
  induction ids generalizing s with
  | nil => rfl
  | cons i ids ih =>
    rw [List.foldlM_cons, List.foldl_cons]
    unfold initCubeAssignChecked
    rw [if_pos (h i (List.mem_cons_self _ _))]
    show ids.foldlM (fun st i => initCubeAssignChecked n i st) (initCubeAssign n i s) = _
    apply ih
    intro j hj
    rw [accessOK_initCubeAssign]
    exact h j (List.mem_cons_of_mem _ hj)

omit [CommRing α] in
theorem foldlM_checked_none (n : Int) (ids : List Nat) (s : State α) (i : Nat) (hi : i ∈ ids)
    (h : accessOK n i s = false) :
    ids.foldlM (fun st i => initCubeAssignChecked n i st) s = none := by
  induction ids generalizing s with
  | nil => cases hi
  | cons j ids ih =>
    rw [List.foldlM_cons]
    unfold initCubeAssignChecked
    by_cases hj : accessOK n j s = true
    · rw [if_pos hj]
      show ids.foldlM (fun st i => initCubeAssignChecked n i st) (initCubeAssign n j s) = _
      rcases List.mem_cons.mp hi with e | hi'
      · subst e
        rw [h] at hj
        cases hj
      · apply ih _ hi'
        rw [accessOK_initCubeAssign]
        exact h
    · rw [if_neg hj]
      rfl

theorem pushed_Cubes (n : Int) (s : State α) :
    (pushed n s).Cubes = s.Cubes ++ newCubes n s.mode := rfl

theorem pushed_planes_length (n : Int) (s : State α) (fam : Family) :
    ((pushed n s).planes fam).length = (s.planes fam).length + n.toNat := by
  cases fam <;> simp [pushed, State.planes]

theorem newCubes_head_of_ne_one (n mode : Int) (hn : n ≠ 1) :
    (newCubes n mode : List (Cube α))[0]? = some (Cube.new 1 (cornerPos n 0) 1) := by
  unfold newCubes
  rw [if_neg hn]
  rfl

theorem initCubeChecked_of_lt_one (n : Int) (hn : n < 1) (s : State α) :
    initCubeChecked n s = none := by
  have hc : (pushed n s).Cubes[s.Cubes.length]? = some (Cube.new 1 (cornerPos n 0) 1) := by
    rw [pushed_Cubes, List.getElem?_append_right (le_refl _), Nat.sub_self,
      newCubes_head_of_ne_one n s.mode (by omega)]
  have hbad : accessOK n s.Cubes.length (pushed n s) = false := by
    unfold accessOK
    rw [hc]
    have hg : gridCoord n (Cube.new 1 (cornerPos n 0) (1 : Mat4 α)).position = cornerCell n 0 :=
      gridCoord_cornerPos n 0 (by decide)
    simp only [hg, cornerCell, decide_eq_false_iff_not]
    omega
  have hmem : s.Cubes.length ∈ List.range (pushed n s).Cubes.length := by
    rw [List.mem_range, pushed_Cubes, List.length_append,
      length_newCubes_of_lt_one n s.mode hn]
    omega
  unfold initCubeChecked
  rw [foldlM_checked_none n _ _ _ hmem hbad]
  rfl

theorem initCubeChecked_cleared (n : Int) (hn : 1 ≤ n) (s : State α) :
    initCubeChecked n (initData s) = some (initCube n (initData s)) := by
  have hok : ∀ i, i ∈ List.range (pushed n (initData s)).Cubes.length →
      accessOK n i (pushed n (initData s)) = true := by
    intro i _
    unfold accessOK
    cases hc : (pushed n (initData s)).Cubes[i]? with
    | none => rfl
    | some c =>
      have hmem : c ∈ (newCubes n s.mode : List (Cube α)) := by
        have : (pushed n (initData s)).Cubes = newCubes n s.mode := by
          rw [pushed_Cubes]; rfl
        rw [this] at hc
        exact List.getElem?_mem hc
      obtain ⟨hx, hy, hz⟩ := newCubes_pos n s.mode hn c hmem
      have lx : ((pushed n (initData s)).xCubePlanes.length : Int) = n := by
        have := pushed_planes_length n (initData s) Family.X
        simp only [State.planes] at this
        rw [this]
        simp [initData]
        omega
      have ly : ((pushed n (initData s)).yCubePlanes.length : Int) = n := by
        have := pushed_planes_length n (initData s) Family.Y
        simp only [State.planes] at this
        rw [this]
        simp [initData]
        omega
      have lz : ((pushed n (initData s)).zCubePlanes.length : Int) = n := by
        have := pushed_planes_length n (initData s) Family.Z
        simp only [State.planes] at this
        rw [this]
        simp [initData]
        omega
      simp only [lx, ly, lz, decide_eq_true_eq]
      exact ⟨hx, hy, hz⟩
  unfold initCubeChecked
  rw [foldlM_checked_some n _ _ hok, initCube_eq]
  rfl

end Lemmas2

/-! ## The claims -/

section Claims

variable {α : Type} [CommRing α]

/-- C1: in a state reached from `initCube(n)` (`n ≥ 1`), `rotate` about axis `A` on the plane
`k` of the family of `A` gives every cube `i` of that plane a new grid coordinate by the rule
of the specification, with `(B, C) = (Y, Z), (Z, X), (X, Y)` for `A = X, Y, Z`: in the positive
direction `new_B = (n-1) - old_C` and `new_C = old_B`, in the negative direction
`new_B = old_C` and `new_C = (n-1) - old_B`; the component on `A` is `k` before and after. -/
theorem C1_rotate_grid_rule (q : Angle α) (n mode : Int) (hn : 1 ≤ n) (s : State α)
    (hs : Reachable q n mode s) (A : Int) (hA : A = 0 ∨ A = 1 ∨ A = 2) (k : Int) (d : Bool)
    (i : Nat) (p : Vec3) (hp : s.pnOf i = some p)
    (hi : i ∈ planeIds (s.planes (axisFamily A)) k) :
    ∃ p', (rotate q A d ⟨axisFamily A, k⟩ s).pnOf i = some p' ∧
      p.comp A = k ∧ p'.comp A = k ∧
      (d = true → p'.comp (axisB A) = (n - 1) - p.comp (axisC A) ∧
        p'.comp (axisC A) = p.comp (axisB A)) ∧
      (d = false → p'.comp (axisB A) = p.comp (axisC A) ∧
        p'.comp (axisC A) = (n - 1) - p.comp (axisB A)) := by
  obtain ⟨hinv, hN⟩ := hs.inv hn
  unfold State.pnOf at hp ⊢
  cases hc : s.Cubes[i]? with
  | none => rw [hc] at hp; cases hp
  | some c =>
    rw [hc] at hp
    simp only [Option.map_some', Option.some.injEq] at hp
    subst hp
    obtain ⟨c1, hc1, hk⟩ := (hinv.mem _ k i).mp hi
    rw [hc] at hc1
    cases hc1
    rw [rotate_Cubes_getElem?, if_pos ((mem_planeCubeIds s _ k i).mpr hi), hc]
    refine ⟨turnPn s.N A d c.pn, rfl, ?_⟩
    rw [hN]
    rcases hA with rfl | rfl | rfl <;> cases d <;>
      simp [turnPn, Vec3.comp, axisB, axisC, axisFamily, Vec3.along] at hk ⊢ <;> exact hk

/-- C1 at the corner cube `0` of the 2x2x2 cube, turned about `X` on layer `0`. -/
theorem C1_rotate_grid_rule_witness :
    ∃ p', (rotate (Angle.quarter : Angle ℤ) 0 true ⟨axisFamily 0, 0⟩ (build 2 0)).pnOf 0
        = some p' ∧
      (⟨0, 1, 0⟩ : Vec3).comp 0 = 0 ∧ p'.comp 0 = 0 ∧
      (true = true → p'.comp (axisB 0) = (2 - 1) - (⟨0, 1, 0⟩ : Vec3).comp (axisC 0) ∧
        p'.comp (axisC 0) = (⟨0, 1, 0⟩ : Vec3).comp (axisB 0)) ∧
      (true = false → p'.comp (axisB 0) = (⟨0, 1, 0⟩ : Vec3).comp (axisC 0) ∧
        p'.comp (axisC 0) = (2 - 1) - (⟨0, 1, 0⟩ : Vec3).comp (axisB 0)) :=
  C1_rotate_grid_rule Angle.quarter 2 0 (by decide) (build 2 0) Reachable.init 0
    (Or.inl rfl) 0 true 0 ⟨0, 1, 0⟩ (by decide) (by decide)

/-- C2: in every state reached from `initCube(n)` (`n ≥ 1`, any mode) by `rotate` and
`resetCube` calls, every grid coordinate is in `[0, n-1]`, each family has `n` planes, the
plane `k` of a family holds exactly the cubes whose grid coordinate is `k` on the axis of the
family, and so every cube index lies in exactly one plane of each family and the planes hold
nothing but cube indices. -/
theorem C2_slices_partition (q : Angle α) (n mode : Int) (hn : 1 ≤ n) (s : State α)
    (hs : Reachable q n mode s) :
    (∀ (i : Nat) (p : Vec3), s.pnOf i = some p → InRange n p) ∧
    (∀ fam : Family, (s.planes fam).length = n.toNat) ∧
    (∀ (fam : Family) (k : Int) (i : Nat),
      i ∈ planeIds (s.planes fam) k ↔ ∃ p, s.pnOf i = some p ∧ p.along fam = k) ∧
    (∀ (fam : Family) (i : Nat), i < s.Cubes.length →
      ∃! k : Int, 0 ≤ k ∧ k < n ∧ i ∈ planeIds (s.planes fam) k) ∧
    (∀ (fam : Family) (k : Int) (i : Nat),
      i ∈ planeIds (s.planes fam) k → i < s.Cubes.length ∧ 0 ≤ k ∧ k < n) := by
  obtain ⟨hinv, hN⟩ := hs.inv hn
  have hpn : ∀ (i : Nat) (p : Vec3), s.pnOf i = some p ↔ ∃ c, s.Cubes[i]? = some c ∧ c.pn = p := by
    intro i p
    unfold State.pnOf
    cases s.Cubes[i]? <;> simp
  have hrange : ∀ (i : Nat) (p : Vec3), s.pnOf i = some p → InRange n p := by
    intro i p hp
    obtain ⟨c, hc, rfl⟩ := (hpn i p).mp hp
    rw [← hN]; exact hinv.range i c hc
  have hmem : ∀ (fam : Family) (k : Int) (i : Nat),
      i ∈ planeIds (s.planes fam) k ↔ ∃ p, s.pnOf i = some p ∧ p.along fam = k := by
    intro fam k i
    rw [hinv.mem]
    constructor
    · rintro ⟨c, hc, hk⟩; exact ⟨c.pn, (hpn i _).mpr ⟨c, hc, rfl⟩, hk⟩
    · rintro ⟨p, hp, hk⟩
      obtain ⟨c, hc, rfl⟩ := (hpn i p).mp hp
      exact ⟨c, hc, hk⟩
  have hal : ∀ (fam : Family) (p : Vec3), InRange n p → 0 ≤ p.along fam ∧ p.along fam < n := by
    intro fam p hp
    unfold InRange at hp
    cases fam <;> simp only [Vec3.along] <;> omega
  refine ⟨hrange, ?_, hmem, ?_, ?_⟩
  · intro fam
    have := hinv.len fam
    omega
  · intro fam i hi
    obtain ⟨c, hc⟩ : ∃ c, s.Cubes[i]? = some c := ⟨s.Cubes[i], List.getElem?_eq_getElem hi⟩
    have hp : s.pnOf i = some c.pn := (hpn i _).mpr ⟨c, hc, rfl⟩
    have hr := hal fam _ (hrange i _ hp)
    refine ⟨c.pn.along fam, ⟨hr.1, hr.2, (hmem fam _ i).mpr ⟨c.pn, hp, rfl⟩⟩, ?_⟩
    rintro k ⟨_, _, hk⟩
    obtain ⟨p, hp', rfl⟩ := (hmem fam k i).mp hk
    rw [hp] at hp'
    cases hp'
    rfl
  · intro fam k i hk
    obtain ⟨p, hp, rfl⟩ := (hmem fam k i).mp hk
    obtain ⟨c, hc, _⟩ := (hpn i p).mp hp
    have hr := hal fam _ (hrange i _ hp)
    exact ⟨(List.getElem?_eq_some_iff.mp hc).1, hr.1, hr.2⟩

/-- C2 at the state that `initCube(2)` builds: each family has two planes and every grid
coordinate is in range. -/
theorem C2_slices_partition_witness :
    (1 : Int) ≤ 2 ∧ Reachable (Angle.quarter : Angle ℤ) 2 0 (build 2 0) ∧
    (∀ (i : Nat) (p : Vec3), (build 2 0 : State ℤ).pnOf i = some p → InRange 2 p) ∧
    (∀ fam : Family, ((build 2 0 : State ℤ).planes fam).length = (2 : Int).toNat) :=
  ⟨by decide, Reachable.init,
    (C2_slices_partition Angle.quarter 2 0 (by decide) (build 2 0) Reachable.init).1,
    (C2_slices_partition Angle.quarter 2 0 (by decide) (build 2 0) Reachable.init).2.1⟩

/-- C3: in a state reached from `initCube(n)` (`n ≥ 1`), `rotate` on `(A, k, d)` followed by
`rotate` on `(A, k, opposite of d)` restores every grid coordinate and every plane, whatever
the angle handed to `glm::rotate`; when that angle is the exact quarter turn (cosine `0`,
sine `1`) it restores every orientation too, and so the whole state. -/
theorem C3_rotate_then_opposite (q : Angle α) (n mode : Int) (hn : 1 ≤ n) (s : State α)
    (hs : Reachable q n mode s) (A : Int) (k : Int) (hk : 0 ≤ k ∧ k ≤ n - 1) (d : Bool) :
    (∀ i : Nat, (rotate q A (!d) ⟨axisFamily A, k⟩ (rotate q A d ⟨axisFamily A, k⟩ s)).pnOf i
      = s.pnOf i) ∧
    (∀ fam : Family,
      (rotate q A (!d) ⟨axisFamily A, k⟩ (rotate q A d ⟨axisFamily A, k⟩ s)).planes fam
        = s.planes fam) ∧
    (q.cos = 0 → q.sin = 1 →
      rotate q A (!d) ⟨axisFamily A, k⟩ (rotate q A d ⟨axisFamily A, k⟩ s) = s) := by
  obtain ⟨hinv, hN⟩ := hs.inv hn
  have hk' : 0 ≤ k ∧ k < s.N := by omega
  obtain ⟨i1, n1, p1, c1, r1⟩ := rotate_same hinv q A d k hk'
  obtain ⟨i2, n2, p2, c2, r2⟩ := rotate_same i1 q A (!d) k (by rw [n1]; exact hk')
  have hcubes : ∀ j : Nat,
      (rotate q A (!d) ⟨axisFamily A, k⟩ (rotate q A d ⟨axisFamily A, k⟩ s)).Cubes[j]? =
        if j ∈ s.planeCubeIds ⟨axisFamily A, k⟩ then
          (s.Cubes[j]?).map (fun c =>
            Cube.turned (Family.turnMat q (axisFamily A) (!d)) s.N A (!d)
              (Cube.turned (Family.turnMat q (axisFamily A) d) s.N A d c))
        else s.Cubes[j]? := by
    intro j
    rw [c2, p1, c1, n1]
    split
    · rw [Option.map_map]; rfl
    · rfl
  have hpn : ∀ i : Nat,
      (rotate q A (!d) ⟨axisFamily A, k⟩ (rotate q A d ⟨axisFamily A, k⟩ s)).pnOf i
        = s.pnOf i := by
    intro j
    unfold State.pnOf
    rw [hcubes]
    split
    · rw [Option.map_map]
      cases s.Cubes[j]? with
      | none => rfl
      | some c => simp only [Option.map_some', Function.comp, Cube.turned, turnPn_inv]
    · rfl
  refine ⟨hpn, planes_eq_of_inv hinv i2 (n2.trans n1) hpn, ?_⟩
  intro hc hs'
  apply state_ext _ _ (r1.trans r2)
  · apply List.ext_getElem?
    intro j
    rw [hcubes]
    split
    · cases s.Cubes[j]? with
      | none => rfl
      | some c => simp only [Option.map_some', Cube.turned_inv q hc hs']
    · rfl
  · exact planes_eq_of_inv hinv i2 (n2.trans n1) hpn


/-- C3 at the 2x2x2 cube: a positive and then a negative turn of the plane `x = 0`. -/
theorem C3_rotate_then_opposite_witness :
    (1 : Int) ≤ 2 ∧ Reachable (Angle.quarter : Angle ℤ) 2 0 (build 2 0) ∧
    ((0 : Int) ≤ 0 ∧ (0 : Int) ≤ 2 - 1) ∧
    rotate (Angle.quarter : Angle ℤ) 0 (!true) ⟨axisFamily 0, 0⟩
      (rotate Angle.quarter 0 true ⟨axisFamily 0, 0⟩ (build 2 0)) = build 2 0 :=
  ⟨by decide, Reachable.init, by decide,
    (C3_rotate_then_opposite Angle.quarter 2 0 (by decide) (build 2 0) Reachable.init 0 0
      (by decide) true).2.2 rfl rfl⟩

/-- C4: in a state reached from `initCube(n)` (`n ≥ 1`), four `rotate` calls on the same
`(A, k, d)` restore every grid coordinate and every plane, whatever the angle handed to
`glm::rotate`; when that angle is the exact quarter turn (cosine `0`, sine `1`) the
orientation of every cube of the plane is multiplied from the left by the identity, and the
whole state is restored. -/
theorem C4_rotate_four_times (q : Angle α) (n mode : Int) (hn : 1 ≤ n) (s : State α)
    (hs : Reachable q n mode s) (A : Int) (k : Int) (hk : 0 ≤ k ∧ k ≤ n - 1) (d : Bool) :
    (∀ i : Nat, (rotate q A d ⟨axisFamily A, k⟩ (rotate q A d ⟨axisFamily A, k⟩
      (rotate q A d ⟨axisFamily A, k⟩ (rotate q A d ⟨axisFamily A, k⟩ s)))).pnOf i
      = s.pnOf i) ∧
    (∀ fam : Family, (rotate q A d ⟨axisFamily A, k⟩ (rotate q A d ⟨axisFamily A, k⟩
      (rotate q A d ⟨axisFamily A, k⟩ (rotate q A d ⟨axisFamily A, k⟩ s)))).planes fam
        = s.planes fam) ∧
    (q.cos = 0 → q.sin = 1 →
      rotate q A d ⟨axisFamily A, k⟩ (rotate q A d ⟨axisFamily A, k⟩
        (rotate q A d ⟨axisFamily A, k⟩ (rotate q A d ⟨axisFamily A, k⟩ s))) = s) := by
  obtain ⟨hinv, hN⟩ := hs.inv hn
  have hk' : 0 ≤ k ∧ k < s.N := by omega
  obtain ⟨i1, n1, p1, c1, r1⟩ := rotate_same hinv q A d k hk'
  obtain ⟨i2, n2, p2, c2, r2⟩ := rotate_same i1 q A d k (by rw [n1]; exact hk')
  obtain ⟨i3, n3, p3, c3, r3⟩ := rotate_same i2 q A d k (by rw [n2, n1]; exact hk')
  obtain ⟨i4, n4, p4, c4, r4⟩ := rotate_same i3 q A d k (by rw [n3, n2, n1]; exact hk')
  have hcubes : ∀ j : Nat,
      (rotate q A d ⟨axisFamily A, k⟩ (rotate q A d ⟨axisFamily A, k⟩
        (rotate q A d ⟨axisFamily A, k⟩ (rotate q A d ⟨axisFamily A, k⟩ s)))).Cubes[j]? =
        if j ∈ s.planeCubeIds ⟨axisFamily A, k⟩ then
          (s.Cubes[j]?).map (fun c =>
            Cube.turned (Family.turnMat q (axisFamily A) d) s.N A d
              (Cube.turned (Family.turnMat q (axisFamily A) d) s.N A d
                (Cube.turned (Family.turnMat q (axisFamily A) d) s.N A d
                  (Cube.turned (Family.turnMat q (axisFamily A) d) s.N A d c))))
        else s.Cubes[j]? := by
    intro j
    rw [c4, p3, p2, p1, c3, p2, p1, c2, p1, c1, n3, n2, n1]
    split
    · rw [Option.map_map, Option.map_map, Option.map_map]; rfl
    · rfl
  have hpn : ∀ i : Nat, (rotate q A d ⟨axisFamily A, k⟩ (rotate q A d ⟨axisFamily A, k⟩
      (rotate q A d ⟨axisFamily A, k⟩ (rotate q A d ⟨axisFamily A, k⟩ s)))).pnOf i
        = s.pnOf i := by
    intro j
    unfold State.pnOf
    rw [hcubes]
    split
    · rw [Option.map_map]
      cases s.Cubes[j]? with
      | none => rfl
      | some c => simp only [Option.map_some', Function.comp, Cube.turned, turnPn_four]
    · rfl
  have hN4 := ((n4.trans n3).trans n2).trans n1
  refine ⟨hpn, planes_eq_of_inv hinv i4 hN4 hpn, ?_⟩
  intro hc hs'
  apply state_ext _ _ (((r1.trans r2).trans r3).trans r4)
  · apply List.ext_getElem?
    intro j
    rw [hcubes]
    split
    · cases s.Cubes[j]? with
      | none => rfl
      | some c => simp only [Option.map_some', Cube.turned_four q hc hs']
    · rfl
  · exact planes_eq_of_inv hinv i4 hN4 hpn

/-- C4 at the 2x2x2 cube: four positive turns of the plane `x = 0`. -/
theorem C4_rotate_four_times_witness :
    (1 : Int) ≤ 2 ∧ Reachable (Angle.quarter : Angle ℤ) 2 0 (build 2 0) ∧
    ((0 : Int) ≤ 0 ∧ (0 : Int) ≤ 2 - 1) ∧
    rotate (Angle.quarter : Angle ℤ) 0 true ⟨axisFamily 0, 0⟩
      (rotate Angle.quarter 0 true ⟨axisFamily 0, 0⟩
        (rotate Angle.quarter 0 true ⟨axisFamily 0, 0⟩
          (rotate Angle.quarter 0 true ⟨axisFamily 0, 0⟩ (build 2 0)))) = build 2 0 :=
  ⟨by decide, Reachable.init, by decide,
    (C4_rotate_four_times Angle.quarter 2 0 (by decide) (build 2 0) Reachable.init 0 0
      (by decide) true).2.2 rfl rfl⟩


/-- C5: in every state reached from `initCube(n)` (`n ≥ 1`) by `rotate` and `resetCube`
calls, no two cubes have the same grid coordinate, no cube is in a strictly interior cell, and
the occupied cells are those occupied right after the build: every shell cell (a cell of the
grid with some component `0` or `n-1`) unless the mode is `2` (void), and in void mode exactly
the shell cells with at least two components `0` or `n-1`; so for `n = 3` in void mode no cube
is at `(1,1,1)`. -/
theorem C5_occupied_cells (q : Angle α) (n mode : Int) (hn : 1 ≤ n) (s : State α)
    (hs : Reachable q n mode s) :
    (∀ (i j : Nat) (p : Vec3), s.pnOf i = some p → s.pnOf j = some p → i = j) ∧
    (∀ (i : Nat) (p : Vec3), s.pnOf i = some p → ¬ InteriorCell n p) ∧
    (∀ p : Vec3, (∃ i : Nat, s.pnOf i = some p) ↔
      ∃ i : Nat, (build n mode : State α).pnOf i = some p) ∧
    (mode ≠ 2 → ∀ p : Vec3, (∃ i : Nat, s.pnOf i = some p) ↔ ShellCell n p) ∧
    (mode = 2 → ∀ p : Vec3, (∃ i : Nat, s.pnOf i = some p) ↔ VoidCell n p) ∧
    (n = 3 → mode = 2 → ∀ i : Nat, s.pnOf i ≠ some ⟨1, 1, 1⟩) := by
  have h := hs.cellsOK hn
  have hb := Reachable.cellsOK hn (Reachable.init : Reachable q n mode (build n mode))
  have hshell : mode ≠ 2 → ∀ p : Vec3, (∃ i : Nat, s.pnOf i = some p) ↔ ShellCell n p := by
    intro hm p
    rw [h.2, OccupiedCell, if_neg hm]
  have hvoid : mode = 2 → ∀ p : Vec3, (∃ i : Nat, s.pnOf i = some p) ↔ VoidCell n p := by
    intro hm p
    rw [h.2, OccupiedCell, if_pos hm]
  refine ⟨h.1, ?_, ?_, hshell, hvoid, ?_⟩
  · intro i p hp hint
    have hocc := (h.2 p).mp ⟨i, hp⟩
    unfold OccupiedCell VoidCell ShellCell onFace at hocc
    unfold InteriorCell at hint
    split at hocc <;> omega
  · intro p
    rw [h.2, hb.2]
  · intro h3 hm i hi
    have hv := (hvoid hm _).mp ⟨i, hi⟩
    subst h3
    unfold VoidCell onFace at hv
    simp only [] at hv
    omega

/-- C5 at the void 3x3x3 cube after a turn of the middle plane `x = 1`: no cube is at
`(1,1,1)`. -/
theorem C5_occupied_cells_witness :
    (1 : Int) ≤ 3 ∧
    Reachable (Angle.quarter : Angle ℤ) 3 2
      (rotate Angle.quarter 0 true ⟨axisFamily 0, 1⟩ (build 3 2)) ∧
    ∀ i : Nat, (rotate (Angle.quarter : Angle ℤ) 0 true ⟨axisFamily 0, 1⟩ (build 3 2)).pnOf i
      ≠ some ⟨1, 1, 1⟩ :=
  ⟨by decide, Reachable.rotate 0 true 1 Reachable.init (Or.inl rfl) (by decide) (by decide),
    (C5_occupied_cells Angle.quarter 3 2 (by decide) _
      (Reachable.rotate 0 true 1 Reachable.init (Or.inl rfl) (by decide) (by decide))).2.2.2.2.2
      rfl rfl⟩

/-- C6: in a state reached from `initCube(n)` (`n ≥ 1`), `rotate` replaces the orientation
`M` of every cube of the selected plane by `R * M`, where `R = glm::rotate(angle, nv * dir)`
is the turn about the normal of the plane signed by the direction; and when the angle is the
exact quarter turn (cosine `0`, sine `1`), the grid coordinate of every cube is
`(M * position + (n-1)) / 2` componentwise, `M` being its orientation and `position` its
reference position (the sum is even on every component, so nothing is truncated). -/
theorem C6_orientation_matches_grid (q : Angle ℤ) (n mode : Int) (hn : 1 ≤ n) (s : State ℤ)
    (hs : Reachable q n mode s) :
    (∀ (A k : Int) (d : Bool) (i : Nat) (M : Mat4 ℤ), 0 ≤ k → k ≤ n - 1 →
      i ∈ planeIds (s.planes (axisFamily A)) k → s.rotOf i = some M →
      (rotate q A d ⟨axisFamily A, k⟩ s).rotOf i =
        some (glmRotate q ((axisFamily A).nv * (if d then Vec3.splat 1 else Vec3.splat (-1)))
          * M)) ∧
    (q.cos = 0 → q.sin = 1 → ∀ (i : Nat) (c : Cube ℤ), s.Cubes[i]? = some c →
      applyMat c.rotMat c.position + Vec3.splat (n - 1) = ⟨2 * c.pn.x, 2 * c.pn.y, 2 * c.pn.z⟩ ∧
      c.pn = gridCoord n (applyMat c.rotMat c.position)) := by
  obtain ⟨hinv, hN⟩ := hs.inv hn
  constructor
  · intro A k d i M hk0 hk1 hi hM
    unfold State.rotOf at hM ⊢
    rw [rotate_Cubes_getElem?, if_pos ((mem_planeCubeIds s _ k i).mpr hi),
      hinv.turnMat q d _ k (by omega)]
    cases h0 : s.Cubes[i]? with
    | none => simp [h0] at hM
    | some c =>
      simp only [h0, Option.map_some', Option.some.injEq] at hM
      subst hM
      rfl
  · intro hc hs' i c hi
    have h := hs.oriented hc hs' hn i c hi
    exact ⟨h, (gridCoord_of_double n _ _ h).symm⟩

/-- C6 at the 2x2x2 cube right after the build, with the exact quarter turn. -/
theorem C6_orientation_matches_grid_witness :
    (1 : Int) ≤ 2 ∧ Reachable (Angle.quarter : Angle ℤ) 2 0 (build 2 0) ∧
    (∀ (i : Nat) (c : Cube ℤ), (build 2 0 : State ℤ).Cubes[i]? = some c →
      applyMat c.rotMat c.position + Vec3.splat (2 - 1) = ⟨2 * c.pn.x, 2 * c.pn.y, 2 * c.pn.z⟩ ∧
      c.pn = gridCoord 2 (applyMat c.rotMat c.position)) :=
  ⟨by decide, Reachable.init,
    (C6_orientation_matches_grid Angle.quarter 2 0 (by decide) (build 2 0) Reachable.init).2
      rfl rfl⟩

/-- C7: from every state reached from `initCube(n)` (`n ≥ 1`, any mode), also after a
`shuffleCube` whatever `rand()` returns, `resetCube` leads to the cubes and the planes that
the build produced: every grid coordinate is `(position + (n-1)) / 2` componentwise, every
orientation is the identity, and a cube is in the plane `k` of a family exactly when its grid
coordinate is `k` on the axis of the family. -/
theorem C7_reset_restores_build (q : Angle α) (n mode : Int) (hn : 1 ≤ n) (s : State α)
    (hs : Reachable q n mode s) (rand : Nat → Nat) :
    ((resetCube s).Cubes = (build n mode : State α).Cubes ∧
      ∀ fam : Family, (resetCube s).planes fam = (build n mode : State α).planes fam) ∧
    ((resetCube (shuffleCube q rand s)).Cubes = (build n mode : State α).Cubes ∧
      ∀ fam : Family,
        (resetCube (shuffleCube q rand s)).planes fam = (build n mode : State α).planes fam) ∧
    (∀ (i : Nat) (c : Cube α), (build n mode : State α).Cubes[i]? = some c →
      c.pn = gridCoord n c.position ∧ c.rotMat = 1 ∧
      ∀ (fam : Family) (k : Int),
        i ∈ planeIds ((build n mode : State α).planes fam) k ↔ c.pn.along fam = k) := by
  refine ⟨resetCube_of_reachable hn hs,
    resetCube_of_reachable hn (shuffleCube_reachable hn hs rand), ?_⟩
  intro i c hi
  have hinv := inv_build (α := α) n mode hn
  have hi' := hi
  rw [build_Cubes, List.getElem?_map] at hi'
  cases h0 : (newCubes n mode : List (Cube α))[i]? with
  | none => simp [h0] at hi'
  | some c0 =>
    simp only [h0, Option.map_some', Option.some.injEq] at hi'
    subst hi'
    refine ⟨rfl, rfl, ?_⟩
    intro fam k
    rw [hinv.mem, hi]
    simp

/-- C7 at the 2x2x2 cube, shuffled with `rand()` returning `1` every time. -/
theorem C7_reset_restores_build_witness :
    (1 : Int) ≤ 2 ∧ Reachable (Angle.quarter : Angle ℤ) 2 0 (build 2 0) ∧
    (resetCube (shuffleCube (Angle.quarter : Angle ℤ) (fun _ => 1) (build 2 0))).Cubes
      = (build 2 0 : State ℤ).Cubes :=
  ⟨by decide, Reachable.init,
    (C7_reset_restores_build Angle.quarter 2 0 (by decide) (build 2 0) Reachable.init
      (fun _ => 1)).2.1.1⟩


/-- C8: `initCube(n)` builds one cube when `n = 1`, whatever the mode; for `n ≥ 2` it builds
`8` cubes of type `1` (corner), `12 (n-2)` of type `2` (edge) and, unless the mode is `2`
(void), `6 (n-2)^2` of type `3` (centre face), none in void mode, and no other cube; every
cube has the identity orientation; for `n = 3` that makes `26` cubes in standard mode and
`20` in void mode. -/
theorem C8_build_counts (n mode : Int) :
    (n = 1 → (build n mode : State α).Cubes.length = 1) ∧
    (2 ≤ n →
      typeCount 1 (build n mode : State α).Cubes = 8 ∧
      ((typeCount 2 (build n mode : State α).Cubes : Nat) : Int) = 12 * (n - 2) ∧
      (mode ≠ 2 →
        ((typeCount 3 (build n mode : State α).Cubes : Nat) : Int) = 6 * (n - 2) ^ 2) ∧
      (mode = 2 → typeCount 3 (build n mode : State α).Cubes = 0) ∧
      (((build n mode : State α).Cubes.length : Nat) : Int) =
        8 + 12 * (n - 2) + (if mode = 2 then 0 else 6 * (n - 2) ^ 2)) ∧
    (∀ c : Cube α, c ∈ (build n mode : State α).Cubes → c.rotMat = 1) ∧
    ((build 3 0 : State α).Cubes.length = 26 ∧ typeCount 1 (build 3 0 : State α).Cubes = 8 ∧
      typeCount 2 (build 3 0 : State α).Cubes = 12 ∧
      typeCount 3 (build 3 0 : State α).Cubes = 6) ∧
    ((build 3 2 : State α).Cubes.length = 20 ∧ typeCount 1 (build 3 2 : State α).Cubes = 8 ∧
      typeCount 2 (build 3 2 : State α).Cubes = 12 ∧
      typeCount 3 (build 3 2 : State α).Cubes = 0) := by
  have hgen : ∀ n mode : Int, n ≠ 1 →
      typeCount 1 (build n mode : State α).Cubes = 8 ∧
      typeCount 2 (build n mode : State α).Cubes = 12 * (n - 2).toNat ∧
      typeCount 3 (build n mode : State α).Cubes =
        (if mode = 2 then 0 else 6 * ((n - 2).toNat * (n - 2).toNat)) ∧
      (build n mode : State α).Cubes.length =
        8 + 12 * (n - 2).toNat +
          (if mode = 2 then 0 else 6 * ((n - 2).toNat * (n - 2).toNat)) := by
    intro n mode hn
    rw [build_Cubes]
    simp only [typeCount_map_reset, List.length_map]
    exact typeCount_newCubes n mode hn
  refine ⟨?_, ?_, ?_, ?_, ?_⟩
  · intro h1
    rw [build_Cubes, List.length_map]
    unfold newCubes
    rw [if_pos h1]
    rfl
  · intro h2
    obtain ⟨a, b, c, d⟩ := hgen n mode (by omega)
    have hm : (((n - 2).toNat : Nat) : Int) = n - 2 := by omega
    refine ⟨a, ?_, ?_, ?_, ?_⟩
    · rw [b]; push_cast; rw [hm]
    · intro hmode
      rw [c, if_neg hmode]; push_cast; rw [hm]; ring
    · intro hmode
      rw [c, if_pos hmode]
    · rw [d]
      by_cases hmode : mode = 2
      · simp only [hmode, if_true]; push_cast; rw [hm]
      · simp only [hmode, if_false]; push_cast; rw [hm]; ring
  · intro c hc
    rw [build_Cubes] at hc
    obtain ⟨c0, _, rfl⟩ := List.mem_map.mp hc
    rfl
  · obtain ⟨a, b, c, d⟩ := hgen 3 0 (by decide)
    exact ⟨d, a, b, c⟩
  · obtain ⟨a, b, c, d⟩ := hgen 3 2 (by decide)
    exact ⟨d, a, b, c⟩

/-- C8 at `n = 4` in standard mode: `8` corners, `24` edges, `24` centre faces, `56` cubes. -/
theorem C8_build_counts_witness :
    (2 : Int) ≤ 4 ∧
    (typeCount 1 (build 4 0 : State ℤ).Cubes = 8 ∧
      ((typeCount 2 (build 4 0 : State ℤ).Cubes : Nat) : Int) = 12 * (4 - 2) ∧
      ((0 : Int) ≠ 2 →
        ((typeCount 3 (build 4 0 : State ℤ).Cubes : Nat) : Int) = 6 * (4 - 2) ^ 2) ∧
      ((0 : Int) = 2 → typeCount 3 (build 4 0 : State ℤ).Cubes = 0) ∧
      (((build 4 0 : State ℤ).Cubes.length : Nat) : Int) =
        8 + 12 * (4 - 2) + (if (0 : Int) = 2 then 0 else 6 * (4 - 2) ^ 2)) :=
  ⟨by decide, (C8_build_counts 4 0).2.1 (by decide)⟩


/-- C9: from a consistent Idle state (`rotating = false`, `rotateCount = 0`) in which
`rotateCubeByKey` requests a rotation, the first nine `animateRotate` ticks keep the
controller animating, count the ticks, and change no grid coordinate and no plane; the tenth
tick leaves the controller Idle (`rotating = false`, `rotateCount = 0`) with the grid
coordinates and planes that one `rotate` call with the requested axis, direction and plane
produces from the Idle state; and when the tick angle is 10 degrees (`π / 18`) and the angle of
`rotate` is the exact quarter turn, over the reals, the cubes (orientations included) are
those that `rotate` produces. -/
theorem C9_animation_refines_rotate (t q : Angle ℝ) (s : State ℝ) (hinv : Inv s)
    (hidle : s.rotating = false ∧ s.rotateCount = 0) (key : Int)
    (hreq : (rotateCubeByKey key s).rotating = true) :
    ∃ sel : PlaneRef, (rotateCubeByKey key s).selectedCubePlane = some sel ∧
      (∀ m : Nat, m ≤ 9 →
        (Nat.iterate (animateRotate t) m (rotateCubeByKey key s)).rotating = true ∧
        (Nat.iterate (animateRotate t) m (rotateCubeByKey key s)).rotateCount = m ∧
        (∀ i : Nat,
          (Nat.iterate (animateRotate t) m (rotateCubeByKey key s)).pnOf i = s.pnOf i) ∧
        (∀ fam : Family,
          (Nat.iterate (animateRotate t) m (rotateCubeByKey key s)).planes fam
            = s.planes fam)) ∧
      ((Nat.iterate (animateRotate t) 10 (rotateCubeByKey key s)).rotating = false ∧
        (Nat.iterate (animateRotate t) 10 (rotateCubeByKey key s)).rotateCount = 0 ∧
        (∀ i : Nat, (Nat.iterate (animateRotate t) 10 (rotateCubeByKey key s)).pnOf i =
          (rotate q (rotateCubeByKey key s).axis (rotateCubeByKey key s).rotateDir sel s).pnOf
            i) ∧
        (∀ fam : Family, (Nat.iterate (animateRotate t) 10 (rotateCubeByKey key s)).planes fam =
          (rotate q (rotateCubeByKey key s).axis (rotateCubeByKey key s).rotateDir sel s).planes
            fam)) ∧
      (t.cos = Real.cos (Real.pi / 18) → t.sin = Real.sin (Real.pi / 18) →
        q.cos = 0 → q.sin = 1 →
        (Nat.iterate (animateRotate t) 10 (rotateCubeByKey key s)).Cubes =
          (rotate q (rotateCubeByKey key s).axis (rotateCubeByKey key s).rotateDir sel s).Cubes)
    := by
  obtain ⟨axis, k, dir, e, _, hk0, hk1⟩ :=
    rotateCubeByKey_request key s hinv.one_le hreq hidle.1
  rw [e]
  refine ⟨⟨axisFamily axis, k⟩, rfl, ?_, ?_, ?_⟩
  · intro m hm
    have h := animating_iterate t s ⟨axisFamily axis, k⟩ axis dir hidle.2 m hm
    exact ⟨h.rotating, h.count, h.pnOf, h.planes⟩
  · have h9 := animating_iterate t s ⟨axisFamily axis, k⟩ axis dir hidle.2 9 (le_refl 9)
    obtain ⟨c1, c2, c3, c4, c5⟩ := animating_commit t hinv h9
    rw [Function.iterate_succ_apply']
    have hpn : ∀ i : Nat,
        (animateRotate t (Nat.iterate (animateRotate t) 9
          (selectPlane ⟨axisFamily axis, k⟩ axis dir s))).pnOf i =
        (rotate q axis dir ⟨axisFamily axis, k⟩ s).pnOf i := by
      intro i
      unfold State.pnOf
      rw [c5, rotate_Cubes_getElem?]
      split
      · cases s.Cubes[i]? <;> rfl
      · rfl
    refine ⟨c1, c2, hpn, ?_⟩
    exact planes_eq_of_inv (hinv.rotate q axis dir _) c3 (c4.trans (rotate_N _ _ _ _ _).symm) hpn
  · intro ht1 ht2 hq1 hq2
    have h9 := animating_iterate t s ⟨axisFamily axis, k⟩ axis dir hidle.2 9 (le_refl 9)
    obtain ⟨_, _, _, _, c5⟩ := animating_commit t hinv h9
    rw [Function.iterate_succ_apply']
    apply List.ext_getElem?
    intro j
    have ht : t = ⟨Real.cos (Real.pi / 18), Real.sin (Real.pi / 18)⟩ := by
      cases t; simp only [Angle.mk.injEq]; exact ⟨ht1, ht2⟩
    have hq : q = Angle.quarter := by
      cases q; simp only [Angle.quarter, Angle.mk.injEq]; exact ⟨hq1, hq2⟩
    show (animateRotate t _).Cubes[j]? = (rotate q axis dir _ s).Cubes[j]?
    rw [c5, rotate_Cubes_getElem?, hinv.turnMat t dir _ k ⟨hk0, hk1⟩,
      hinv.turnMat q dir _ k ⟨hk0, hk1⟩, ht, hq, turnMat_real_ninth]

/-- C9 at the 2x2x2 cube right after the build, for the key `R`. -/
theorem C9_animation_refines_rotate_witness :
    ((build 2 0 : State ℝ).rotating = false ∧ (build 2 0 : State ℝ).rotateCount = 0) ∧
    (rotateCubeByKey 82 (build 2 0 : State ℝ)).rotating = true ∧
    ∃ sel : PlaneRef, (rotateCubeByKey 82 (build 2 0 : State ℝ)).selectedCubePlane = some sel ∧
      (Nat.iterate (animateRotate (⟨Real.cos (Real.pi / 18), Real.sin (Real.pi / 18)⟩ : Angle ℝ))
          10 (rotateCubeByKey 82 (build 2 0))).Cubes =
        (rotate (Angle.quarter : Angle ℝ) (rotateCubeByKey 82 (build 2 0 : State ℝ)).axis
          (rotateCubeByKey 82 (build 2 0 : State ℝ)).rotateDir sel (build 2 0)).Cubes := by
  have hidle : (build 2 0 : State ℝ).rotating = false ∧ (build 2 0 : State ℝ).rotateCount = 0 :=
    ⟨(build_idle 2 0).1, (build_idle 2 0).2.1⟩
  have hreq : (rotateCubeByKey 82 (build 2 0 : State ℝ)).rotating = true := by
    simp [rotateCubeByKey, toChar, selectPlane]
  obtain ⟨sel, h1, _, _, h4⟩ :=
    C9_animation_refines_rotate ⟨Real.cos (Real.pi / 18), Real.sin (Real.pi / 18)⟩
      Angle.quarter (build 2 0) (inv_build 2 0 (by decide)) hidle 82 hreq
  exact ⟨hidle, hreq, sel, h1, h4 rfl rfl rfl rfl⟩

/-- C10: while an animation is in progress (`rotating = true`), the press of a key that
requests a rotation (`R L U D F B M E S`), with any modifier keys, changes nothing but
`pressKey`: the selected plane, the axis, the direction, the sub-step counter, the cubes and
the planes are as before. -/
theorem C10_rotation_key_ignored_while_rotating (q : Angle α) (rand : Nat → Nat) (key : Int)
    (mods : Nat) (s : State α) (hrot : s.rotating = true)
    (hkey : toChar key ∈ rotationKeys) :
    keyboardEvent q rand key 1 mods s = { s with pressKey := key } := by
  unfold keyboardEvent
  simp only [rotationKeys, List.mem_cons, List.mem_singleton, List.not_mem_nil, or_false] at hkey
  have h32 : toChar key ≠ 32 := by omega
  have h81 : toChar key ≠ 81 := by omega
  have h67 : toChar key ≠ 67 := by omega
  have h80 : toChar key ≠ 80 := by omega
  have hN : ¬ (key ≥ 49 ∧ key ≤ 57) := by
    unfold toChar at hkey
    omega
  simp [hrot, h32, h81, h67, h80, hN]

/-- C10 at the 2x2x2 cube while the turn requested by `R` is animated: the press of `L` with
the Super modifier changes nothing but `pressKey`. -/
theorem C10_rotation_key_ignored_while_rotating_witness :
    (rotateCubeByKey 82 (build 2 0 : State ℤ)).rotating = true ∧ toChar 76 ∈ rotationKeys ∧
    keyboardEvent (Angle.quarter : Angle ℤ) (fun _ => 0) 76 1 8 (rotateCubeByKey 82 (build 2 0))
      = { rotateCubeByKey 82 (build 2 0 : State ℤ) with pressKey := 76 } :=
  ⟨by simp [rotateCubeByKey, toChar, selectPlane], by decide,
    C10_rotation_key_ignored_while_rotating Angle.quarter (fun _ => 0) 76 8
      (rotateCubeByKey 82 (build 2 0)) (by simp [rotateCubeByKey, toChar, selectPlane])
      (by decide)⟩

/-- C11 (as the code has it): `resetCube` does not touch the animation controller.  It
leaves `rotating`, `rotateCount`, the selected plane, the axis and the direction as they
were, so a reset issued while an animation is in progress leaves the controller animating;
it gives every cube the identity orientation and the grid coordinate computed from its
reference position, with planes to match; and after a reset issued when the controller is
idle, `animateRotate` ticks change nothing. -/
theorem C11_reset_leaves_controller (t : Angle α) (s : State α) (hinv : Inv s) :
    ((resetCube s).rotating = s.rotating ∧ (resetCube s).rotateCount = s.rotateCount ∧
      (resetCube s).selectedCubePlane = s.selectedCubePlane ∧ (resetCube s).axis = s.axis ∧
      (resetCube s).rotateDir = s.rotateDir) ∧
    (∀ (i : Nat) (c : Cube α), (resetCube s).Cubes[i]? = some c →
      c.rotMat = 1 ∧ c.pn = gridCoord s.N c.position) ∧
    (resetCube s).Cubes.length = s.Cubes.length ∧
    Inv (resetCube s) ∧
    (s.rotating = false → ∀ m : Nat, Nat.iterate (animateRotate t) m (resetCube s) = resetCube s)
    := by
  obtain ⟨_, _, _, _, _, h6, h7, h8, h9, h10⟩ := sameRest_resetCube s
  refine ⟨⟨h7, h10, h6, h8, h9⟩, ?_, ?_, hinv.resetCube, ?_⟩
  · intro i c hc
    rw [resetCube_Cubes, List.getElem?_map] at hc
    cases h : s.Cubes[i]? with
    | none => rw [h] at hc; cases hc
    | some c0 =>
      rw [h] at hc
      simp only [Option.map_some', Option.some.injEq] at hc
      subst hc
      exact ⟨rfl, rfl⟩
  · rw [resetCube_Cubes, List.length_map]
  · intro h0 m
    exact iterate_animateRotate_idle t _ (h7.trans h0) m

/-- C11 at the 2x2x2 cube right after the key `R` was pressed: the state is consistent, and
`resetCube` leaves `rotating` as it is. -/
theorem C11_reset_leaves_controller_witness :
    Inv (rotateCubeByKey 82 (build 2 0 : State ℤ)) ∧
    (resetCube (rotateCubeByKey 82 (build 2 0 : State ℤ))).rotating =
      (rotateCubeByKey 82 (build 2 0 : State ℤ)).rotating :=
  have hinv : Inv (rotateCubeByKey 82 (build 2 0 : State ℤ)) := by
    rw [rotateCubeByKey_R]
    exact (animating_start _ _ _ _ (1 : Mat4 ℤ) (build_idle 2 0).2.1).consistent
      (inv_build 2 0 (by decide))
  ⟨hinv, (C11_reset_leaves_controller Angle.quarter _ hinv).1.1⟩

/-- C11 fails as stated: three ticks into the animation that the key `R` starts on the 3x3x3
cube (tick angle 10 degrees), the controller is animating with `rotateCount = 3`; after
`resetCube` it still is (`rotating = true`, `rotateCount = 3`), and the next `animateRotate`
tick counts on to `4`. -/
theorem C11_reset_does_not_abort :
    (Nat.iterate (animateRotate (⟨Real.cos (Real.pi / 18), Real.sin (Real.pi / 18)⟩ : Angle ℝ)) 3
      (rotateCubeByKey 82 (build 3 0 : State ℝ))).rotating = true ∧
    (Nat.iterate (animateRotate (⟨Real.cos (Real.pi / 18), Real.sin (Real.pi / 18)⟩ : Angle ℝ)) 3
      (rotateCubeByKey 82 (build 3 0 : State ℝ))).rotateCount = 3 ∧
    (resetCube (Nat.iterate
      (animateRotate (⟨Real.cos (Real.pi / 18), Real.sin (Real.pi / 18)⟩ : Angle ℝ)) 3
      (rotateCubeByKey 82 (build 3 0 : State ℝ)))).rotating = true ∧
    (resetCube (Nat.iterate
      (animateRotate (⟨Real.cos (Real.pi / 18), Real.sin (Real.pi / 18)⟩ : Angle ℝ)) 3
      (rotateCubeByKey 82 (build 3 0 : State ℝ)))).rotateCount = 3 ∧
    (animateRotate (⟨Real.cos (Real.pi / 18), Real.sin (Real.pi / 18)⟩ : Angle ℝ)
      (resetCube (Nat.iterate
        (animateRotate (⟨Real.cos (Real.pi / 18), Real.sin (Real.pi / 18)⟩ : Angle ℝ)) 3
        (rotateCubeByKey 82 (build 3 0 : State ℝ))))).rotateCount = 4 := by
  rw [rotateCubeByKey_R]
  have h := animating_iterate (⟨Real.cos (Real.pi / 18), Real.sin (Real.pi / 18)⟩ : Angle ℝ)
    (build 3 0 : State ℝ) ⟨Family.X, (build 3 0 : State ℝ).N - 1⟩ 0 true (build_idle 3 0).2.1 3
    (by decide)
  obtain ⟨_, _, _, _, _, h6, h7, h8, h9, h10⟩ := sameRest_resetCube
    (Nat.iterate (animateRotate (⟨Real.cos (Real.pi / 18), Real.sin (Real.pi / 18)⟩ : Angle ℝ)) 3
      (selectPlane ⟨Family.X, (build 3 0 : State ℝ).N - 1⟩ 0 true (build 3 0 : State ℝ)))
  have hr := h.rotating
  have hc := h.count
  have hs := h.selected
  refine ⟨hr, by rw [hc]; rfl, h7.trans hr, by rw [h10, hc]; rfl, ?_⟩
  rw [(animateRotate_count _ _ _ (h7.trans hr) (h6.trans hs) (by rw [h10, hc]; norm_num)).2,
    h10, hc]
  norm_num

/-- C12: for `N = 1`, `initCube` builds exactly one cube, at grid coordinate `(0,0,0)`; in
every state reached from it there is that one cube at `(0,0,0)`, and `rotate` about any axis
on the layer `0`, in either direction, leaves every grid coordinate and all three plane
vectors as they are, while the orientation of the cube gets the turn
`glm::rotate(angle, nv * dir)` multiplied on from the left. -/
theorem C12_single_cube (q : Angle α) (mode : Int) (s : State α) (hs : Reachable q 1 mode s)
    (A : Int) (d : Bool) :
    ((build 1 mode : State α).Cubes.length = 1 ∧
      (build 1 mode : State α).pnOf 0 = some ⟨0, 0, 0⟩) ∧
    (s.Cubes.length = 1 ∧ s.pnOf 0 = some ⟨0, 0, 0⟩) ∧
    (∀ i : Nat, (rotate q A d ⟨axisFamily A, 0⟩ s).pnOf i = s.pnOf i) ∧
    (∀ fam : Family, (rotate q A d ⟨axisFamily A, 0⟩ s).planes fam = s.planes fam) ∧
    (rotate q A d ⟨axisFamily A, 0⟩ s).rotOf 0 =
      (s.rotOf 0).map (fun M =>
        glmRotate q ((axisFamily A).nv * (if d then Vec3.splat 1 else Vec3.splat (-1))) * M) := by
  have key : ∀ (s : State α), Reachable q 1 mode s →
      s.Cubes.length = 1 ∧ s.pnOf 0 = some ⟨0, 0, 0⟩ := by
    intro s hs
    obtain ⟨hinv, hN⟩ := hs.inv (le_refl 1)
    have hl : s.Cubes.length = 1 := by rw [hs.length_Cubes, newCubes_one]; rfl
    refine ⟨hl, ?_⟩
    unfold State.pnOf
    cases hc : s.Cubes[0]? with
    | none =>
      rw [List.getElem?_eq_none_iff] at hc
      omega
    | some c =>
      have hr := hinv.range 0 c hc
      rw [hN] at hr
      simp only [Option.map_some', Option.some.injEq]
      exact pn_zero_of_inRange_one _ hr
  obtain ⟨hinv, hN⟩ := hs.inv (le_refl 1)
  have hpn : ∀ i : Nat, (rotate q A d ⟨axisFamily A, 0⟩ s).pnOf i = s.pnOf i := by
    intro i
    rw [rotate_pnOf hinv, hN]
    cases hp : s.pnOf i with
    | none => rfl
    | some p =>
      obtain ⟨c, hc, hcp⟩ := getElem?_of_pnOf hp
      have hr := hinv.range i c hc
      rw [hN, hcp] at hr
      rw [pn_zero_of_inRange_one p hr]
      simp only [Option.map_some', sliceTurn_one]
  refine ⟨key _ Reachable.init, key s hs, hpn, ?_, ?_⟩
  · intro fam
    exact planes_eq_of_inv hinv (hinv.rotate q A d _) (rotate_N _ _ _ _ _) hpn fam
  · obtain ⟨_, _, _, hc, _⟩ := rotate_same hinv q A d 0 ⟨le_refl 0, by rw [hN]; decide⟩
    obtain ⟨c, hc0, hcp⟩ := getElem?_of_pnOf (key s hs).2
    have hmem : 0 ∈ s.planeCubeIds ⟨axisFamily A, 0⟩ := by
      rw [mem_planeCubeIds, hinv.mem]
      refine ⟨c, hc0, ?_⟩
      rw [hcp]
      cases axisFamily A <;> rfl
    unfold State.rotOf
    rw [hc 0, if_pos hmem, hc0]
    rfl

/-- C12 at the state that `initCube(1)` builds: a turn about `z` in the negative direction
leaves every grid coordinate as it is. -/
theorem C12_single_cube_witness :
    Reachable (Angle.quarter : Angle ℤ) 1 0 (build 1 0) ∧
    (∀ i : Nat, (rotate (Angle.quarter : Angle ℤ) 2 false ⟨axisFamily 2, 0⟩ (build 1 0)).pnOf i =
      (build 1 0 : State ℤ).pnOf i) :=
  ⟨Reachable.init, (C12_single_cube Angle.quarter 0 (build 1 0) Reachable.init 2 false).2.2.1⟩

/-- C13: right after `initCube(n)` (`n ≥ 1`), and after `resetCube` in any state reached from
it, `cubeIds2vao` holds exactly one index per cube, and the index of a cube with grid
coordinate `(x, y, z)` is `9 c(x) + 3 c(y) + c(z)` for `n > 1`, with `c(0) = 0`,
`c(n-1) = 2` and `c(v) = 1` in between, and `0` for `n = 1`; it lies in `[0, 26]` and is never
`13`. -/
theorem C13_visual_index (q : Angle α) (n mode : Int) (hn : 1 ≤ n) (s : State α)
    (hs : Reachable q n mode s) :
    VisualOK n (build n mode : State α) ∧ VisualOK n (resetCube s) :=
  ⟨visualOK_of_reachable hn (Reachable.init : Reachable q n mode (build n mode)) rfl,
    visualOK_of_reachable hn (Reachable.reset hs) (resetCube_of_reachable hn hs).1⟩

/-- C13 at the 2x2x2 cube: one index per cube right after the build. -/
theorem C13_visual_index_witness :
    (1 : Int) ≤ 2 ∧ Reachable (Angle.quarter : Angle ℤ) 2 0 (build 2 0) ∧
    (build 2 0 : State ℤ).cubeIds2vao.length = (build 2 0 : State ℤ).Cubes.length :=
  ⟨by decide, Reachable.init,
    (C13_visual_index Angle.quarter 2 0 (by decide) (build 2 0) Reachable.init).1.1⟩

/-- C14 (as the code has it): for a key code below 256, `rotateCubeByKey` maps
`R L U D F B` to the planes `x[N-1]`, `x[0]`, `y[N-1]`, `y[0]`, `z[N-1]`, `z[0]` with axes
`0 0 1 1 2 2` and directions `+ - + - + -`; whenever the mode is not void it maps `M`, `E`,
`S` to the planes `x[N/2]`, `y[N/2]`, `z[N/2]` with directions `+ + -`, whatever the parity of
`N`; in void mode `M`, `E`, `S`, and in every mode any other key, leave the state as it is;
and a request always selects a plane of the family of its axis. -/
theorem C14_key_map {β : Type} (s : State β) (key : Int) (hkey : 0 ≤ key ∧ key < 256) :
    (key = 82 → rotateCubeByKey key s = selectPlane ⟨Family.X, s.N - 1⟩ 0 true s) ∧
    (key = 76 → rotateCubeByKey key s = selectPlane ⟨Family.X, 0⟩ 0 false s) ∧
    (key = 85 → rotateCubeByKey key s = selectPlane ⟨Family.Y, s.N - 1⟩ 1 true s) ∧
    (key = 68 → rotateCubeByKey key s = selectPlane ⟨Family.Y, 0⟩ 1 false s) ∧
    (key = 70 → rotateCubeByKey key s = selectPlane ⟨Family.Z, s.N - 1⟩ 2 true s) ∧
    (key = 66 → rotateCubeByKey key s = selectPlane ⟨Family.Z, 0⟩ 2 false s) ∧
    (s.mode ≠ 2 →
      (key = 77 → rotateCubeByKey key s = selectPlane ⟨Family.X, Int.tdiv s.N 2⟩ 0 true s) ∧
      (key = 69 → rotateCubeByKey key s = selectPlane ⟨Family.Y, Int.tdiv s.N 2⟩ 1 true s) ∧
      (key = 83 → rotateCubeByKey key s = selectPlane ⟨Family.Z, Int.tdiv s.N 2⟩ 2 false s)) ∧
    (s.mode = 2 → (key = 77 ∨ key = 69 ∨ key = 83) → rotateCubeByKey key s = s) ∧
    (key ∉ rotationKeys → rotateCubeByKey key s = s) ∧
    (rotateCubeByKey key s = s ∨
      ∃ (a k : Int) (d : Bool), (a = 0 ∨ a = 1 ∨ a = 2) ∧
        rotateCubeByKey key s = selectPlane ⟨axisFamily a, k⟩ a d s) := by
  have hc := toChar_of_byte key hkey
  refine ⟨?_, ?_, ?_, ?_, ?_, ?_, ?_, ?_, ?_, rotateCubeByKey_cases key s⟩
  · rintro rfl; simp [rotateCubeByKey, toChar]
  · rintro rfl; simp [rotateCubeByKey, toChar]
  · rintro rfl; simp [rotateCubeByKey, toChar]
  · rintro rfl; simp [rotateCubeByKey, toChar]
  · rintro rfl; simp [rotateCubeByKey, toChar]
  · rintro rfl; simp [rotateCubeByKey, toChar]
  · intro hm
    refine ⟨?_, ?_, ?_⟩ <;> rintro rfl <;> simp [rotateCubeByKey, toChar, hm]
  · intro hm hk
    rcases hk with rfl | rfl | rfl <;> simp [rotateCubeByKey, toChar, hm]
  · intro hk
    simp only [rotationKeys, List.mem_cons, List.mem_singleton, List.not_mem_nil, or_false,
      not_or] at hk
    obtain ⟨k1, k2, k3, k4, k5, k6, k7, k8, k9⟩ := hk
    unfold rotateCubeByKey
    simp only [hc, if_neg k1, if_neg k2, if_neg k3, if_neg k4, if_neg k5, if_neg k6, if_neg k7,
      if_neg k8, if_neg k9]

/-- C14 at the 3x3x3 cube in standard mode: the key `M` selects the middle plane `x[1]`. -/
theorem C14_key_map_witness :
    ((0 : Int) ≤ 77 ∧ (77 : Int) < 256) ∧ (build 3 0 : State ℤ).mode ≠ 2 ∧
    rotateCubeByKey 77 (build 3 0 : State ℤ) =
      selectPlane ⟨Family.X, Int.tdiv (build 3 0 : State ℤ).N 2⟩ 0 true (build 3 0) :=
  have hm : (build 3 0 : State ℤ).mode ≠ 2 := by rw [(build_idle 3 0).2.2]; decide
  ⟨by decide, hm, ((C14_key_map (build 3 0 : State ℤ) 77 (by decide)).2.2.2.2.2.2.1 hm).1 rfl⟩

/-- C14 fails as stated: on the 2x2x2 cube (`N` even) in standard mode, idle, the key `M`
starts a rotation: `rotating` becomes `true` and the plane `x[1]` is selected. -/
theorem C14_middle_key_even_size :
    (build 2 0 : State ℤ).N = 2 ∧ (build 2 0 : State ℤ).mode = 0 ∧
    (build 2 0 : State ℤ).rotating = false ∧
    (rotateCubeByKey 77 (build 2 0 : State ℤ)).rotating = true ∧
    (rotateCubeByKey 77 (build 2 0 : State ℤ)).selectedCubePlane = some ⟨Family.X, 1⟩ := by
  have hN : (build 2 0 : State ℤ).N = 2 := build_N 2 0
  have hm : (build 2 0 : State ℤ).mode = 0 := (build_idle 2 0).2.2
  refine ⟨hN, hm, (build_idle 2 0).1, ?_, ?_⟩
  · simp [rotateCubeByKey, toChar, hm, selectPlane]
  · simp [rotateCubeByKey, toChar, hm, selectPlane, hN]

/-- C15 (as the code has it): `initCube` and `changeN` do not check the size, and a build
with `n < 1` is not rejected before any change of state.  Called with `n < 1`, `initCube`
pushes no plane and pushes the eight corner cubes onto `Cubes`, and then its registration
loop indexes a plane vector outside its bounds, so that the call does not complete
(`initCubeChecked` is `none`); the same holds for `changeN` with a key code below `49`.  For
`n ≥ 1` on cleared data the checked call completes with the state of `initCube`, so it does
for `changeN` with the key codes `49..57`, which sets `N = pressKey - 48`; and `keyboardEvent`
either leaves `N` as it is or sets it to a value in `[1, 9]`, because it calls `changeN` only
for those key codes. -/
theorem C15_no_size_check (n : Int) (hn : n < 1) (s : State α) :
    ((pushed n s).Cubes.length = s.Cubes.length + 8 ∧
      ∀ fam : Family, ((pushed n s).planes fam).length = (s.planes fam).length) ∧
    initCubeChecked n s = none ∧
    changeNChecked (n + 48) s = none ∧
    (∀ m : Int, 1 ≤ m → initCubeChecked m (initData s) = some (initCube m (initData s))) ∧
    (∀ pressKey : Int, 49 ≤ pressKey → pressKey ≤ 57 →
      changeNChecked pressKey s = some (changeN pressKey s) ∧
      (changeN pressKey s).N = pressKey - 48) ∧
    (∀ (q : Angle α) (rand : Nat → Nat) (key action : Int) (mods : Nat),
      (keyboardEvent q rand key action mods s).N = s.N ∨
        (1 ≤ (keyboardEvent q rand key action mods s).N ∧
          (keyboardEvent q rand key action mods s).N ≤ 9)) := by
  refine ⟨⟨?_, ?_⟩, initCubeChecked_of_lt_one n hn s, ?_,
    fun m hm => initCubeChecked_cleared m hm s, ?_,
    fun q rand key action mods => keyboardEvent_N q rand key action mods s⟩
  · rw [pushed_Cubes, List.length_append, length_newCubes_of_lt_one n s.mode hn]
  · intro fam
    rw [pushed_planes_length]
    have : n.toNat = 0 := by omega
    omega
  · unfold changeNChecked
    exact initCubeChecked_of_lt_one _ (by simp only []; omega) _
  · intro pk h1 h2
    refine ⟨?_, changeN_N pk s⟩
    unfold changeNChecked changeN
    exact initCubeChecked_cleared _ (by simp only []; omega) _

/-- C15 at `n = 0` on the cleared globals: the checked call does not complete. -/
theorem C15_no_size_check_witness :
    (0 : Int) < 1 ∧ initCubeChecked 0 (initData (State.initial : State ℤ)) = none :=
  ⟨by decide, (C15_no_size_check 0 (by decide) (initData (State.initial : State ℤ))).2.1⟩

/-- C15 fails as stated: on the cleared globals, with no cube in `Cubes`, `initCube(0)` has
pushed eight cubes when its registration loop starts, and that loop indexes the empty plane
vectors, so that the call does not complete; the same holds for `changeN(48)`, which asks for
`N = 0`. -/
theorem C15_build_of_size_zero :
    (initData (State.initial : State ℤ)).Cubes.length = 0 ∧
    (pushed 0 (initData (State.initial : State ℤ))).Cubes.length = 8 ∧
    initCubeChecked 0 (initData (State.initial : State ℤ)) = none ∧
    changeNChecked 48 (State.initial : State ℤ) = none := by
  refine ⟨rfl, ?_, initCubeChecked_of_lt_one 0 (by decide) _, ?_⟩
  · rw [pushed_Cubes, List.length_append, length_newCubes_of_lt_one 0 _ (by decide)]
    rfl
  · unfold changeNChecked
    exact initCubeChecked_of_lt_one _ (by decide) _

/-- C16 (as the code has it): `updateCubePlane` and `rotate` do not check the axis.  An axis
value other than `0` and `1` takes the branch of the `z` axis, so the call does what the call
with axis `2` does.  At the call sites the request is valid: for `N ≥ 1`, every round of
`shuffleCube` calls `rotate` with an axis in `{0, 1, 2}` on a plane of the family of that
axis with a layer in `[0, N-1]`, and so is every request that `rotateCubeByKey` hands to
`animateRotate`. -/
theorem C16_no_axis_check (q : Angle α) (axis : Int) (h0 : axis ≠ 0) (h1 : axis ≠ 1) (d : Bool)
    (sel : PlaneRef) (s : State α) :
    updateCubePlane axis d sel s = updateCubePlane 2 d sel s ∧
    rotate q axis d sel s = rotate q 2 d sel s ∧
    (1 ≤ s.N → ∀ r0 r1 r2 : Nat,
      ∃ (a k : Int) (b : Bool), (a = 0 ∨ a = 1 ∨ a = 2) ∧ 0 ≤ k ∧ k < s.N ∧
        shuffleStep q r0 r1 r2 s = rotate q a b ⟨axisFamily a, k⟩ s) ∧
    (1 ≤ s.N → s.rotating = false → ∀ key : Int, (rotateCubeByKey key s).rotating = true →
      ∃ (a k : Int) (b : Bool), (a = 0 ∨ a = 1 ∨ a = 2) ∧ 0 ≤ k ∧ k < s.N ∧
        rotateCubeByKey key s = selectPlane ⟨axisFamily a, k⟩ a b s) := by
  refine ⟨updateCubePlane_other_axis axis h0 h1 d sel s, ?_, ?_, ?_⟩
  · unfold rotate
    exact updateCubePlane_other_axis axis h0 h1 d sel _
  · intro hN r0 r1 r2
    exact shuffleStep_request q r0 r1 r2 s hN
  · intro hN hr key hk
    obtain ⟨a, k, b, e, ha, hk0, hk1⟩ := rotateCubeByKey_request key s hN hk hr
    exact ⟨a, k, b, ha, hk0, hk1, e⟩

/-- C16 at the 2x2x2 cube: `rotate` with the axis value `5` on the plane `z[1]` is `rotate`
with the axis value `2`. -/
theorem C16_no_axis_check_witness :
    (5 : Int) ≠ 0 ∧ (5 : Int) ≠ 1 ∧
    rotate (Angle.quarter : Angle ℤ) 5 true ⟨Family.Z, 1⟩ (build 2 0) =
      rotate (Angle.quarter : Angle ℤ) 2 true ⟨Family.Z, 1⟩ (build 2 0) :=
  ⟨by decide, by decide,
    (C16_no_axis_check Angle.quarter 5 (by decide) (by decide) true ⟨Family.Z, 1⟩
      (build 2 0)).2.1⟩

/-- C16 fails as stated: on the 2x2x2 cube, `rotate` with the axis value `5` on the plane
`z[1]` moves the cube `2` from the grid coordinate `(1,1,1)` to `(0,1,1)`. -/
theorem C16_axis_five_turns :
    (build 2 0 : State ℤ).pnOf 2 = some ⟨1, 1, 1⟩ ∧
    (rotate (Angle.quarter : Angle ℤ) 5 true ⟨Family.Z, 1⟩ (build 2 0)).pnOf 2 =
      some ⟨0, 1, 1⟩ := by
  have h := rotate_pnOf (inv_build 2 0 (by decide) : Inv (build 2 0 : State ℤ))
    (Angle.quarter : Angle ℤ) 5 true 1 2
  have e : axisFamily 5 = Family.Z := by decide
  rw [e, build_pnOf_two_two, build_N] at h
  exact ⟨build_pnOf_two_two, h.trans (by decide)⟩

/-- C17: `rotate` about the axis `A` on the plane `k` of the family of `A` leaves every plane
of that family as it is, leaves every cube outside the plane `k` as it is (grid coordinate
and orientation included), leaves the type, the reference position and the offset transform of
every cube as they are, and leaves the number of cubes, `N` and the mode as they are. -/
theorem C17_rotate_frame (q : Angle α) (A : Int) (d : Bool) (k : Int) (s : State α) :
    (rotate q A d ⟨axisFamily A, k⟩ s).planes (axisFamily A) = s.planes (axisFamily A) ∧
    (∀ i : Nat, i ∉ planeIds (s.planes (axisFamily A)) k →
      (rotate q A d ⟨axisFamily A, k⟩ s).Cubes[i]? = s.Cubes[i]?) ∧
    (∀ i : Nat,
      ((rotate q A d ⟨axisFamily A, k⟩ s).Cubes[i]?).map
          (fun c => (c.cubeType, c.position, c.transMat)) =
        (s.Cubes[i]?).map (fun c => (c.cubeType, c.position, c.transMat))) ∧
    (rotate q A d ⟨axisFamily A, k⟩ s).Cubes.length = s.Cubes.length ∧
    (rotate q A d ⟨axisFamily A, k⟩ s).N = s.N ∧
    (rotate q A d ⟨axisFamily A, k⟩ s).mode = s.mode := by
  refine ⟨rotate_planes_axis _ _ _ _ _, ?_, ?_, rotate_Cubes_length _ _ _ _ _,
    rotate_N _ _ _ _ _, (sameRest_rotate _ _ _ _ _).2.2.1⟩
  · intro i hi
    rw [rotate_Cubes_getElem?, if_neg]
    rw [mem_planeCubeIds]
    exact hi
  · intro i
    rw [rotate_Cubes_getElem?]
    split_ifs
    · cases s.Cubes[i]? <;> rfl
    · rfl

/-- C17 at the 2x2x2 cube: the cube `0`, at `(0,1,0)`, is not in the plane `x[1]`, and the
turn of that plane leaves it as it is. -/
theorem C17_rotate_frame_witness :
    (0 : Nat) ∉ planeIds ((build 2 0 : State ℤ).planes (axisFamily 0)) 1 ∧
    (rotate (Angle.quarter : Angle ℤ) 0 true ⟨axisFamily 0, 1⟩ (build 2 0)).Cubes[0]? =
      (build 2 0 : State ℤ).Cubes[0]? := by
  have h : (0 : Nat) ∉ planeIds ((build 2 0 : State ℤ).planes (axisFamily 0)) 1 := by
    rw [(inv_build 2 0 (by decide)).mem]
    rintro ⟨c, hc, hx⟩
    have hp : (build 2 0 : State ℤ).pnOf 0 = some c.pn := by
      unfold State.pnOf; rw [hc]; rfl
    rw [build_pnOf_two_zero] at hp
    simp only [Option.some.injEq] at hp
    rw [← hp] at hx
    revert hx
    decide
  exact ⟨h, (C17_rotate_frame Angle.quarter 0 true 1 (build 2 0)).2.1 0 h⟩

/-- C18 (as the code has it): while an animation is in progress, a key event that calls none
of `shuffleCube`, `resetCube`, `changeMode` and `changeN` (it is not a press of the space bar,
of `Q` or of `P`, and does not come with Super down while `pressKey` is left on a digit
`1`..`9`) changes no cube and no plane.  From the moment a key starts an animation in a
consistent idle state, through any list of frames and such key events with at most nine
frames, the controller stays animating with the same selected plane, the counter counts the
frames, and no grid coordinate and no plane changes, so the selected plane holds the same
cubes throughout; after nine frames the next `animateRotate` commits exactly the grid
coordinates and planes of one `rotate` call on the starting state.  Also while an animation is
in progress, in a consistent state, a press of `Q` runs `resetCube`, a press of `P` runs
`changeMode`, and a press of a digit `1`..`9` with Super down runs `changeN`. -/
theorem C18_quiet_events_keep_slices (q t : Angle α) (s : State α) (hinv : Inv s)
    (hidle : s.rotating = false ∧ s.rotateCount = 0) (key0 : Int)
    (hreq : (rotateCubeByKey key0 s).rotating = true) (es : List Event)
    (hq : quietFrom s.pressKey es) (hticks : ticks es ≤ 9) :
    (∃ sel : PlaneRef, (rotateCubeByKey key0 s).selectedCubePlane = some sel ∧
      (mainLoop q t es (rotateCubeByKey key0 s)).rotating = true ∧
      (mainLoop q t es (rotateCubeByKey key0 s)).rotateCount = ticks es ∧
      (mainLoop q t es (rotateCubeByKey key0 s)).selectedCubePlane = some sel ∧
      (∀ i : Nat, (mainLoop q t es (rotateCubeByKey key0 s)).pnOf i = s.pnOf i) ∧
      (∀ fam : Family, (mainLoop q t es (rotateCubeByKey key0 s)).planes fam = s.planes fam) ∧
      (mainLoop q t es (rotateCubeByKey key0 s)).planeCubeIds sel = s.planeCubeIds sel ∧
      (ticks es = 9 →
        (animateRotate t (mainLoop q t es (rotateCubeByKey key0 s))).rotating = false ∧
        (∀ i : Nat, (animateRotate t (mainLoop q t es (rotateCubeByKey key0 s))).pnOf i =
          (rotate q (rotateCubeByKey key0 s).axis (rotateCubeByKey key0 s).rotateDir sel s).pnOf
            i) ∧
        (∀ fam : Family,
          (animateRotate t (mainLoop q t es (rotateCubeByKey key0 s))).planes fam =
          (rotate q (rotateCubeByKey key0 s).axis (rotateCubeByKey key0 s).rotateDir sel s).planes
            fam))) ∧
    (∀ st : State α, st.rotating = true →
      ∀ (key action : Int) (mods : Nat) (rand : Nat → Nat),
        quietKey st.pressKey key action mods →
        (keyboardEvent q rand key action mods st).Cubes = st.Cubes ∧
        (∀ fam : Family, (keyboardEvent q rand key action mods st).planes fam = st.planes fam) ∧
        (keyboardEvent q rand key action mods st).rotating = true) ∧
    (∀ st : State α, Inv st → st.rotating = true →
      (∀ (key : Int) (mods : Nat) (rand : Nat → Nat), toChar key = 81 →
        keyboardEvent q rand key 1 mods st = resetCube { st with pressKey := key }) ∧
      (∀ (key : Int) (mods : Nat) (rand : Nat → Nat), toChar key = 80 →
        keyboardEvent q rand key 1 mods st = changeMode { st with pressKey := key }) ∧
      (∀ (key : Int) (mods : Nat) (rand : Nat → Nat), 49 ≤ key → key ≤ 57 → mods &&& 8 ≠ 0 →
        keyboardEvent q rand key 1 mods st = changeN key { st with pressKey := key })) := by
  refine ⟨?_, ?_, ?_⟩
  · obtain ⟨axis, k, dir, e, _, hk0, hk1⟩ :=
      rotateCubeByKey_request key0 s hinv.one_le hreq hidle.1
    rw [e]
    have h0 := animating_start s ⟨axisFamily axis, k⟩ axis dir
      (turnMat t dir ⟨axisFamily axis, k⟩ s) hidle.2
    have hq0 : quietFrom (selectPlane ⟨axisFamily axis, k⟩ axis dir s).pressKey es := hq
    have h := animating_quiet_run q t s ⟨axisFamily axis, k⟩ axis dir es 0
      (selectPlane ⟨axisFamily axis, k⟩ axis dir s) hq0 h0 (by omega)
    rw [Nat.zero_add] at h
    refine ⟨⟨axisFamily axis, k⟩, rfl, h.rotating, h.count, h.selected, h.pnOf, h.planes,
      planeCubeIds_congr' _ _ _ h.planes, ?_⟩
    intro h9
    rw [h9] at h
    obtain ⟨c1, c2, c3, c4, c5⟩ := animating_commit t hinv h
    have hpn : ∀ i : Nat,
        (animateRotate t
          (mainLoop q t es (selectPlane ⟨axisFamily axis, k⟩ axis dir s))).pnOf i =
        (rotate q axis dir ⟨axisFamily axis, k⟩ s).pnOf i := by
      intro i
      unfold State.pnOf
      rw [c5, rotate_Cubes_getElem?]
      split
      · cases s.Cubes[i]? <;> rfl
      · rfl
    refine ⟨c1, hpn, ?_⟩
    exact planes_eq_of_inv (hinv.rotate q axis dir _) c3 (c4.trans (rotate_N _ _ _ _ _).symm)
      hpn
  · intro st hrot key action mods rand hk
    obtain ⟨oc, e⟩ := keyboardEvent_quietKey q rand key action mods st hrot hk
    rw [e]
    exact ⟨rfl, fun fam => by cases fam <;> rfl, hrot⟩
  · intro st _ hrot
    exact ⟨fun key mods rand hk => keyboardEvent_press_Q q rand key mods st hrot hk,
      fun key mods rand hk => keyboardEvent_press_P q rand key mods st hrot hk,
      fun key mods rand h1 h2 hm => keyboardEvent_press_digit q rand key mods st hrot ⟨h1, h2⟩ hm⟩

/-- C18 at the 2x2x2 cube: the key `R` starts the animation, then the key `L` is pressed and
one frame passes; the controller is still animating. -/
theorem C18_quiet_events_keep_slices_witness :
    Inv (build 2 0 : State ℤ) ∧
    ((build 2 0 : State ℤ).rotating = false ∧ (build 2 0 : State ℤ).rotateCount = 0) ∧
    (rotateCubeByKey 82 (build 2 0 : State ℤ)).rotating = true ∧
    quietFrom (build 2 0 : State ℤ).pressKey [Event.key 76 1 0 (fun _ => 0), Event.tick] ∧
    ticks [Event.key 76 1 0 (fun _ => 0), Event.tick] ≤ 9 ∧
    ∃ sel : PlaneRef, (rotateCubeByKey 82 (build 2 0 : State ℤ)).selectedCubePlane = some sel ∧
      (mainLoop (Angle.quarter : Angle ℤ) (Angle.quarter : Angle ℤ)
        [Event.key 76 1 0 (fun _ => 0), Event.tick]
        (rotateCubeByKey 82 (build 2 0))).rotating = true := by
  have hinv : Inv (build 2 0 : State ℤ) := inv_build 2 0 (by decide)
  have hidle : (build 2 0 : State ℤ).rotating = false ∧ (build 2 0 : State ℤ).rotateCount = 0 :=
    ⟨(build_idle 2 0).1, (build_idle 2 0).2.1⟩
  have hreq : (rotateCubeByKey 82 (build 2 0 : State ℤ)).rotating = true := by
    simp [rotateCubeByKey, toChar, selectPlane]
  have hq : quietFrom (build 2 0 : State ℤ).pressKey
      [Event.key 76 1 0 (fun _ => 0), Event.tick] :=
    ⟨⟨fun _ => ⟨by decide, by decide, by decide⟩, fun h => h.1 (by decide)⟩, trivial⟩
  have ht : ticks [Event.key 76 1 0 (fun _ => 0), Event.tick] ≤ 9 := by decide
  obtain ⟨⟨sel, h1, h2, _⟩, _⟩ :=
    C18_quiet_events_keep_slices Angle.quarter Angle.quarter (build 2 0) hinv hidle 82 hreq
      [Event.key 76 1 0 (fun _ => 0), Event.tick] hq ht
  exact ⟨hinv, hidle, hreq, hq, ht, sel, h1, h2⟩

/-- C18 fails as stated: on the 2x2x2 cube, while the turn that the key `R` started is being
animated, a press of the space bar (with `rand()` returning `0` throughout) runs
`shuffleCube` and moves the cube `0` from the grid coordinate `(0,1,0)` to `(0,0,1)`; and on
the 3x3x3 cube in mirror mode, a press of `P` during the animation rebuilds the cube in void
mode, with `20` cubes in the place of `26`. -/
theorem C18_shuffle_while_animating :
    ((rotateCubeByKey 82 (build 2 0 : State ℤ)).rotating = true ∧
      (rotateCubeByKey 82 (build 2 0 : State ℤ)).pnOf 0 = some ⟨0, 1, 0⟩ ∧
      (keyboardEvent (Angle.quarter : Angle ℤ) (fun _ => 0) 32 1 0
        (rotateCubeByKey 82 (build 2 0))).pnOf 0 = some ⟨0, 0, 1⟩) ∧
    ((rotateCubeByKey 82 (build 3 1 : State ℤ)).rotating = true ∧
      (rotateCubeByKey 82 (build 3 1 : State ℤ)).Cubes.length = 26 ∧
      (keyboardEvent (Angle.quarter : Angle ℤ) (fun _ => 0) 80 1 0
        (rotateCubeByKey 82 (build 3 1))).Cubes.length = 20) := by
  constructor
  · have hrot : (rotateCubeByKey 82 (build 2 0 : State ℤ)).rotating = true := by
      simp [rotateCubeByKey, toChar, selectPlane]
    have hinv :
        Inv ({ rotateCubeByKey 82 (build 2 0 : State ℤ) with pressKey := 32 } : State ℤ) :=
      (inv_build 2 0 (by decide) : Inv (build 2 0 : State ℤ)).transfer
        (by simp [rotateCubeByKey, toChar, selectPlane])
        (fun fam => by cases fam <;> simp [rotateCubeByKey, toChar, selectPlane, State.planes])
        (fun j => by simp [rotateCubeByKey, toChar, selectPlane])
    have hp0 : (rotateCubeByKey 82 (build 2 0 : State ℤ)).pnOf 0 = some ⟨0, 1, 0⟩ := by
      have : (rotateCubeByKey 82 (build 2 0 : State ℤ)).pnOf 0 =
          (build 2 0 : State ℤ).pnOf 0 := by
        simp [rotateCubeByKey, toChar, selectPlane, State.pnOf]
      rw [this, build_pnOf]; decide
    refine ⟨hrot, hp0, ?_⟩
    rw [keyboardEvent_space _ _ _ hrot]
    have hs : shuffleCube (Angle.quarter : Angle ℤ) (fun _ => 0)
        { rotateCubeByKey 82 (build 2 0 : State ℤ) with pressKey := 32 } =
        (List.range 10).foldl (fun st _ => shuffleStep Angle.quarter 0 0 0 st)
          { rotateCubeByKey 82 (build 2 0 : State ℤ) with pressKey := 32 } := rfl
    rw [hs, foldl_shuffleStep_zero_pnOf _ _ _ hinv]
    have hp1 :
        ({ rotateCubeByKey 82 (build 2 0 : State ℤ) with pressKey := 32 } : State ℤ).pnOf 0
          = some ⟨0, 1, 0⟩ := hp0
    have hN :
        ({ rotateCubeByKey 82 (build 2 0 : State ℤ) with pressKey := 32 } : State ℤ).N = 2 := by
      simp [rotateCubeByKey, toChar, selectPlane, build_N]
    rw [hp1, hN]
    decide
  · have hrot : (rotateCubeByKey 82 (build 3 1 : State ℤ)).rotating = true := by
      simp [rotateCubeByKey, toChar, selectPlane]
    have hc : (rotateCubeByKey 82 (build 3 1 : State ℤ)).Cubes =
        (build 3 1 : State ℤ).Cubes := by
      simp [rotateCubeByKey, toChar, selectPlane]
    have hN : (rotateCubeByKey 82 (build 3 1 : State ℤ)).N = 3 := by
      simp [rotateCubeByKey, toChar, selectPlane, build_N]
    have hm : (rotateCubeByKey 82 (build 3 1 : State ℤ)).mode = 1 := by
      simp [rotateCubeByKey, toChar, selectPlane, (build_idle 3 1).2.2]
    refine ⟨hrot, ?_, ?_⟩
    · rw [hc, build_Cubes, List.length_map, length_newCubes_three]
      rfl
    · rw [keyboardEvent_P _ _ _ hrot]
      exact changeMode_void_length _ 80 hN hm

/-- C19: in a state reached from `initCube(n)` (`n ≥ 2`), a cube of type `1` is in a corner
cell (all three components of its grid coordinate in `{0, n-1}`), a cube of type `2` in an
edge cell (exactly two), a cube of type `3` in a face cell (exactly one), and every cube has
one of these types; a further `rotate` keeps the type of the cube and the kind of its cell. -/
theorem C19_type_matches_cell (q : Angle α) (n mode : Int) (hn : 2 ≤ n) (s : State α)
    (hs : Reachable q n mode s) (i : Nat) (c : Cube α) (hc : s.Cubes[i]? = some c) :
    (c.cubeType = 1 → IsCornerCell n c.pn) ∧ (c.cubeType = 2 → IsEdgeCell n c.pn) ∧
    (c.cubeType = 3 → IsFaceCell n c.pn) ∧
    (c.cubeType = 1 ∨ c.cubeType = 2 ∨ c.cubeType = 3) ∧
    (∀ (A : Int) (d : Bool) (k : Int), (A = 0 ∨ A = 1 ∨ A = 2) → 0 ≤ k → k < n →
      ∀ c' : Cube α, (rotate q A d ⟨axisFamily A, k⟩ s).Cubes[i]? = some c' →
        c'.cubeType = c.cubeType ∧ TypeCell n c.cubeType c'.pn) := by
  have h := hs.typeCell hn i c hc
  refine ⟨?_, ?_, ?_, ?_, ?_⟩
  · intro ht
    rcases h with h | h | h
    · exact h.2
    · omega
    · omega
  · intro ht
    rcases h with h | h | h
    · omega
    · exact h.2
    · omega
  · intro ht
    rcases h with h | h | h
    · omega
    · omega
    · exact h.2
  · rcases h with h | h | h
    · exact Or.inl h.1
    · exact Or.inr (Or.inl h.1)
    · exact Or.inr (Or.inr h.1)
  · intro A d k hA hk0 hk1 c' hc'
    have h' := (Reachable.rotate A d k hs hA hk0 hk1).typeCell hn i c' hc'
    have ht : c'.cubeType = c.cubeType := by
      rw [rotate_Cubes_getElem?, hc] at hc'
      split_ifs at hc'
      · simp only [Option.map_some', Option.some.injEq] at hc'
        rw [← hc']; rfl
      · simp only [Option.some.injEq] at hc'
        rw [hc']
    exact ⟨ht, ht ▸ h'⟩

/-- C19 at the 2x2x2 cube: the cube `0` is in a corner cell when its type is `1`. -/
theorem C19_type_matches_cell_witness :
    (2 : Int) ≤ 2 ∧ Reachable (Angle.quarter : Angle ℤ) 2 0 (build 2 0) ∧
    ∃ c : Cube ℤ, (build 2 0 : State ℤ).Cubes[0]? = some c ∧
      (c.cubeType = 1 → IsCornerCell 2 c.pn) := by
  obtain ⟨c, hc, _⟩ := getElem?_of_pnOf build_pnOf_two_zero
  exact ⟨by decide, Reachable.init, c, hc,
    (C19_type_matches_cell Angle.quarter 2 0 (by decide) (build 2 0) Reachable.init 0 c hc).1⟩

/-- C20: in a state reached from `initCube(n)` (`n ≥ 1`, any mode), every component `p` of
the reference position of every cube satisfies `-(n-1) ≤ p ≤ n-1` with `p + (n-1)` even;
`position + (n-1)` is exactly twice the grid coordinate that the truncating cast of
`initCube` and `resetCube` computes, which is in `[0, n-1]` on every axis; the map
`p ↦ (p + (n-1)) / 2` sends the symmetric range onto `[0, n-1]`; and on every axis every
layer index in `[0, n-1]` is the grid coordinate of some cube. -/
theorem C20_positions_exact (q : Angle α) (n mode : Int) (hn : 1 ≤ n) (s : State α)
    (hs : Reachable q n mode s) :
    (∀ (i : Nat) (c : Cube α), s.Cubes[i]? = some c →
      (SymRange n c.position.x ∧ SymRange n c.position.y ∧ SymRange n c.position.z) ∧
      c.position + Vec3.splat (n - 1) =
        ⟨2 * (gridCoord n c.position).x, 2 * (gridCoord n c.position).y,
          2 * (gridCoord n c.position).z⟩ ∧
      InRange n (gridCoord n c.position)) ∧
    (∀ v : Int, 0 ≤ v → v < n →
      ∃ p : Int, SymRange n p ∧ (p + (n - 1)).tdiv 2 = v) ∧
    (∀ (fam : Family) (v : Int), 0 ≤ v → v < n →
      ∃ (i : Nat) (c : Cube α), s.Cubes[i]? = some c ∧
        (gridCoord n c.position).along fam = v) := by
  refine ⟨?_, ?_, ?_⟩
  · intro i c hc
    obtain ⟨c0, hc0, hp⟩ := hs.position i c hc
    have hd := newCubes_double n mode c0 hc0
    have hr := newCubes_pos n mode hn c0 hc0
    rw [hp] at hd hr
    refine ⟨?_, hd, hr⟩
    rw [Vec3.add_def] at hd
    simp only [Vec3.splat, Vec3.mk.injEq] at hd
    obtain ⟨hx, hy, hz⟩ := hr
    exact ⟨(symRange_of_double n _ _ hx hd.1).1, (symRange_of_double n _ _ hy hd.2.1).1,
      (symRange_of_double n _ _ hz hd.2.2).1⟩
  · intro v h0 h1
    refine ⟨2 * v - (n - 1), ?_⟩
    have := symRange_of_double n (2 * v - (n - 1)) v ⟨h0, h1⟩ (by omega)
    exact ⟨this.1, this.2.1⟩
  · intro fam v h0 h1
    have hb := Reachable.cellsOK hn (Reachable.reset hs)
    have h00 : onFace n 0 := Or.inl rfl
    have hr0 : (0 : Int) ≤ 0 ∧ (0 : Int) < n := ⟨le_refl 0, by omega⟩
    have hocc : OccupiedCell n mode
        (match fam with
          | Family.X => ⟨v, 0, 0⟩
          | Family.Y => ⟨0, v, 0⟩
          | Family.Z => ⟨0, 0, v⟩) := by
      unfold OccupiedCell VoidCell ShellCell InRange
      cases fam
      · split_ifs
        · exact ⟨⟨⟨h0, h1⟩, hr0, hr0⟩, Or.inr (Or.inr ⟨h00, h00⟩)⟩
        · exact ⟨⟨⟨h0, h1⟩, hr0, hr0⟩, Or.inr (Or.inl h00)⟩
      · split_ifs
        · exact ⟨⟨hr0, ⟨h0, h1⟩, hr0⟩, Or.inr (Or.inl ⟨h00, h00⟩)⟩
        · exact ⟨⟨hr0, ⟨h0, h1⟩, hr0⟩, Or.inl h00⟩
      · split_ifs
        · exact ⟨⟨hr0, hr0, ⟨h0, h1⟩⟩, Or.inl ⟨h00, h00⟩⟩
        · exact ⟨⟨hr0, hr0, ⟨h0, h1⟩⟩, Or.inl h00⟩
    obtain ⟨i, hi⟩ := (hb.2 _).mpr hocc
    obtain ⟨c, hc, hcp⟩ := getElem?_of_pnOf hi
    rw [resetCube_Cubes, List.getElem?_map] at hc
    cases hs0 : s.Cubes[i]? with
    | none => rw [hs0] at hc; cases hc
    | some c0 =>
      rw [hs0] at hc
      simp only [Option.map_some', Option.some.injEq] at hc
      refine ⟨i, c0, hs0, ?_⟩
      have e : gridCoord n c0.position = c.pn := by
        rw [← hc, ← hs.N_eq]; rfl
      rw [e, hcp]
      cases fam <;> rfl

/-- C20 at the 2x2x2 cube: the layer index `1` is the image of a reference coordinate of the
symmetric range. -/
theorem C20_positions_exact_witness :
    (1 : Int) ≤ 2 ∧ Reachable (Angle.quarter : Angle ℤ) 2 0 (build 2 0) ∧
    ∃ p : Int, SymRange 2 p ∧ (p + (2 - 1)).tdiv 2 = 1 :=
  ⟨by decide, Reachable.init,
    (C20_positions_exact (Angle.quarter : Angle ℤ) 2 0 (by decide) (build 2 0 : State ℤ)
      Reachable.init).2.1 1 (by decide) (by decide)⟩

end Claims

end RubiksCube
